import Mathlib

/-!
# Dependency handling of the `hzn dev` tooling (`cli/dev/dependency.go`)

A shallow embedding of the wildcard-aware `ServiceSpec` matcher, the in-memory
dependency nodes, the recursive graph builder, the remover, the validator, the
fetcher with the names of the dependency files, the input check of a fetch and
the merge of global attributes, followed by the properties established about
them.

Go pointers to `ServiceSpec` values are never written through, so they are
modelled by the values themselves.  The slice of `*ServiceDependency` nodes is
append-only during graph construction, so a pointer to a node is modelled by the
node's position in the list.
-/

namespace Anax

/-! ## Data model -/

/-- The identity descriptor `ServiceSpec` (dependency.go, lines 63-68). -/
structure ServiceSpec where
  SpecRef : String
  Org : String
  Version : String
  Arch : String
deriving DecidableEq, Repr

/-- The constructor `NewServiceSpec` (lines 70-77). -/
def NewServiceSpec (specref org version arch : String) : ServiceSpec :=
  { SpecRef := specref, Org := org, Version := version, Arch := arch }

/-- The method `ServiceSpec.Matches` (lines 83-88): field by field, an empty
string on either side is a wildcard. -/
def ServiceSpec.Matches (sp sp2 : ServiceSpec) : Bool :=
  (sp.Org == "" || sp2.Org == "" || sp.Org == sp2.Org) &&
  (sp.SpecRef == "" || sp2.SpecRef == "" || sp.SpecRef == sp2.SpecRef) &&
  (sp.Version == "" || sp2.Version == "" || sp.Version == sp2.Version) &&
  (sp.Arch == "" || sp2.Arch == "" || sp.Arch == sp2.Arch)

/-- The part of `os.FileInfo` the dependency code looks at. -/
structure FileInfo where
  Name : String
  IsDir : Bool := false
deriving DecidableEq, Repr

/-- The graph node `ServiceDependency` (lines 32-36). -/
structure ServiceDependency where
  Service : ServiceSpec
  TopSvcRefs : List ServiceSpec
  FileInfo : FileInfo
deriving DecidableEq, Repr

/-- The constructor `NewServiceDependency` (lines 38-44). -/
def NewServiceDependency (service topService : ServiceSpec) (fileInfo : FileInfo) :
    ServiceDependency :=
  { Service := service, FileInfo := fileInfo, TopSvcRefs := [topService] }

/-- The method `AddTopRef` (lines 47-57): the loop sets `foundTop` when an
entry matches and never breaks; the append happens when it stayed false. -/
def ServiceDependency.AddTopRef (sd : ServiceDependency) (topService : ServiceSpec) :
    ServiceDependency :=
  let foundTop := sd.TopSvcRefs.foldl
    (fun foundTop top_temp => if top_temp.Matches topService then true else foundTop) false
  if !foundTop then { sd with TopSvcRefs := sd.TopSvcRefs ++ [topService] } else sd

/-! ## Stored definitions and the project directory -/

/-- One entry of a `RequiredServices` list (`exchange.ServiceDependency`):
the fields the dependency code reads. -/
structure RequiredService where
  URL : String
  Org : String
  Version : String
  Arch : String
deriving DecidableEq, Repr

/-- A declared user input of a service (`exchange.UserInput`): the fields the
dependency code reads. -/
structure UserInput where
  Name : String
  DefaultValue : String
deriving DecidableEq, Repr

/-- A service definition file (`cliexchange.ServiceFile`): the fields the
dependency code reads through `GetURL`, `GetOrg`, `GetVersion`, `GetArch`,
`GetUserInputs` and `RequiredServices`. -/
structure ServiceFile where
  Org : String
  URL : String
  Version : String
  Arch : String
  RequiredServices : List RequiredService := []
  UserInputs : List UserInput := []
deriving DecidableEq, Repr

/-- The spec a record resolves to, `NewServiceSpec(dep.GetURL(), dep.GetOrg(),
dep.GetVersion(), dep.GetArch())` (line 881). -/
def ServiceFile.spec (dep : ServiceFile) : ServiceSpec :=
  NewServiceSpec dep.URL dep.Org dep.Version dep.Arch

/-- The spec of a required-service declaration, `NewServiceSpec(s.URL, s.Org,
s.Version, s.Arch)` (lines 852 and 892). -/
def RequiredService.spec (s : RequiredService) : ServiceSpec :=
  NewServiceSpec s.URL s.Org s.Version s.Arch

/-- One entry of the project's `dependencies` directory: what `ioutil.ReadDir`
reports about it and what reading and unmarshalling it gives. -/
structure DirEntry where
  info : FileInfo
  content : Except String ServiceFile

/-- A per-service variable configuration block of the user input file
(`register.MicroWork`). -/
structure MicroWork where
  Org : String
  Url : String
  VersionRange : String
  Variables : List (String × String)
deriving DecidableEq, Repr

/-- The on-disk state of a project directory as far as the dependency code
reads and writes it: the project's own definition file, the listing of its
`dependencies` directory and the per-service blocks of its user input file. -/
structure Project where
  definition : Except String ServiceFile
  dependencies : Except String (List DirEntry)
  userInputs : List MicroWork := []

/-- Modelled from the spec: `GetServiceDefinition` (defined outside
dependency.go) applied to the `dependencies` directory, the spec's
`readDependencyDefinition(dir, filename)`: it deserializes the named file and
fails when the file cannot be read or its content is malformed. -/
def Project.readDependency (proj : Project) (name : String) : Except String ServiceFile :=
  match proj.dependencies with
  | .error err => .error err
  | .ok entries =>
    match entries.find? (fun e => e.info.Name == name) with
    | some e => e.content
    | none => .error ("open " ++ name ++ ": no such file or directory")

/-- The function `GetDependencyFiles` (lines 201-217): the regular files of the
`dependencies` directory whose name ends with the suffix. -/
def GetDependencyFiles (proj : Project) (fileSuffix : String) : Except String (List FileInfo) :=
  match proj.dependencies with
  | .error err =>
    .error ("unable to get list of dependency files in dependencies, error: " ++ err)
  | .ok files =>
    .ok ((files.map (fun e => e.info)).filter
      (fun fileInfo => fileSuffix.data.isSuffixOf fileInfo.Name.data && !fileInfo.IsDir))

/-! ## The graph builder -/

/-- The effect of `theItem.AddTopRef(spTop)` on the node list, `theItem`
being the node at position `i`. -/
def addTopRefAt (spTop : ServiceSpec) : List ServiceDependency → Nat → List ServiceDependency
  | [], _ => []
  | d :: rest, 0 => d.AddTopRef spTop :: rest
  | d :: rest, i + 1 => d :: addTopRefAt spTop rest i

/-- The loop over `dep.RequiredServices` (lines 891-894).  `recCall` is the
recursive call with `dir`, `spTop` and `depFiles` fixed; the error it returns is
dropped by the caller, the nodes it added stay. `none` means that a recursive
call did not return. -/
def requiredServicesLoop
    (recCall : ServiceSpec → List ServiceDependency → Option (List ServiceDependency × Option String)) :
    List RequiredService → List ServiceDependency → Option (List ServiceDependency)
  | [], deps => some deps
  | s :: rest, deps =>
    match recCall s.spec deps with
    | none => none
    | some (deps1, _) => requiredServicesLoop recCall rest deps1

/-- The loop over `depFiles` (lines 873-896).  `theItem` was computed before
the loop and is not refreshed inside it. -/
def depFilesLoop (GetServiceDefinition : String → Except String ServiceFile)
    (recCall : ServiceSpec → List ServiceDependency → Option (List ServiceDependency × Option String))
    (spTop sp : ServiceSpec) (theItem : Option Nat) :
    List FileInfo → List ServiceDependency → Option (List ServiceDependency × Option String)
  | [], deps => some (deps, none)
  | fileInfo :: rest, deps =>
    match GetServiceDefinition fileInfo.Name with
    | .error err => some (deps, some err)
    | .ok dep =>
      let sp_temp := dep.spec
      if sp_temp.Matches sp then
        let deps1 :=
          match theItem with
          | none => deps ++ [NewServiceDependency sp_temp spTop fileInfo]
          | some i => addTopRefAt spTop deps i
        match requiredServicesLoop recCall dep.RequiredServices deps1 with
        | none => none
        | some deps2 =>
          depFilesLoop GetServiceDefinition recCall spTop sp theItem rest deps2
      else
        depFilesLoop GetServiceDefinition recCall spTop sp theItem rest deps

/-- The function `getDependencyDependencyInfo` (lines 861-899).  The first
argument bounds the depth of the recursion: the Go function has no cycle
guard, and `none` stands for a walk that is deeper than the bound.  The result
is the node list written through `deps` together with the returned error. -/
def getDependencyDependencyInfo (GetServiceDefinition : String → Except String ServiceFile) :
    Nat → ServiceSpec → ServiceSpec → List FileInfo → List ServiceDependency →
    Option (List ServiceDependency × Option String)
  | 0, _, _, _, _ => none
  | fuel + 1, spTop, sp, depFiles, deps =>
    let theItem := deps.findIdx? (fun d => d.Service.Matches sp)
    depFilesLoop GetServiceDefinition
      (fun sp_dep_temp deps1 =>
        getDependencyDependencyInfo GetServiceDefinition fuel spTop sp_dep_temp depFiles deps1)
      spTop sp theItem depFiles deps

/-- The loop over `svc.RequiredServices` in `getDependencyInfo` (lines
851-854): each declaration is both the top reference and the search spec, and
the error of the walk is dropped. -/
def topServicesLoop (GetServiceDefinition : String → Except String ServiceFile) (fuel : Nat)
    (depFiles : List FileInfo) :
    List RequiredService → List ServiceDependency → Option (List ServiceDependency)
  | [], deps => some deps
  | s :: rest, deps =>
    match getDependencyDependencyInfo GetServiceDefinition fuel s.spec s.spec depFiles deps with
    | none => none
    | some (deps1, _) => topServicesLoop GetServiceDefinition fuel depFiles rest deps1

/-- The function `getDependencyInfo` (lines 838-858), on the project `proj`;
`SERVICE_DEFINITION_FILE` is the constant of that name, declared outside
dependency.go. -/
def getDependencyInfo (SERVICE_DEFINITION_FILE : String) (fuel : Nat) (proj : Project) :
    Option (List ServiceDependency × Option String) :=
  match proj.definition with
  | .error err => some ([], some err)
  | .ok svc =>
    match GetDependencyFiles proj SERVICE_DEFINITION_FILE with
    | .error err => some ([], some err)
    | .ok depFiles =>
      match topServicesLoop proj.readDependency fuel depFiles svc.RequiredServices [] with
      | none => none
      | some deps => some (deps, none)

/-! ## The remover -/

/-- The effect of `os.Remove` on a file of the `dependencies` directory: the
entry of that name disappears, and a missing entry is an error. -/
def Project.removeDependencyFile (proj : Project) (name : String) : Project × Option String :=
  match proj.dependencies with
  | .error err => (proj, some err)
  | .ok entries =>
    if entries.any (fun e => e.info.Name == name) then
      ({ proj with dependencies := .ok (entries.filter (fun e => !(e.info.Name == name))) }, none)
    else
      (proj, some ("remove " ++ name ++ ": no such file or directory"))

/-- The text `err_string` grows by when a step returned an error. -/
def errText (pre : String) (e : Option String) (post : String) : String :=
  match e with
  | some err => pre ++ err ++ post
  | none => ""

/-- The function `removeDependencyFromProject` (lines 945-983).
`RemoveServiceDependency` and `RemoveConfiguredVariables` are the functions of
those names, defined outside dependency.go; they get the project and the
definition read from the dependency file (`none` when reading it failed) and
give the updated project and their error.  The result is the project
afterwards and the accumulated `err_string` when it is not empty, in which
case the Go code ends the process with `cliutils.Fatal`. -/
def removeDependencyFromProject
    (RemoveServiceDependency : Project → Option ServiceFile → Project × Option String)
    (RemoveConfiguredVariables : Project → Option ServiceFile → Project × Option String)
    (proj : Project) (sd : ServiceDependency) (onlyRemoveFromSvcDef : Bool) :
    Project × Option String :=
  let name := sd.FileInfo.Name
  let read := proj.readDependency name
  let theDep : Option ServiceFile := match read with
    | .ok d => some d
    | .error _ => none
  let err0 := match read with
    | .ok _ => ""
    | .error err => "Could not read the dependency file " ++ name ++ ". Error: " ++ err ++ "\n"
  let r1 := RemoveServiceDependency proj theDep
  let err1 := err0 ++ errText "Error updating project definition: " r1.2 "\n"
  let r3 : Project × String :=
    if !onlyRemoveFromSvcDef then
      let r2 := r1.1.removeDependencyFile name
      let err2 := err1 ++ errText ("Dependency " ++ name ++ " could not be removed. Error: ") r2.2 "\n"
      let r3 := RemoveConfiguredVariables r2.1 theDep
      (r3.1, err2 ++ errText "Error updating userinputs: " r3.2 "")
    else (r1.1, err1)
  if r3.2 != "" then (r3.1, some r3.2) else (r3.1, none)

/-- The inner loop of `removeDependencyAndChildren` over `dep.TopSvcRefs`
(lines 914-934).  The state is the project and the flag `found`; a third
component that is not `none` is the message of a `cliutils.Fatal`, which ends
the run at once. -/
def removeTopRefsLoop
    (RemoveServiceDependency : Project → Option ServiceFile → Project × Option String)
    (RemoveConfiguredVariables : Project → Option ServiceFile → Project × Option String)
    (topDep : ServiceSpec) (dep : ServiceDependency) :
    List ServiceSpec → Project → Bool → Project × Bool × Option String
  | [], proj, found => (proj, found, none)
  | dep_tmp :: rest, proj, found =>
    if dep_tmp.Matches topDep then
      if dep.TopSvcRefs.length ≤ 1 then
        match removeDependencyFromProject RemoveServiceDependency RemoveConfiguredVariables
            proj dep false with
        | (proj1, some msg) => (proj1, true, some msg)
        | (proj1, none) =>
          removeTopRefsLoop RemoveServiceDependency RemoveConfiguredVariables topDep dep
            rest proj1 true
      else if dep.TopSvcRefs.length > 1 then
        if dep.Service.Matches topDep then
          match removeDependencyFromProject RemoveServiceDependency RemoveConfiguredVariables
              proj dep true with
          | (proj1, some msg) => (proj1, true, some msg)
          | (proj1, none) =>
            removeTopRefsLoop RemoveServiceDependency RemoveConfiguredVariables topDep dep
              rest proj1 true
        else
          removeTopRefsLoop RemoveServiceDependency RemoveConfiguredVariables topDep dep
            rest proj true
      else
        removeTopRefsLoop RemoveServiceDependency RemoveConfiguredVariables topDep dep
          rest proj true
    else
      removeTopRefsLoop RemoveServiceDependency RemoveConfiguredVariables topDep dep
        rest proj found

/-- The outer loop of `removeDependencyAndChildren` over the nodes (lines
913-935). -/
def removeDepsLoop
    (RemoveServiceDependency : Project → Option ServiceFile → Project × Option String)
    (RemoveConfiguredVariables : Project → Option ServiceFile → Project × Option String)
    (topDep : ServiceSpec) :
    List ServiceDependency → Project → Bool → Project × Bool × Option String
  | [], proj, found => (proj, found, none)
  | dep :: rest, proj, found =>
    match removeTopRefsLoop RemoveServiceDependency RemoveConfiguredVariables topDep dep
        dep.TopSvcRefs proj found with
    | (proj1, found1, some msg) => (proj1, found1, some msg)
    | (proj1, found1, none) =>
      removeDepsLoop RemoveServiceDependency RemoveConfiguredVariables topDep rest proj1 found1

/-- How a run of `removeDependencyAndChildren` ends: it returns, or it ends
the process through one of its three `cliutils.Fatal` calls. -/
inductive RemoveResult where
  | returned
  | fatalList (err : String)
  | fatalRemove (err_string : String)
  | fatalNotFound
deriving DecidableEq, Repr

/-- The function `removeDependencyAndChildren` (lines 902-940): the project
afterwards and how the run ended; `none` when the graph walk is deeper than
`fuel`. -/
def removeDependencyAndChildren (SERVICE_DEFINITION_FILE : String)
    (RemoveServiceDependency : Project → Option ServiceFile → Project × Option String)
    (RemoveConfiguredVariables : Project → Option ServiceFile → Project × Option String)
    (fuel : Nat) (proj : Project) (specRef org version arch : String) :
    Option (Project × RemoveResult) :=
  let topDep := NewServiceSpec specRef org version arch
  match getDependencyInfo SERVICE_DEFINITION_FILE fuel proj with
  | none => none
  | some (_, some err) => some (proj, RemoveResult.fatalList err)
  | some (deps, none) =>
    match removeDepsLoop RemoveServiceDependency RemoveConfiguredVariables topDep deps proj false with
    | (proj1, _, some msg) => some (proj1, RemoveResult.fatalRemove msg)
    | (proj1, found, none) =>
      if !found then some (proj1, RemoveResult.fatalNotFound)
      else some (proj1, RemoveResult.returned)

/-- The declaration `s` is not a declaration of the service of `dep`: its URL
or its organization differs. -/
def keepsDeclaration (dep : ServiceFile) (s : RequiredService) : Bool :=
  !(s.URL == dep.URL && s.Org == dep.Org)

/-- The configuration block `b` is not keyed to `dep`: its (url, org,
versionRange) is not the (URL, org, version) of `dep`. -/
def keepsBlock (dep : ServiceFile) (b : MicroWork) : Bool :=
  !(b.Url == dep.URL && b.Org == dep.Org && b.VersionRange == dep.Version)

/-- The project definition `svc` without the declarations of the service of
`dep`. -/
def ServiceFile.withoutDeclarationsOf (svc dep : ServiceFile) : ServiceFile :=
  { svc with RequiredServices := svc.RequiredServices.filter (keepsDeclaration dep) }

/-- Modelled from the spec: `RemoveServiceDependency` (defined outside
dependency.go), which removes the dependency from the project's
required-services list: the entries of the project definition that declare
the service of the dependency, identified by URL and organization, are dropped
and the definition is written back.  It fails when there is no dependency
definition to go by or when the project definition cannot be read. -/
def RemoveServiceDependency (proj : Project) (theDep : Option ServiceFile) :
    Project × Option String :=
  match theDep with
  | none => (proj, some "no dependency definition")
  | some dep =>
    match proj.definition with
    | .error err => (proj, some err)
    | .ok svc => ({ proj with definition := .ok (svc.withoutDeclarationsOf dep) }, none)

/-- Modelled from the spec: `RemoveConfiguredVariables` (defined outside
dependency.go), which strips the per-service configuration entries keyed to
the dependency: the blocks of the user input file whose (url, org,
versionRange) is the (URL, org, version) of the dependency are dropped.  It
fails when there is no dependency definition to go by. -/
def RemoveConfiguredVariables (proj : Project) (theDep : Option ServiceFile) :
    Project × Option String :=
  match theDep with
  | none => (proj, some "no dependency definition")
  | some dep => ({ proj with userInputs := proj.userInputs.filter (keepsBlock dep) }, none)

/-! ## Names of the dependency files -/

/-- The character class `[A-Za-z0-9+.-]` of the first regular expression. -/
def isSchemeChar (c : Char) : Bool :=
  ('A' ≤ c && c ≤ 'Z') || ('a' ≤ c && c ≤ 'z') || ('0' ≤ c && c ≤ '9') ||
    c == '+' || c == '.' || c == '-'

/-- The characters of the class `[$!*,;/?@&~=%]` of the second regular
expression. -/
def reservedChars : List Char := ['$', '!', '*', ',', ';', '/', '?', '@', '&', '~', '=', '%']

/-- The text left after `://` when the text starts with it. -/
def afterSeparator : List Char → Option (List Char)
  | ':' :: '/' :: '/' :: rest => some rest
  | _ => none

/-- A match of `^[A-Za-z0-9+.-]*?://` at the start of the text: the lazy star
first tries to go on with `://` and takes one more character of the class only
when that fails.  The result is the text after the match. -/
def matchScheme : List Char → Option (List Char)
  | [] => none
  | c :: rest =>
    match afterSeparator (c :: rest) with
    | some after => some after
    | none => if isSchemeChar c then matchScheme rest else none

/-- The call `re.ReplaceAllLiteralString(s, "")` for `^[A-Za-z0-9+.-]*?://`:
the expression is anchored, so at most the one match at the start is removed. -/
def removeScheme (s : List Char) : List Char :=
  match matchScheme s with
  | some after => after
  | none => s

/-- The call `re.ReplaceAllLiteralString(s, "-")` for `[$!*,;/?@&~=%]`: every
character of the class becomes a hyphen. -/
def replaceReserved (s : List Char) : List Char :=
  s.map (fun c => if c ∈ reservedChars then '-' else c)

/-- The function `createDependencyFileName` (lines 660-668); `ExpandEnv` is
`cliutils.ExpandEnv`, defined outside dependency.go. -/
def createDependencyFileName (ExpandEnv : String → String) (org url version suffix : String) :
    String :=
  let url2 := removeScheme (ExpandEnv url).data
  let url3 := replaceReserved url2
  org ++ "_" ++ String.mk url3 ++ "_" ++ ExpandEnv version ++ "." ++ suffix

/-! ## The validator -/

/-- The version-range collaborator (package `policy`, outside this
repository's sources): `Version_Expression_Factory` parses a range,
`Is_within_range` tests a version against it, `Get_expression` prints it. -/
structure VersionCollaborator where
  Range : Type
  Version_Expression_Factory : String → Except String Range
  Is_within_range : Range → String → Except String Bool
  Get_expression : Range → String

/-- The test `_, ok := msUI.Variables[name]` on the variables of a block. -/
def MicroWork.hasVariable (msUI : MicroWork) (name : String) : Bool :=
  msUI.Variables.any (fun kv => kv.1 == name)

/-- The inner loop of `validateDependencyUserInputs` (lines 334-341): whether
a block for the dependency's URL, with a compatible organization, has the
variable; the loop stops at the first such block. -/
def findConfiguredVariable (d : ServiceFile) (name : String) : List MicroWork → Bool
  | [] => false
  | msUI :: rest =>
    if d.URL == msUI.Url && (d.Org == "" || msUI.Org == "" || d.Org == msUI.Org) then
      if msUI.hasVariable name then true
      else findConfiguredVariable d name rest
    else findConfiguredVariable d name rest

/-- The function `validateDependencyUserInputs` (lines 330-348); the result is
the returned error, `none` for nil. -/
def validateDependencyUserInputs (d : ServiceFile) (uis : List UserInput)
    (configUserInputs : List MicroWork) (userInputsFilePath : String) : Option String :=
  match uis with
  | [] => none
  | ui :: rest =>
    if ui.DefaultValue == "" then
      let found := findConfiguredVariable d ui.Name configUserInputs
      if !found then
        some ("variable " ++ ui.Name ++ " has no default and must be specified in " ++
          userInputsFilePath)
      else validateDependencyUserInputs d rest configUserInputs userInputsFilePath
    else validateDependencyUserInputs d rest configUserInputs userInputsFilePath

/-- The function `ValidateService` (lines 320-328); `userInputs` is the
`Services` list of the user input file. -/
def ValidateService (proj : Project) (fInfo : FileInfo) (userInputs : List MicroWork)
    (userInputsFilePath : String) : Option String :=
  match proj.readDependency fInfo.Name with
  | .error err => some err
  | .ok d => validateDependencyUserInputs d d.UserInputs userInputs userInputsFilePath

/-- The inner loop of the presence check of `ValidateDependencies` (lines
274-285) for the declaration `rs`: an error ends the validation, otherwise the
result is the flag `found`. -/
def findDependencyInRange (vc : VersionCollaborator) (proj : Project) (rs : RequiredService) :
    List FileInfo → Except String Bool
  | [] => .ok false
  | fileInfo :: rest =>
    match proj.readDependency fileInfo.Name with
    | .error err =>
      .error ("dependency validation failed, unable to read " ++ fileInfo.Name ++
        ", error: " ++ err)
    | .ok dDef =>
      match vc.Version_Expression_Factory rs.Version with
      | .error err =>
        .error ("dependency validation failed, dependency " ++ fileInfo.Name ++
          " has an invalid version " ++ rs.Version ++ ", error: " ++ err)
      | .ok vRange =>
        match vc.Is_within_range vRange dDef.Version with
        | .error err =>
          .error ("dependency validation failed, unable to verify version range " ++
            dDef.Version ++ " is within required range " ++ vc.Get_expression vRange ++
            ", error: " ++ err)
        | .ok inRange =>
          if inRange then .ok true
          else findDependencyInRange vc proj rs rest

/-- The presence check of `ValidateDependencies` (lines 271-294), the loop over
the project's required services.  `DependencyFetch` is the call of line 288,
used only when `autoAddDep` is set; an error from it stands for the process
ending inside the fetch.  The result is the returned error, or the project
afterwards and the flag `hasNewDepFile`. -/
def presenceCheck (vc : VersionCollaborator)
    (DependencyFetch : Project → RequiredService → Except String Project)
    (deps : List FileInfo) (autoAddDep : Bool) :
    List RequiredService → Project → Bool → Except String (Project × Bool)
  | [], proj, hasNewDepFile => .ok (proj, hasNewDepFile)
  | rs :: rest, proj, hasNewDepFile =>
    match findDependencyInRange vc proj rs deps with
    | .error err => .error err
    | .ok found =>
      if !found then
        if autoAddDep then
          match DependencyFetch proj rs with
          | .error err => .error err
          | .ok proj1 => presenceCheck vc DependencyFetch deps autoAddDep rest proj1 true
        else
          .error ("dependency " ++ rs.URL ++ " at version " ++ rs.Version ++
            " does not exist in dependencies.")
      else presenceCheck vc DependencyFetch deps autoAddDep rest proj hasNewDepFile

/-- The last loop of `ValidateDependencies` (lines 308-314): each dependency
file is validated, and the first error is returned.  `ValidateServiceDefinition`
is the function of that name, defined outside dependency.go. -/
def validateDependencyFiles (ValidateServiceDefinition : Project → String → Option String)
    (proj : Project) (userInputs : List MicroWork) (userInputsFilePath : String) :
    List FileInfo → Option String
  | [] => none
  | fileInfo :: rest =>
    match ValidateServiceDefinition proj fileInfo.Name with
    | some err => some ("dependency " ++ fileInfo.Name ++ " did not validate, error: " ++ err)
    | none =>
      match ValidateService proj fileInfo userInputs userInputsFilePath with
      | some err => some ("dependency " ++ fileInfo.Name ++ " did not validate, error: " ++ err)
      | none =>
        validateDependencyFiles ValidateServiceDefinition proj userInputs userInputsFilePath rest

/-- The function `ValidateDependencies` (lines 255-318).  `serviceProject` is
the test `projectType == SERVICE_COMMAND || IsServiceProject(directory)`;
`GetUserInputs` and `ValidateServiceDefinition` are the functions of those
names, defined outside dependency.go.  The result is the project afterwards
(it changes only through `DependencyFetch`) and the returned error. -/
def ValidateDependencies (SERVICE_DEFINITION_FILE : String) (vc : VersionCollaborator)
    (DependencyFetch : Project → RequiredService → Except String Project)
    (GetUserInputs : Project → Except String (List MicroWork))
    (ValidateServiceDefinition : Project → String → Option String)
    (proj : Project) (userInputs : List MicroWork) (userInputsFilePath : String)
    (serviceProject : Bool) (autoAddDep : Bool) : Project × Option String :=
  if serviceProject then
    match proj.definition with
    | .error err => (proj, some err)
    | .ok d =>
      match GetDependencyFiles proj SERVICE_DEFINITION_FILE with
      | .error err => (proj, some err)
      | .ok deps =>
        match presenceCheck vc DependencyFetch deps autoAddDep d.RequiredServices proj false with
        | .error err => (proj, some err)
        | .ok (proj1, hasNewDepFile) =>
          if hasNewDepFile then
            match GetDependencyFiles proj1 SERVICE_DEFINITION_FILE with
            | .error err => (proj1, some err)
            | .ok deps1 =>
              match GetUserInputs proj1 with
              | .error err => (proj1, some err)
              | .ok userInputs1 =>
                (proj1, validateDependencyFiles ValidateServiceDefinition proj1 userInputs1
                  userInputsFilePath deps1)
          else
            (proj1, validateDependencyFiles ValidateServiceDefinition proj1 userInputs
              userInputsFilePath deps)
  else (proj, none)

/-! ## The fetcher -/

/-- A service definition as the exchange returns it
(`exchange.ServiceDefinition`): the fields the dependency code reads. -/
structure ExchangeService where
  URL : String
  Version : String
  Arch : String
  Deployment : String := ""
  RequiredServices : List RequiredService := []
  UserInputs : List UserInput := []
deriving DecidableEq, Repr, Inhabited

/-- The collaborators of the fetcher that are defined outside dependency.go:
constants, the exchange, the image handling and the project files. -/
structure FetchEnv where
  /-- The constant `SERVICE_DEFINITION_FILE`. -/
  SERVICE_DEFINITION_FILE : String
  /-- The function `cutil.ArchString`. -/
  ArchString : String
  /-- The function `cliutils.ExpandEnv`. -/
  ExpandEnv : String → String
  /-- The function `IsServiceProject`. -/
  IsServiceProject : Project → Bool
  /-- The call `cliutils.ExchangeGet` for a services lookup: the entries of
  `resp.Services` in the order the Go map is ranged over; an error stands for
  the process ending on an unexpected HTTP code. -/
  ExchangeGet : String → Except String (List (String × ExchangeService))
  /-- The function `exchange.GetHighestVersion`: the highest version, its
  definition and its id. -/
  GetHighestVersion :
    List (String × ExchangeService) → Except String (String × ExchangeService × String)
  /-- Lines 769-810 of `getServiceDefinition`: parsing the deployment,
  reading the user inputs, the docker auths and the image download; the
  result is the error of the first step that fails. -/
  getImages : Project → String → String → String → ExchangeService → Option String
  /-- The function `RefreshServiceDependencies`. -/
  RefreshServiceDependencies : Project → ServiceFile → Project × Option String
  /-- The function `GetUserInputsVariableConfiguration`. -/
  GetUserInputsVariableConfiguration : Project → Except String (List MicroWork)
  /-- The function `SetUserInputsVariableConfiguration`. -/
  SetUserInputsVariableConfiguration :
    Project → ServiceFile → List MicroWork → Project × Option String

/-- The effect of writing the record `sDef` under `name` on the listing of the
dependencies directory: an entry of that name is overwritten, otherwise the
new entry takes its place in the order of the names. -/
def writeEntry (name : String) (sDef : ServiceFile) : List DirEntry → List DirEntry
  | [] => [{ info := { Name := name }, content := .ok sDef }]
  | e :: rest =>
    if e.info.Name == name then { info := { Name := name }, content := .ok sDef } :: rest
    else if name < e.info.Name then
      { info := { Name := name }, content := .ok sDef } :: e :: rest
    else e :: writeEntry name sDef rest

/-- Modelled from the spec: `CreateFile` (defined outside dependency.go)
applied to the dependencies directory, the spec's
`writeDependencyRecord(dir, filename, def)`: it serializes and writes with
overwrite semantics, and fails when the directory cannot be written or the
name is taken by a directory. -/
def Project.writeDependencyFile (proj : Project) (name : String) (sDef : ServiceFile) :
    Project × Option String :=
  match proj.dependencies with
  | .error err => (proj, some err)
  | .ok entries =>
    if entries.any (fun e => e.info.Name == name && e.info.IsDir) then
      (proj, some ("open " ++ name ++ ": is a directory"))
    else ({ proj with dependencies := .ok (writeEntry name sDef entries) }, none)

/-- The function `UpdateDependencyFile` (lines 646-658). -/
def UpdateDependencyFile (env : FetchEnv) (proj : Project) (sDef : ServiceFile) :
    Project × Option String :=
  let fileName := createDependencyFileName env.ExpandEnv sDef.Org sDef.URL sDef.Version
    env.SERVICE_DEFINITION_FILE
  proj.writeDependencyFile fileName sDef

/-- The assignment `vars[name] = value` on the variables of a block, a Go
map kept as a list of pairs with distinct keys. -/
def setVariable (name value : String) : List (String × String) → List (String × String)
  | [] => [(name, value)]
  | kv :: rest =>
    if kv.1 == name then (name, value) :: rest else kv :: setVariable name value rest

/-- The loop of lines 611-616 of `UpdateServiceDefandUserInputFile`: the
variables without default value, each set to the empty string. -/
def skeletonVariables (uis : List UserInput) : List (String × String) :=
  uis.foldl (fun vars ui => if ui.DefaultValue == "" then setVariable ui.Name "" vars else vars) []

/-- The function `UpdateServiceDefandUserInputFile` (lines 575-634). -/
def UpdateServiceDefandUserInputFile (env : FetchEnv) (proj : Project) (sDef : ServiceFile)
    (skipServcieDef : Bool) : Project × Option String :=
  let r0 : Project × Option String :=
    if !skipServcieDef then env.RefreshServiceDependencies proj sDef else (proj, none)
  match r0 with
  | (proj1, some err) => (proj1, some err)
  | (proj1, none) =>
    match env.GetUserInputsVariableConfiguration proj1 with
    | .error err => (proj1, some err)
    | .ok varConfigs =>
      let foundUIs := varConfigs.any (fun currentUI =>
        currentUI.Url == sDef.URL && currentUI.Org == sDef.Org &&
          currentUI.VersionRange == sDef.Version)
      if !foundUIs then
        let foundNonDefault := sDef.UserInputs.any (fun ui => ui.DefaultValue == "")
        let vars := skeletonVariables sDef.UserInputs
        if foundNonDefault then
          let skelVarConfig : MicroWork :=
            { Org := sDef.Org, Url := sDef.URL, VersionRange := sDef.Version, Variables := vars }
          env.SetUserInputsVariableConfiguration proj1 sDef [skelVarConfig]
        else (proj1, none)
      else (proj1, none)

/-- Lines 739-761 of `getServiceDefinition`: the choice among the entries of
the response.  With more than one entry `GetHighestVersion` decides, no entry
is an error, and a single entry is taken as it is. -/
def selectServiceDefinition
    (GetHighestVersion :
      List (String × ExchangeService) → Except String (String × ExchangeService × String))
    (surl org : String) (services : List (String × ExchangeService)) :
    Except String (ExchangeService × String) :=
  if services.length > 1 then
    match GetHighestVersion services with
    | .error err => .error err
    | .ok (highest, sDef, sId) =>
      if highest == "" then
        .error ("unable to find highest version of " ++ surl ++ " " ++ org ++
          " in the exchange")
      else .ok (sDef, sId)
  else if services.length == 0 then .error "no services found in the exchange."
  else
    match services with
    | (sId, sDef) :: _ => .ok (sDef, sId)
    | [] => .error "no services found in the exchange."

/-- The function `getServiceDefinitionDependencies` (lines 702-715); `recCall`
is `getServiceDefinition` with the fixed arguments, `none` when it does not
return. -/
def getServiceDefinitionDependencies (env : FetchEnv)
    (recCall : Project → String → String → String → String →
      Option (Project × Except String ServiceFile)) :
    List RequiredService → Project → Option (Project × Option String)
  | [], proj => some (proj, none)
  | rs :: rest, proj =>
    match recCall proj rs.URL rs.Org "" rs.Arch with
    | none => none
    | some (proj1, .error err) => some (proj1, some err)
    | some (proj1, .ok sDef) =>
      match UpdateDependencyFile env proj1 sDef with
      | (proj2, some err) => some (proj2, some err)
      | (proj2, none) =>
        match UpdateServiceDefandUserInputFile env proj2 sDef true with
        | (proj3, some err) => some (proj3, some err)
        | (proj3, none) => getServiceDefinitionDependencies env recCall rest proj3

/-- Lines 719-727 of `getServiceDefinition`: the resource of the services
lookup; the version is optional and an empty architecture stands for the one of
this machine, `archString`. -/
def servicesResource (archString surl org version arch : String) : String :=
  let resSuffix0 := "orgs/" ++ org ++ "/services?url=" ++ surl
  let resSuffix1 := if version != "" then resSuffix0 ++ "&version=" ++ version else resSuffix0
  let arch1 := if arch == "" then archString else arch
  resSuffix1 ++ "&arch=" ++ arch1

/-- The function `getServiceDefinition` (lines 717-835).  The first argument
bounds the depth of the recursion through the required services of the
fetched definitions; the result is the project afterwards and the returned
definition or error.  `serviceDef.HasDependencies()` is the test that the
required services are not empty. -/
def getServiceDefinition (env : FetchEnv) :
    Nat → Project → String → String → String → String →
    Option (Project × Except String ServiceFile)
  | 0, _, _, _, _, _ => none
  | fuel + 1, proj, surl, org, version, arch =>
    match env.ExchangeGet (servicesResource env.ArchString surl org version arch) with
    | .error err => some (proj, .error err)
    | .ok services =>
      match selectServiceDefinition env.GetHighestVersion surl org services with
      | .error err => some (proj, .error err)
      | .ok (serviceDef, serviceId) =>
        let imagesError : Option String :=
          if serviceDef.Deployment != "" then env.getImages proj org surl serviceId serviceDef
          else none
        match imagesError with
        | some err => some (proj, .error err)
        | none =>
          let sDef_cliex : ServiceFile :=
            { Org := org, URL := serviceDef.URL, Version := serviceDef.Version,
              Arch := serviceDef.Arch, RequiredServices := serviceDef.RequiredServices,
              UserInputs := serviceDef.UserInputs }
          if !serviceDef.RequiredServices.isEmpty then
            match getServiceDefinitionDependencies env
                (fun p u o v a => getServiceDefinition env fuel p u o v a)
                sDef_cliex.RequiredServices proj with
            | none => none
            | some (proj1, some err) => some (proj1, .error err)
            | some (proj1, none) => some (proj1, .ok sDef_cliex)
          else some (proj, .ok sDef_cliex)

/-- The function `getExchangeDefinition` (lines 636-644). -/
def getExchangeDefinition (env : FetchEnv) (fuel : Nat) (proj : Project)
    (surl org version arch : String) : Option (Project × Except String ServiceFile) :=
  if env.IsServiceProject proj then getServiceDefinition env fuel proj surl org version arch
  else some (proj, .error "unsupported project type")

/-- The function `fetchExchangeProjectDependency` (lines 552-572): the project
afterwards and the returned error. -/
def fetchExchangeProjectDependency (env : FetchEnv) (fuel : Nat) (proj : Project)
    (url org version arch : String) : Option (Project × Option String) :=
  match getExchangeDefinition env fuel proj url org version arch with
  | none => none
  | some (proj1, .error err) => some (proj1, some err)
  | some (proj1, .ok sDef) =>
    match UpdateDependencyFile env proj1 sDef with
    | (proj2, some err) => some (proj2, some err)
    | (proj2, none) =>
      match UpdateServiceDefandUserInputFile env proj2 sDef false with
      | (proj3, some err) => some (proj3, some err)
      | (proj3, none) => some (proj3, none)

/-- Modelled from the spec: `exchange.GetHighestVersion` (defined outside
dependency.go), which selects the candidate with the highest version by the
version-ordering rule `le` of the version collaborator.  It gives the highest
version, the definition that has it and its id; the version is empty when
there is no candidate. -/
def GetHighestVersion (le : String → String → Bool)
    (services : List (String × ExchangeService)) :
    Except String (String × ExchangeService × String) :=
  .ok (services.foldl
    (fun best c =>
      if best.1 == "" || (le best.1 c.2.Version && !le c.2.Version best.1) then
        (c.2.Version, c.2, c.1)
      else best)
    ("", default, ""))

/-! ## The input check of a fetch -/

/-- Lines 361-371 of `verifyFetchInput`: the check of the combination of the
arguments; the result is the returned error, `none` when the combination is
accepted. -/
def verifyFetchArguments (project specRef url org : String) : Option String :=
  if specRef != "" && url != "" then some "--specRef is mutually exclusive with --url."
  else if project != "" && (specRef != "" || org != "" || url != "") then
    some "--project is mutually exclusive with --specRef, --org and --url."
  else if project == "" && specRef == "" && org == "" && url == "" then
    some "one of --project, or --specRef and --org, or --url and --org must be specified."
  else if (specRef != "" && org == "") || (specRef == "" && org != "" && url == "") ||
      (url != "" && org == "") then
    some "either --specRef and --org, or --url and --org must be specified."
  else none

/-- The function `verifyFetchInput` (lines 350-392).  `VerifyEnvironment`,
`IsServiceProject` and `ValidateServiceDefinition` are the functions of those
names, defined outside dependency.go; directories are given by their paths.
The arguments `version` and `arch` are not read by the function. -/
def verifyFetchInput (VerifyEnvironment : String → Bool → Bool → String → Except String String)
    (IsServiceProject : String → Bool)
    (ValidateServiceDefinition : String → String → Option String)
    (SERVICE_DEFINITION_FILE : String)
    (homeDirectory project specRef url org _version _arch userCreds : String) :
    Except String String :=
  match VerifyEnvironment homeDirectory true true userCreds with
  | .error err => .error err
  | .ok dir =>
    match verifyFetchArguments project specRef url org with
    | some err => .error err
    | none =>
      if specRef != "" && IsServiceProject dir then .error "use --url with service projects."
      else if project != "" then
        if !IsServiceProject project then
          .error ("--project " ++ project ++ " does not contain Horizon service metadata.")
        else
          match ValidateServiceDefinition project SERVICE_DEFINITION_FILE with
          | some err => .error err
          | none => .ok dir
      else .ok dir

/-! ## The global attributes of a local fetch -/

/-- The spec a global attribute is tagged with (`persistence.ServiceSpec`), as
`persistence.NewServiceSpec(url, org)` builds it. -/
structure PersistenceServiceSpec where
  Url : String
  Org : String
deriving DecidableEq, Repr

/-- A global attribute block of the user input file (`register.GlobalSet`): the
fields the dependency code reads.  `V` is the type of the `Variables` map;
`reflect.DeepEqual` on two maps is equality in `V`. -/
structure GlobalSet (V : Type) where
  Type_ : String
  ServiceSpecs : List PersistenceServiceSpec
  Variables : V
deriving DecidableEq, Repr

/-- The body of the loop of lines 520-539 of `fetchLocalProjectDependency` for
one global block `depGlobal` of the dependency: `currentGlobals` is
`currentUIs.Global`, `url` and `org` are `sDef.GetURL()` and `sDef.GetOrg()`. -/
def mergeGlobal {V : Type} [DecidableEq V] (url org : String)
    (currentGlobals : List (GlobalSet V)) (depGlobal : GlobalSet V) : List (GlobalSet V) :=
  let found := currentGlobals.any (fun currentUIGlobal =>
    currentUIGlobal.Type_ == depGlobal.Type_ &&
      decide (currentUIGlobal.Variables = depGlobal.Variables))
  if found then currentGlobals
  else
    let depGlobal1 :=
      if depGlobal.ServiceSpecs.length == 0 then
        { depGlobal with ServiceSpecs := depGlobal.ServiceSpecs ++ [⟨url, org⟩] }
      else depGlobal
    currentGlobals ++ [depGlobal1]

/-- The loop of lines 519-539 of `fetchLocalProjectDependency` over
`depUserInputs.Global`: the value of `currentUIs.Global` afterwards. -/
def mergeGlobals {V : Type} [DecidableEq V] (url org : String)
    (depGlobals : List (GlobalSet V)) (currentGlobals : List (GlobalSet V)) :
    List (GlobalSet V) :=
  depGlobals.foldl (mergeGlobal url org) currentGlobals

/-! ## Properties used to state the results -/

/-- No two entries at distinct positions of the list match each other. -/
def NoTwoMatch (l : List ServiceSpec) : Prop :=
  ∀ (i j : Nat) (hi : i < l.length) (hj : j < l.length), i ≠ j → l[i].Matches l[j] = false

/-- The node list `deps2` keeps every node of `deps1` at its position, with the
same `Service` and with at least the top references it had. -/
def Grows (deps1 deps2 : List ServiceDependency) : Prop :=
  ∀ (i : Nat) (d : ServiceDependency), deps1[i]? = some d →
    ∃ d2, deps2[i]? = some d2 ∧ d2.Service = d.Service ∧
      ∀ t ∈ d.TopSvcRefs, t ∈ d2.TopSvcRefs

/-- The required-service declaration that names exactly the record `r`: its
URL, organization, version and architecture. -/
def ServiceFile.declaration (r : ServiceFile) : RequiredService :=
  { URL := r.URL, Org := r.Org, Version := r.Version, Arch := r.Arch }

/-- The project `proj1` is `proj` with the dependency stored in the file
`name` with content `r` fully deleted: the store lost exactly the entries of
that name, so the file can no longer be read; the project definition lost
exactly the declarations of the service of `r`; the user inputs lost exactly
the blocks keyed to `r`. -/
def FullyDeleted (name : String) (r : ServiceFile) (proj proj1 : Project) : Prop :=
  (∃ entries, proj.dependencies = .ok entries ∧
    proj1.dependencies = .ok (entries.filter (fun e => !(e.info.Name == name)))) ∧
  (∀ x, proj1.readDependency name ≠ .ok x) ∧
  (∃ svc, proj.definition = .ok svc ∧ proj1.definition = .ok (svc.withoutDeclarationsOf r) ∧
    ∀ s ∈ (svc.withoutDeclarationsOf r).RequiredServices, ¬ (s.URL = r.URL ∧ s.Org = r.Org)) ∧
  proj1.userInputs = proj.userInputs.filter (keepsBlock r) ∧
  (∀ b ∈ proj1.userInputs, ¬ (b.Url = r.URL ∧ b.Org = r.Org ∧ b.VersionRange = r.Version))

/-- The declared user input `ui` of the dependency `d` has no default value
and is not a key of the variables of any configuration block whose Url is the
URL of `d` and whose Org is compatible with the org of `d` (either is empty,
or they are equal). -/
def MissingVariable (d : ServiceFile) (configUserInputs : List MicroWork) (ui : UserInput) :
    Prop :=
  ui.DefaultValue = "" ∧
  ¬ ∃ msUI ∈ configUserInputs,
      (d.URL = msUI.Url ∧ (d.Org = "" ∨ msUI.Org = "" ∨ d.Org = msUI.Org)) ∧
      ∃ kv ∈ msUI.Variables, kv.1 = ui.Name

/-- The entry `writeEntry` puts into the listing: a regular file of that name
that holds the record. -/
def newEntry (name : String) (sDef : ServiceFile) : DirEntry :=
  { info := { Name := name }, content := .ok sDef }

/-- The names of a listing are in strictly increasing order, the order in
which `ioutil.ReadDir` returns the entries of a directory. -/
def SortedNames (entries : List DirEntry) : Prop :=
  (entries.map (fun e => e.info.Name)).Pairwise (fun a b => a < b)

/-- The record in the file `f` requires the record in the file `g`: both files
can be read, and the second record matches a required-service declaration of
the first. -/
def Requires (read : String → Except String ServiceFile) (f g : FileInfo) : Bool :=
  match read f.Name, read g.Name with
  | .ok df, .ok dg => df.RequiredServices.any (fun s => dg.spec.Matches s.spec)
  | _, _ => false

/-- No chain of required-service declarations, each matched against a record
of the listed files, returns to a record that is already on the chain. -/
def Acyclic (read : String → Except String ServiceFile) (depFiles : List FileInfo) : Prop :=
  ∀ chain : List FileInfo, (∀ f ∈ chain, f ∈ depFiles) →
    chain.Chain' (fun f g => Requires read f g = true) → chain.Nodup

/-- The blocks have the same Type and deep-equal Variables. -/
def SameGlobal {V : Type} (a b : GlobalSet V) : Prop :=
  a.Type_ = b.Type_ ∧ a.Variables = b.Variables

/-- The block as it is copied into the project: a block without service specs
is tagged with the dependency, a block with service specs keeps them. -/
def taggedGlobal {V : Type} (url org : String) (g : GlobalSet V) : GlobalSet V :=
  if g.ServiceSpecs = [] then { g with ServiceSpecs := [⟨url, org⟩] } else g

/-- The configuration block is keyed to the definition: its (url, org,
versionRange) is the (URL, org, version) of the definition. -/
def MicroWork.isFor (b : MicroWork) (sDef : ServiceFile) : Prop :=
  b.Url = sDef.URL ∧ b.Org = sDef.Org ∧ b.VersionRange = sDef.Version

/-- The skeleton block `UpdateServiceDefandUserInputFile` builds for a
definition (lines 619-624). -/
def skeletonBlock (sDef : ServiceFile) : MicroWork :=
  { Org := sDef.Org, Url := sDef.URL, VersionRange := sDef.Version,
    Variables := skeletonVariables sDef.UserInputs }

/-- All four fields of the spec are given. -/
def ServiceSpec.isFull (sp : ServiceSpec) : Bool :=
  sp.SpecRef != "" && sp.Org != "" && sp.Version != "" && sp.Arch != ""

/-- Every listed file can be read, and the spec of its record and the spec of
each of its required-service declarations have all four fields. -/
def fullRecords (read : String → Except String ServiceFile) (depFiles : List FileInfo) : Bool :=
  depFiles.all (fun g =>
    match read g.Name with
    | .ok r => r.spec.isFull && r.RequiredServices.all (fun s => s.spec.isFull)
    | .error _ => false)

/-- Both files can be read and their records have the same spec. -/
def sameRecordSpec (read : String → Except String ServiceFile) (g1 g2 : FileInfo) : Bool :=
  match read g1.Name, read g2.Name with
  | .ok r1, .ok r2 => r1.spec == r2.spec
  | _, _ => false

/-- The record in the file `f` is reachable from the spec `sp`: a record
matches `sp`, and from there required-service declarations, each matched
against a record, lead to the record in `f`. -/
inductive Reaches (read : String → Except String ServiceFile) (depFiles : List FileInfo) :
    ServiceSpec → FileInfo → Prop
  | direct (sp : ServiceSpec) (f : FileInfo) (r : ServiceFile) :
      f ∈ depFiles → read f.Name = .ok r → r.spec.Matches sp = true → Reaches read depFiles sp f
  | through (sp : ServiceSpec) (g : FileInfo) (rg : ServiceFile) (s : RequiredService)
      (f : FileInfo) :
      g ∈ depFiles → read g.Name = .ok rg → rg.spec.Matches sp = true →
      s ∈ rg.RequiredServices → Reaches read depFiles s.spec f → Reaches read depFiles sp f

/-- The nodes of a walk over a store with full, pairwise distinct record
specs: every node stands for a record of the store, no two nodes have the same
`Service`, and every top reference has all four fields. -/
def NodesOk (read : String → Except String ServiceFile) (depFiles : List FileInfo)
    (deps : List ServiceDependency) : Prop :=
  (∀ d ∈ deps, ∃ g ∈ depFiles, ∃ r, read g.Name = .ok r ∧ d.Service = r.spec ∧ d.FileInfo = g) ∧
  (deps.map (fun d => d.Service)).Nodup ∧
  (∀ d ∈ deps, ∀ t ∈ d.TopSvcRefs, t.isFull = true)

/-- Every record reachable from `sp` has a node with the top reference `t`. -/
def Covered (read : String → Except String ServiceFile) (depFiles : List FileInfo)
    (t sp : ServiceSpec) (deps : List ServiceDependency) : Prop :=
  ∀ f r, Reaches read depFiles sp f → read f.Name = .ok r →
    ∃ d ∈ deps, d.Service = r.spec ∧ t ∈ d.TopSvcRefs

/-- The store of `proj1` still has every entry of the store of `proj` whose
name does not satisfy `S`. -/
def KeepsExcept (S : String → Prop) (proj proj1 : Project) : Prop :=
  ∀ entries, proj.dependencies = .ok entries →
    ∃ entries1, proj1.dependencies = .ok entries1 ∧
      ∀ e ∈ entries, ¬ S e.info.Name → e ∈ entries1

/-! ## Concrete inputs -/

/-- A fully specified spec of service `u` at version 1.0. -/
def specU1 : ServiceSpec := NewServiceSpec "u" "o" "1.0" "amd64"

/-- The same service at version 2.0. -/
def specU2 : ServiceSpec := NewServiceSpec "u" "o" "2.0" "amd64"

/-- The service `u` with the version left open. -/
def specUAny : ServiceSpec := NewServiceSpec "u" "o" "" "amd64"

/-- A node for `u` 1.0 whose only top reference is `u` 1.0 itself. -/
def nodeU1 : ServiceDependency :=
  NewServiceDependency specU1 specU1 { Name := "o_u_1.0.service.definition.json" }

/-- The value of the constant `SERVICE_DEFINITION_FILE`. -/
def definitionFile : String := "service.definition.json"

/-- The declaration of `u` at version 1.0. -/
def reqU1 : RequiredService := { URL := "u", Org := "o", Version := "1.0", Arch := "amd64" }

/-- The declaration of `u` at version 2.0. -/
def reqU2 : RequiredService := { URL := "u", Org := "o", Version := "2.0", Arch := "amd64" }

/-- The declaration of `u` with the version left open. -/
def reqUAny : RequiredService := { URL := "u", Org := "o", Version := "", Arch := "amd64" }

/-- The stored definition of `u` 1.0, which has no dependency. -/
def recU1 : ServiceFile := { Org := "o", URL := "u", Version := "1.0", Arch := "amd64" }

/-- The stored definition of `u` 2.0, which has no dependency. -/
def recU2 : ServiceFile := { Org := "o", URL := "u", Version := "2.0", Arch := "amd64" }

/-- A stored definition of `u` 1.0 that requires `u` 2.0. -/
def recU1needsU2 : ServiceFile :=
  { Org := "o", URL := "u", Version := "1.0", Arch := "amd64", RequiredServices := [reqU2] }

/-- The file of `u` 1.0 in the dependencies directory. -/
def fileU1 : FileInfo := { Name := "o_u_1.0.service.definition.json" }

/-- The file of `u` 2.0 in the dependencies directory. -/
def fileU2 : FileInfo := { Name := "o_u_2.0.service.definition.json" }

/-- A project that requires `u` at any version; its store holds `u` 1.0, which
requires `u` 2.0, and `u` 2.0. -/
def projDup : Project :=
  { definition := .ok { Org := "o", URL := "p", Version := "1.0", Arch := "amd64",
                        RequiredServices := [reqUAny] }
    dependencies := .ok [{ info := fileU1, content := .ok recU1needsU2 },
                         { info := fileU2, content := .ok recU2 }] }

/-- The definition of a project that requires `u` 1.0 and `u` at any version. -/
def defMissing : ServiceFile :=
  { Org := "o", URL := "p", Version := "1.0", Arch := "amd64",
    RequiredServices := [reqU1, reqUAny] }

/-- The project of `defMissing`; its store holds `u` 1.0 and `u` 2.0. -/
def projMissing : Project :=
  { definition := .ok defMissing
    dependencies := .ok [{ info := fileU1, content := .ok recU1 },
                         { info := fileU2, content := .ok recU2 }] }

/-- The declaration of service `a`. -/
def reqA : RequiredService := { URL := "a", Org := "o", Version := "1.0", Arch := "amd64" }

/-- The declaration of service `b`. -/
def reqB : RequiredService := { URL := "b", Org := "o", Version := "1.0", Arch := "amd64" }

/-- The declaration of service `c`. -/
def reqC : RequiredService := { URL := "c", Org := "o", Version := "1.0", Arch := "amd64" }

/-- The stored definition of `a`, which requires `c`. -/
def recA : ServiceFile :=
  { Org := "o", URL := "a", Version := "1.0", Arch := "amd64", RequiredServices := [reqC] }

/-- The stored definition of `b`, which requires `c`. -/
def recB : ServiceFile :=
  { Org := "o", URL := "b", Version := "1.0", Arch := "amd64", RequiredServices := [reqC] }

/-- The stored definition of `c`, which has no dependency. -/
def recC : ServiceFile := { Org := "o", URL := "c", Version := "1.0", Arch := "amd64" }

/-- The file of `a` in the dependencies directory. -/
def fileA : FileInfo := { Name := "o_a_1.0.service.definition.json" }

/-- The file of `b` in the dependencies directory. -/
def fileB : FileInfo := { Name := "o_b_1.0.service.definition.json" }

/-- The file of `c` in the dependencies directory. -/
def fileC : FileInfo := { Name := "o_c_1.0.service.definition.json" }

/-- The definition of a project that requires `a` and `b`. -/
def defShared : ServiceFile :=
  { Org := "o", URL := "p", Version := "1.0", Arch := "amd64", RequiredServices := [reqA, reqB] }

/-- The project of `defShared`; its store holds `a`, `b` and `c`, where `a` and
`b` both require `c`. -/
def projShared : Project :=
  { definition := .ok defShared
    dependencies := .ok [{ info := fileA, content := .ok recA },
                         { info := fileB, content := .ok recB },
                         { info := fileC, content := .ok recC }] }

/-- The graph of `projShared`: `a` and `b` with themselves as top reference,
`c` with both. -/
def graphShared : List ServiceDependency :=
  [{ Service := recA.spec, TopSvcRefs := [reqA.spec], FileInfo := fileA },
   { Service := recC.spec, TopSvcRefs := [reqA.spec, reqB.spec], FileInfo := fileC },
   { Service := recB.spec, TopSvcRefs := [reqB.spec], FileInfo := fileB }]

/-- The node list the walk of `projDup` returns: `u` 2.0 appears twice. -/
def graphDup : List ServiceDependency :=
  [{ Service := recU1.spec, TopSvcRefs := [reqUAny.spec], FileInfo := fileU1 },
   { Service := recU2.spec, TopSvcRefs := [reqUAny.spec], FileInfo := fileU2 },
   { Service := recU2.spec, TopSvcRefs := [reqUAny.spec], FileInfo := fileU2 }]

/-- The node list the walk of `projMissing` returns: only `u` 1.0. -/
def graphMissing : List ServiceDependency :=
  [{ Service := recU1.spec, TopSvcRefs := [reqU1.spec], FileInfo := fileU1 }]

/-- A project that requires `a`; its store holds `a`, which requires `c`, and
`c`. -/
def projChain : Project :=
  { definition := .ok { Org := "o", URL := "p", Version := "1.0", Arch := "amd64",
                        RequiredServices := [reqA] }
    dependencies := .ok [{ info := fileA, content := .ok recA },
                         { info := fileC, content := .ok recC }] }

/-- The graph of `projChain`: `a` and `c`, both with top reference `a`. -/
def graphChain : List ServiceDependency :=
  [{ Service := recA.spec, TopSvcRefs := [reqA.spec], FileInfo := fileA },
   { Service := recC.spec, TopSvcRefs := [reqA.spec], FileInfo := fileC }]

/-- A file of the dependencies directory whose content does not parse. -/
def fileBad : FileInfo := { Name := "o_bad_1.0.service.definition.json" }

/-- A project that requires `u` 1.0; its store lists an unreadable file
before the file of `u` 1.0. -/
def projUnreadable : Project :=
  { definition := .ok { Org := "o", URL := "p", Version := "1.0", Arch := "amd64",
                        RequiredServices := [reqU1] }
    dependencies := .ok [{ info := fileBad, content := .error "unexpected end of JSON input" },
                         { info := fileU1, content := .ok recU1 }] }

/-- The node of `a` in the graph of `projShared`: one top reference. -/
def nodeA : ServiceDependency :=
  { Service := recA.spec, TopSvcRefs := [reqA.spec], FileInfo := fileA }

/-- The node of `c` in the graph of `projShared`: two top references. -/
def nodeC : ServiceDependency :=
  { Service := recC.spec, TopSvcRefs := [reqA.spec, reqB.spec], FileInfo := fileC }

/-- A stored definition of `a` without dependency. -/
def recALeaf : ServiceFile := { Org := "o", URL := "a", Version := "1.0", Arch := "amd64" }

/-- A stored definition of `b` that requires `a`. -/
def recBneedsA : ServiceFile :=
  { Org := "o", URL := "b", Version := "1.0", Arch := "amd64", RequiredServices := [reqA] }

/-- A project that requires `a` and `b`, where `b` itself requires `a`: the
service `a` is both a top-level service and a dependency of `b`. -/
def projTopShared : Project :=
  { definition := .ok defShared
    dependencies := .ok [{ info := fileA, content := .ok recALeaf },
                         { info := fileB, content := .ok recBneedsA }] }

/-- The node of `a` in the graph of `projTopShared`: top references `a` and
`b`. -/
def nodeATop : ServiceDependency :=
  { Service := recALeaf.spec, TopSvcRefs := [reqA.spec, reqB.spec], FileInfo := fileA }

/-- The graph of `projTopShared`. -/
def graphTopShared : List ServiceDependency :=
  [nodeATop, { Service := recBneedsA.spec, TopSvcRefs := [reqB.spec], FileInfo := fileB }]

/-- A version collaborator for the examples: ranges are kept as written, and
the range `[1.0.0,2.0.0)` contains the version 1.5.0 and no other version of
the examples. -/
def exampleRanges : VersionCollaborator :=
  { Range := String
    Version_Expression_Factory := fun s => .ok s
    Is_within_range := fun r v => .ok (r == "[1.0.0,2.0.0)" && v == "1.5.0")
    Get_expression := fun r => r }

/-- The user input `port`, declared without default value. -/
def inputPort : UserInput := { Name := "port", DefaultValue := "" }

/-- The stored definition of `a` 1.5.0, which declares `port`. -/
def recPortA : ServiceFile :=
  { Org := "o", URL := "a", Version := "1.5.0", Arch := "amd64", UserInputs := [inputPort] }

/-- The stored definition of `b` 1.5.0, which declares `port`. -/
def recPortB : ServiceFile :=
  { Org := "o", URL := "b", Version := "1.5.0", Arch := "amd64", UserInputs := [inputPort] }

/-- The file of `a` 1.5.0. -/
def fileA15 : FileInfo := { Name := "o_a_1.5.0.service.definition.json" }

/-- The file of `b` 1.5.0. -/
def fileB15 : FileInfo := { Name := "o_b_1.5.0.service.definition.json" }

/-- A project that requires `a` and `b` in the range `[1.0.0,2.0.0)`; the
store holds `a` 1.5.0 and `b` 1.5.0, which both declare `port` without
default, and the user inputs configure nothing. -/
def projTwoBad : Project :=
  { definition := .ok { Org := "o", URL := "p", Version := "1.0.0", Arch := "amd64",
                        RequiredServices := [⟨"a", "o", "[1.0.0,2.0.0)", "amd64"⟩,
                                             ⟨"b", "o", "[1.0.0,2.0.0)", "amd64"⟩] }
    dependencies := .ok [{ info := fileA15, content := .ok recPortA },
                         { info := fileB15, content := .ok recPortB }] }

/-- The error `ValidateDependencies` returns for `projTwoBad`. -/
def errorTwoBad : String :=
  "dependency o_a_1.5.0.service.definition.json did not validate, error: " ++
    "variable port has no default and must be specified in userinput.json"

/-- The declaration of `u` in the range `[1.0.0,2.0.0)`. -/
def reqURange : RequiredService :=
  { URL := "u", Org := "o", Version := "[1.0.0,2.0.0)", Arch := "amd64" }

/-- The stored definition of another service, `v` 1.5.0. -/
def recV15 : ServiceFile := { Org := "o", URL := "v", Version := "1.5.0", Arch := "amd64" }

/-- The file of `v` 1.5.0. -/
def fileV15 : FileInfo := { Name := "o_v_1.5.0.service.definition.json" }

/-- The definition of a project that requires `u` in the range
`[1.0.0,2.0.0)`. -/
def defWrongService : ServiceFile :=
  { Org := "o", URL := "p", Version := "1.0.0", Arch := "amd64", RequiredServices := [reqURange] }

/-- The project of `defWrongService`; the store holds only the record of the
other service `v`, at version 1.5.0. -/
def projWrongService : Project :=
  { definition := .ok defWrongService
    dependencies := .ok [{ info := fileV15, content := .ok recV15 }] }

/-- The order of the version strings used in the examples: the order of the
strings character by character, which agrees with the order of the versions
for versions made of single digits. -/
def exampleVersionLE (a b : String) : Bool := decide (a.data ≤ b.data)

/-- The candidate `u` 1.0.0 of a services lookup. -/
def candidate100 : String × ExchangeService :=
  ("o/u_1.0.0_amd64", { URL := "u", Version := "1.0.0", Arch := "amd64" })

/-- The candidate `u` 1.2.0 of a services lookup. -/
def candidate120 : String × ExchangeService :=
  ("o/u_1.2.0_amd64", { URL := "u", Version := "1.2.0", Arch := "amd64" })

/-- Collaborators for the examples: an exchange that answers every lookup with
`services`, no image handling, and project files that are written as they
are. -/
def exampleEnv (services : List (String × ExchangeService)) : FetchEnv :=
  { SERVICE_DEFINITION_FILE := definitionFile
    ArchString := "amd64"
    ExpandEnv := fun s => s
    IsServiceProject := fun _ => true
    ExchangeGet := fun _ => .ok services
    GetHighestVersion := GetHighestVersion exampleVersionLE
    getImages := fun _ _ _ _ _ => none
    RefreshServiceDependencies := fun p _ => (p, none)
    GetUserInputsVariableConfiguration := fun p => .ok p.userInputs
    SetUserInputsVariableConfiguration := fun p _ blocks =>
      ({ p with userInputs := p.userInputs ++ blocks }, none) }

/-- A project that requires `u` 1.0 and has its record in the store. -/
def projOneRecord : Project :=
  { definition := .ok { Org := "o", URL := "p", Version := "1.0", Arch := "amd64",
                        RequiredServices := [reqU1] }
    dependencies := .ok [{ info := fileU1, content := .ok recU1 }] }

/-- Another definition of `u` 1.0, which declares the user input `port`. -/
def recU1Port : ServiceFile :=
  { Org := "o", URL := "u", Version := "1.0", Arch := "amd64", UserInputs := [inputPort] }

/-- The definition of `u` 1.0 for another architecture. -/
def recU1Arm : ServiceFile := { Org := "o", URL := "u", Version := "1.0", Arch := "arm" }

/-- A project with an empty store. -/
def projNoRecords : Project :=
  { definition := .ok { Org := "o", URL := "p", Version := "1.0", Arch := "amd64" }
    dependencies := .ok [] }

/-- A service whose reference has a scheme and a path. -/
def recSlash : ServiceFile := { Org := "o", URL := "http://a/b", Version := "1.0", Arch := "amd64" }

/-- A service whose reference is the sanitized reference of `recSlash`. -/
def recHyphen : ServiceFile := { Org := "o", URL := "a-b", Version := "1.0", Arch := "amd64" }

/-- The stored definition of `a`, which requires `b`. -/
def recAneedsB : ServiceFile :=
  { Org := "o", URL := "a", Version := "1.0", Arch := "amd64", RequiredServices := [reqB] }

/-- A project that requires `a`; in its store `a` requires `b` and `b`
requires `a`. -/
def projCycle : Project :=
  { definition := .ok { Org := "o", URL := "p", Version := "1.0", Arch := "amd64",
                        RequiredServices := [reqA] }
    dependencies := .ok [{ info := fileA, content := .ok recAneedsB },
                         { info := fileB, content := .ok recBneedsA }] }

/-- The files of the store of `projShared`. -/
def filesShared : List FileInfo := [fileA, fileB, fileC]

/-- Global blocks of a dependency: a log level without service specs and a
location that is already tagged. -/
def exampleDepGlobals : List (GlobalSet (List (String × String))) :=
  [{ Type_ := "LogAttributes", ServiceSpecs := [], Variables := [("level", "info")] },
   { Type_ := "LocationAttributes", ServiceSpecs := [⟨"w", "o"⟩], Variables := [("lat", "1")] },
   { Type_ := "HTTPSBasicAuthAttributes", ServiceSpecs := [], Variables := [("user", "x")] }]

/-- Global blocks of a project: the log level of `exampleDepGlobals`. -/
def exampleCurrentGlobals : List (GlobalSet (List (String × String))) :=
  [{ Type_ := "LogAttributes", ServiceSpecs := [⟨"p", "o"⟩], Variables := [("level", "info")] }]

/-- A project whose user input file has a block for `u` 1.0 of organization
`o` that configures no variable. -/
def projConfigured : Project :=
  { definition := .ok { Org := "o", URL := "p", Version := "1.0", Arch := "amd64",
                        RequiredServices := [reqU1] }
    dependencies := .ok [{ info := fileU1, content := .ok recU1Port }]
    userInputs := [{ Org := "o", Url := "u", VersionRange := "1.0", Variables := [] }] }

/-- The project `projOneRecord` after the skeleton block of `recU1Port` was
added to its user inputs. -/
def projSkeleton : Project :=
  { definition := projOneRecord.definition
    dependencies := projOneRecord.dependencies
    userInputs := [{ Org := "o", Url := "u", VersionRange := "1.0", Variables := [("port", "")] }] }

/-- The definition of a project that requires `u` at any version and `u` 1.0:
the declarations of `defMissing` in the other order. -/
def defMissingSwapped : ServiceFile :=
  { Org := "o", URL := "p", Version := "1.0", Arch := "amd64",
    RequiredServices := [reqUAny, reqU1] }

/-- The project of `defMissingSwapped`, with the store of `projMissing`. -/
def projMissingSwapped : Project :=
  { definition := .ok defMissingSwapped
    dependencies := .ok [{ info := fileU1, content := .ok recU1 },
                         { info := fileU2, content := .ok recU2 }] }

/-- The node list the walk of `projMissingSwapped` returns: `u` 1.0 and
`u` 2.0. -/
def graphMissingSwapped : List ServiceDependency :=
  [{ Service := recU1.spec, TopSvcRefs := [reqUAny.spec], FileInfo := fileU1 },
   { Service := recU2.spec, TopSvcRefs := [reqUAny.spec], FileInfo := fileU2 }]

end Anax

/-! # Results -/

namespace Anax

/-! ## The matcher -/

theorem ServiceSpec.matches_iff (a b : ServiceSpec) :
    a.Matches b = true ↔
      (a.SpecRef = "" ∨ b.SpecRef = "" ∨ a.SpecRef = b.SpecRef) ∧
      (a.Org = "" ∨ b.Org = "" ∨ a.Org = b.Org) ∧
      (a.Version = "" ∨ b.Version = "" ∨ a.Version = b.Version) ∧
      (a.Arch = "" ∨ b.Arch = "" ∨ a.Arch = b.Arch) := by
  simp only [ServiceSpec.Matches, Bool.and_eq_true, Bool.or_eq_true, beq_iff_eq]
  tauto

theorem ServiceSpec.matches_comm (a b : ServiceSpec) : a.Matches b = b.Matches a := by
  rw [Bool.eq_iff_iff, ServiceSpec.matches_iff, ServiceSpec.matches_iff]
  have hc : ∀ x y : String, (x = "" ∨ y = "" ∨ x = y) ↔ (y = "" ∨ x = "" ∨ y = x) := by
    intro x y
    rw [eq_comm (a := x) (b := y)]
    tauto
  rw [hc a.SpecRef, hc a.Org, hc a.Version, hc a.Arch]

theorem ServiceSpec.matches_self (s : ServiceSpec) : s.Matches s = true := by
  rw [ServiceSpec.matches_iff]
  simp

/-- C1: `a.Matches(b)` is true exactly when, for each of the four fields
SpecRef, Org, Version and Arch, the field of `a` is empty, or the field of `b`
is empty, or the two fields are equal. -/
theorem matches_iff_fieldwise (a b : ServiceSpec) :
    a.Matches b = true ↔
      (a.SpecRef = "" ∨ b.SpecRef = "" ∨ a.SpecRef = b.SpecRef) ∧
      (a.Org = "" ∨ b.Org = "" ∨ a.Org = b.Org) ∧
      (a.Version = "" ∨ b.Version = "" ∨ a.Version = b.Version) ∧
      (a.Arch = "" ∨ b.Arch = "" ∨ a.Arch = b.Arch) :=
  ServiceSpec.matches_iff a b

/-- C2: `Matches` is symmetric, `a.Matches(b)` equals `b.Matches(a)` for all
specs. -/
theorem matches_symmetric (a b : ServiceSpec) : a.Matches b = b.Matches a :=
  ServiceSpec.matches_comm a b

/-- C3: `Matches` is reflexive, every spec matches itself, empty fields
included. -/
theorem matches_reflexive (s : ServiceSpec) : s.Matches s = true :=
  ServiceSpec.matches_self s

/-- C4: `Matches` is not transitive: there are specs `a`, `b`, `c` with
`a.Matches(b)` and `b.Matches(c)` but not `a.Matches(c)`, where `b` has an empty
field (here Version) in which `a` and `c` hold different non-empty values. -/
theorem matches_not_transitive :
    ∃ a b c : ServiceSpec,
      a.Matches b = true ∧ b.Matches c = true ∧ a.Matches c = false ∧
      b.Version = "" ∧ a.Version ≠ "" ∧ c.Version ≠ "" ∧ a.Version ≠ c.Version :=
  ⟨specU1, specUAny, specU2, by decide⟩

/-! ## Top references of a node -/

theorem foundTop_foldl (t : ServiceSpec) (tops : List ServiceSpec) (b : Bool) :
    tops.foldl (fun foundTop top_temp => if top_temp.Matches t then true else foundTop) b =
      (b || tops.any (fun e => e.Matches t)) := by
  induction tops generalizing b with
  | nil => simp
  | cons e rest ih =>
    rw [List.foldl_cons, ih, List.any_cons]
    cases b <;> cases e.Matches t <;> simp

theorem ServiceDependency.AddTopRef_eq (sd : ServiceDependency) (t : ServiceSpec) :
    sd.AddTopRef t =
      if sd.TopSvcRefs.any (fun e => e.Matches t) then sd
      else { sd with TopSvcRefs := sd.TopSvcRefs ++ [t] } := by
  unfold ServiceDependency.AddTopRef
  simp only [foundTop_foldl, Bool.false_or]
  cases sd.TopSvcRefs.any (fun e => e.Matches t) <;> simp

theorem ServiceDependency.AddTopRef_of_match (sd : ServiceDependency) (t : ServiceSpec)
    (h : ∃ e ∈ sd.TopSvcRefs, e.Matches t = true) : sd.AddTopRef t = sd := by
  rw [ServiceDependency.AddTopRef_eq, if_pos]
  simpa using h

theorem ServiceDependency.AddTopRef_of_no_match (sd : ServiceDependency) (t : ServiceSpec)
    (h : ¬ ∃ e ∈ sd.TopSvcRefs, e.Matches t = true) :
    sd.AddTopRef t = { sd with TopSvcRefs := sd.TopSvcRefs ++ [t] } := by
  rw [ServiceDependency.AddTopRef_eq, if_neg]
  simpa using h

theorem ServiceDependency.AddTopRef_Service (sd : ServiceDependency) (t : ServiceSpec) :
    (sd.AddTopRef t).Service = sd.Service := by
  rw [ServiceDependency.AddTopRef_eq]
  split <;> rfl

theorem ServiceDependency.AddTopRef_FileInfo (sd : ServiceDependency) (t : ServiceSpec) :
    (sd.AddTopRef t).FileInfo = sd.FileInfo := by
  rw [ServiceDependency.AddTopRef_eq]
  split <;> rfl

theorem ServiceDependency.mem_AddTopRef_of_mem (sd : ServiceDependency) (t e : ServiceSpec)
    (h : e ∈ sd.TopSvcRefs) : e ∈ (sd.AddTopRef t).TopSvcRefs := by
  rw [ServiceDependency.AddTopRef_eq]
  split
  · exact h
  · exact List.mem_append_left _ h

theorem ServiceDependency.mem_AddTopRef (sd : ServiceDependency) (t e : ServiceSpec)
    (h : e ∈ (sd.AddTopRef t).TopSvcRefs) : e ∈ sd.TopSvcRefs ∨ e = t := by
  rw [ServiceDependency.AddTopRef_eq] at h
  split at h
  · exact Or.inl h
  · simpa using h

theorem ServiceDependency.exists_match_AddTopRef (sd : ServiceDependency) (t : ServiceSpec) :
    ∃ e ∈ (sd.AddTopRef t).TopSvcRefs, e.Matches t = true := by
  by_cases h : ∃ e ∈ sd.TopSvcRefs, e.Matches t = true
  · rw [ServiceDependency.AddTopRef_of_match sd t h]
    exact h
  · rw [ServiceDependency.AddTopRef_of_no_match sd t h]
    exact ⟨t, by simp, ServiceSpec.matches_self t⟩

theorem ServiceDependency.length_le_AddTopRef (sd : ServiceDependency) (t : ServiceSpec) :
    sd.TopSvcRefs.length ≤ (sd.AddTopRef t).TopSvcRefs.length := by
  rw [ServiceDependency.AddTopRef_eq]
  split <;> simp

theorem noTwoMatch_iff_pairwise (l : List ServiceSpec) :
    NoTwoMatch l ↔ l.Pairwise (fun a b => a.Matches b = false) := by
  rw [List.pairwise_iff_getElem]
  constructor
  · intro h i j hi hj hij
    exact h i j hi hj (Nat.ne_of_lt hij)
  · intro h i j hi hj hne
    rcases Nat.lt_or_gt_of_ne hne with hlt | hgt
    · exact h i j hi hj hlt
    · rw [ServiceSpec.matches_comm]
      exact h j i hj hi hgt

theorem ServiceDependency.noTwoMatch_AddTopRef (sd : ServiceDependency) (t : ServiceSpec)
    (h : NoTwoMatch sd.TopSvcRefs) : NoTwoMatch (sd.AddTopRef t).TopSvcRefs := by
  by_cases hm : ∃ e ∈ sd.TopSvcRefs, e.Matches t = true
  · rw [ServiceDependency.AddTopRef_of_match sd t hm]
    exact h
  · rw [ServiceDependency.AddTopRef_of_no_match sd t hm]
    rw [noTwoMatch_iff_pairwise] at h ⊢
    rw [List.pairwise_append]
    refine ⟨h, List.pairwise_singleton _ _, ?_⟩
    intro a ha b hb
    rw [List.mem_singleton] at hb
    subst hb
    cases hab : a.Matches b
    · rfl
    · exact absurd ⟨a, ha, hab⟩ hm

/-- C5: `AddTopRef` stores no duplicate top reference: when some entry of
`TopSvcRefs` matches the new top the node is left unchanged, otherwise the list
becomes the old list with the new top appended; hence when no two entries at
distinct positions match each other before the call, none do after it. -/
theorem addTopRef_no_duplicate (sd : ServiceDependency) (t : ServiceSpec) :
    ((∃ e ∈ sd.TopSvcRefs, e.Matches t = true) → sd.AddTopRef t = sd) ∧
    ((¬ ∃ e ∈ sd.TopSvcRefs, e.Matches t = true) →
      sd.AddTopRef t = { sd with TopSvcRefs := sd.TopSvcRefs ++ [t] }) ∧
    (NoTwoMatch sd.TopSvcRefs → NoTwoMatch (sd.AddTopRef t).TopSvcRefs) :=
  ⟨ServiceDependency.AddTopRef_of_match sd t, ServiceDependency.AddTopRef_of_no_match sd t,
    ServiceDependency.noTwoMatch_AddTopRef sd t⟩

/-- Witness of C5 on the node of `u` 1.0: adding the open-version top leaves
it unchanged, adding `u` 2.0 appends it, and the lists stay free of
duplicates. -/
theorem addTopRef_no_duplicate_witness :
    nodeU1.AddTopRef specUAny = nodeU1 ∧
    nodeU1.AddTopRef specU2 = { nodeU1 with TopSvcRefs := nodeU1.TopSvcRefs ++ [specU2] } ∧
    NoTwoMatch (nodeU1.AddTopRef specU2).TopSvcRefs :=
  ⟨(addTopRef_no_duplicate nodeU1 specUAny).1 ⟨specU1, by decide, by decide⟩,
    (addTopRef_no_duplicate nodeU1 specU2).2.1 (by decide),
    (addTopRef_no_duplicate nodeU1 specU2).2.2
      ((noTwoMatch_iff_pairwise _).2 (by decide))⟩

/-! ## Updates of the node list -/

theorem length_addTopRefAt (spTop : ServiceSpec) (deps : List ServiceDependency) (i : Nat) :
    (addTopRefAt spTop deps i).length = deps.length := by
  induction deps generalizing i with
  | nil => rfl
  | cons d rest ih =>
    cases i with
    | zero => rfl
    | succ i => simp [addTopRefAt, ih]

theorem getElem?_addTopRefAt (spTop : ServiceSpec) (deps : List ServiceDependency) (i j : Nat) :
    (addTopRefAt spTop deps i)[j]? =
      if j = i then (deps[j]?).map (fun d => d.AddTopRef spTop) else deps[j]? := by
  induction deps generalizing i j with
  | nil => simp [addTopRefAt]
  | cons d rest ih =>
    cases i with
    | zero =>
      cases j with
      | zero => simp [addTopRefAt]
      | succ j => simp [addTopRefAt]
    | succ i =>
      cases j with
      | zero => simp [addTopRefAt]
      | succ j => simp [addTopRefAt, ih]

theorem mem_addTopRefAt (spTop : ServiceSpec) (deps : List ServiceDependency) (i : Nat)
    (x : ServiceDependency) (h : x ∈ addTopRefAt spTop deps i) :
    x ∈ deps ∨ ∃ d ∈ deps, x = d.AddTopRef spTop := by
  induction deps generalizing i with
  | nil => simp [addTopRefAt] at h
  | cons d rest ih =>
    cases i with
    | zero =>
      simp only [addTopRefAt, List.mem_cons] at h
      rcases h with h | h
      · exact Or.inr ⟨d, by simp, h⟩
      · exact Or.inl (by simp [h])
    | succ i =>
      simp only [addTopRefAt, List.mem_cons] at h
      rcases h with h | h
      · exact Or.inl (by simp [h])
      · rcases ih i h with h1 | ⟨d1, hd1, hx⟩
        · exact Or.inl (by simp [h1])
        · exact Or.inr ⟨d1, by simp [hd1], hx⟩

theorem Grows.refl (deps : List ServiceDependency) : Grows deps deps :=
  fun _ d h => ⟨d, h, rfl, fun _ ht => ht⟩

theorem Grows.trans {a b c : List ServiceDependency} (hab : Grows a b) (hbc : Grows b c) :
    Grows a c := by
  intro i d h
  obtain ⟨d2, h2, hs2, ht2⟩ := hab i d h
  obtain ⟨d3, h3, hs3, ht3⟩ := hbc i d2 h2
  exact ⟨d3, h3, hs3.trans hs2, fun t ht => ht3 t (ht2 t ht)⟩

theorem Grows.append (deps : List ServiceDependency) (x : ServiceDependency) :
    Grows deps (deps ++ [x]) := by
  intro i d h
  refine ⟨d, ?_, rfl, fun _ ht => ht⟩
  have hi : i < deps.length := (List.getElem?_eq_some_iff.1 h).1
  rw [List.getElem?_append_left hi]
  exact h

theorem Grows.addTopRefAt (spTop : ServiceSpec) (deps : List ServiceDependency) (i : Nat) :
    Grows deps (addTopRefAt spTop deps i) := by
  intro j d h
  rw [getElem?_addTopRefAt]
  by_cases hji : j = i
  · rw [if_pos hji, h]
    exact ⟨d.AddTopRef spTop, rfl, d.AddTopRef_Service spTop,
      fun t ht => d.mem_AddTopRef_of_mem spTop t ht⟩
  · rw [if_neg hji]
    exact ⟨d, h, rfl, fun _ ht => ht⟩

/-! ## Properties kept by a walk of the graph builder -/

theorem requiredServicesLoop_preserves (Inv : List ServiceDependency → Prop)
    (recCall : ServiceSpec → List ServiceDependency →
      Option (List ServiceDependency × Option String))
    (hrec : ∀ sp d d2 e, recCall sp d = some (d2, e) → Inv d → Inv d2)
    (req : List RequiredService) (deps deps2 : List ServiceDependency)
    (h : requiredServicesLoop recCall req deps = some deps2) (hInv : Inv deps) : Inv deps2 := by
  induction req generalizing deps with
  | nil =>
    simp only [requiredServicesLoop, Option.some.injEq] at h
    exact h ▸ hInv
  | cons s rest ih =>
    simp only [requiredServicesLoop] at h
    split at h
    · exact absurd h (by simp)
    · rename_i deps1 e heq
      exact ih deps1 h (hrec _ _ _ _ heq hInv)

theorem depFilesLoop_preserves (read : String → Except String ServiceFile)
    (depFiles : List FileInfo) (spTop : ServiceSpec) (Inv : List ServiceDependency → Prop)
    (hApp : ∀ deps fileInfo dep, fileInfo ∈ depFiles → read fileInfo.Name = .ok dep →
      Inv deps → Inv (deps ++ [NewServiceDependency dep.spec spTop fileInfo]))
    (hAdd : ∀ deps i, Inv deps → Inv (addTopRefAt spTop deps i))
    (recCall : ServiceSpec → List ServiceDependency →
      Option (List ServiceDependency × Option String))
    (hrec : ∀ sp d d2 e, recCall sp d = some (d2, e) → Inv d → Inv d2)
    (sp : ServiceSpec) (theItem : Option Nat)
    (files : List FileInfo) (hfiles : ∀ f ∈ files, f ∈ depFiles)
    (deps deps2 : List ServiceDependency) (e : Option String)
    (h : depFilesLoop read recCall spTop sp theItem files deps = some (deps2, e))
    (hInv : Inv deps) : Inv deps2 := by
  induction files generalizing deps with
  | nil =>
    simp only [depFilesLoop, Option.some.injEq, Prod.mk.injEq] at h
    exact h.1 ▸ hInv
  | cons fileInfo rest ih =>
    have hrest : ∀ f ∈ rest, f ∈ depFiles := fun f hf => hfiles f (List.mem_cons_of_mem _ hf)
    simp only [depFilesLoop] at h
    split at h
    · simp only [Option.some.injEq, Prod.mk.injEq] at h
      exact h.1 ▸ hInv
    · rename_i dep hread
      split at h
      · split at h
        · exact absurd h (by simp)
        · rename_i deps3 hreq
          refine ih hrest deps3 h ?_
          refine requiredServicesLoop_preserves Inv recCall hrec _ _ _ hreq ?_
          cases theItem with
          | none => exact hApp deps fileInfo dep (hfiles _ (List.mem_cons_self _ _)) hread hInv
          | some i => exact hAdd deps i hInv
      · exact ih hrest deps h hInv

theorem getDependencyDependencyInfo_preserves (read : String → Except String ServiceFile)
    (depFiles : List FileInfo) (spTop : ServiceSpec) (Inv : List ServiceDependency → Prop)
    (hApp : ∀ deps fileInfo dep, fileInfo ∈ depFiles → read fileInfo.Name = .ok dep →
      Inv deps → Inv (deps ++ [NewServiceDependency dep.spec spTop fileInfo]))
    (hAdd : ∀ deps i, Inv deps → Inv (addTopRefAt spTop deps i))
    (fuel : Nat) (sp : ServiceSpec) (deps deps2 : List ServiceDependency) (e : Option String)
    (h : getDependencyDependencyInfo read fuel spTop sp depFiles deps = some (deps2, e))
    (hInv : Inv deps) : Inv deps2 := by
  induction fuel generalizing sp deps deps2 e with
  | zero => simp [getDependencyDependencyInfo] at h
  | succ fuel ih =>
    simp only [getDependencyDependencyInfo] at h
    exact depFilesLoop_preserves read depFiles spTop Inv hApp hAdd _
      (fun sp1 d d2 e1 h1 hd => ih sp1 d d2 e1 h1 hd) sp _ depFiles (fun _ hf => hf)
      deps deps2 e h hInv

theorem topServicesLoop_preserves (read : String → Except String ServiceFile)
    (depFiles : List FileInfo) (Inv : List ServiceDependency → Prop)
    (req : List RequiredService)
    (hApp : ∀ s ∈ req, ∀ deps fileInfo dep, fileInfo ∈ depFiles → read fileInfo.Name = .ok dep →
      Inv deps → Inv (deps ++ [NewServiceDependency dep.spec s.spec fileInfo]))
    (hAdd : ∀ s ∈ req, ∀ deps i, Inv deps → Inv (addTopRefAt s.spec deps i))
    (fuel : Nat) (deps deps2 : List ServiceDependency)
    (h : topServicesLoop read fuel depFiles req deps = some deps2)
    (hInv : Inv deps) : Inv deps2 := by
  induction req generalizing deps with
  | nil =>
    simp only [topServicesLoop, Option.some.injEq] at h
    exact h ▸ hInv
  | cons s rest ih =>
    simp only [topServicesLoop] at h
    split at h
    · exact absurd h (by simp)
    · rename_i deps1 e heq
      refine ih (fun s1 hs1 => hApp s1 (List.mem_cons_of_mem _ hs1))
        (fun s1 hs1 => hAdd s1 (List.mem_cons_of_mem _ hs1)) deps1 h ?_
      exact getDependencyDependencyInfo_preserves read depFiles s.spec Inv
        (hApp s (List.mem_cons_self _ _)) (hAdd s (List.mem_cons_self _ _)) fuel s.spec
        deps deps1 e heq hInv

/-! ## The graph of a project -/

theorem getDependencyInfo_cases (sfx : String) (fuel : Nat) (proj : Project)
    (deps : List ServiceDependency) (err : Option String)
    (h : getDependencyInfo sfx fuel proj = some (deps, err)) :
    (deps = [] ∧ err ≠ none) ∨
    ∃ svc depFiles, proj.definition = .ok svc ∧ GetDependencyFiles proj sfx = .ok depFiles ∧
      topServicesLoop proj.readDependency fuel depFiles svc.RequiredServices [] = some deps ∧
      err = none := by
  unfold getDependencyInfo at h
  split at h
  · simp only [Option.some.injEq, Prod.mk.injEq] at h
    exact Or.inl ⟨h.1.symm, by simp [← h.2]⟩
  · rename_i svc hdef
    split at h
    · simp only [Option.some.injEq, Prod.mk.injEq] at h
      exact Or.inl ⟨h.1.symm, by simp [← h.2]⟩
    · rename_i depFiles hfiles
      split at h
      · exact absurd h (by simp)
      · rename_i deps1 hloop
        simp only [Option.some.injEq, Prod.mk.injEq] at h
        exact Or.inr ⟨svc, depFiles, hdef, hfiles, h.1 ▸ hloop, h.2.symm⟩

theorem graphShared_eq : getDependencyInfo definitionFile 2 projShared = some (graphShared, none) := by
  decide

/-- C6: `TopSvcRefs` is never empty once a node exists: `NewServiceDependency`
gives a node with exactly one top reference, `AddTopRef` never shortens the
list, and every node of a list returned by `getDependencyInfo` has at least one
top reference. -/
theorem topSvcRefs_never_empty :
    (∀ service topService fileInfo,
      (NewServiceDependency service topService fileInfo).TopSvcRefs.length = 1) ∧
    (∀ (sd : ServiceDependency) t, sd.TopSvcRefs.length ≤ (sd.AddTopRef t).TopSvcRefs.length) ∧
    (∀ sfx fuel proj deps err, getDependencyInfo sfx fuel proj = some (deps, err) →
      ∀ d ∈ deps, 1 ≤ d.TopSvcRefs.length) := by
  refine ⟨fun _ _ _ => rfl, fun sd t => sd.length_le_AddTopRef t, ?_⟩
  intro sfx fuel proj deps err h
  rcases getDependencyInfo_cases sfx fuel proj deps err h with ⟨h0, _⟩ | ⟨svc, depFiles, _, _, hloop, _⟩
  · simp [h0]
  · refine topServicesLoop_preserves proj.readDependency depFiles
      (fun l => ∀ d ∈ l, 1 ≤ d.TopSvcRefs.length) svc.RequiredServices ?_ ?_ fuel [] deps hloop
      (by simp)
    · intro s _ l fileInfo dep _ _ hl d hd
      rcases List.mem_append.1 hd with hd | hd
      · exact hl d hd
      · rw [List.mem_singleton] at hd
        simp [hd, NewServiceDependency]
    · intro s _ l i hl d hd
      rcases mem_addTopRefAt s.spec l i d hd with hd | ⟨d1, hd1, hx⟩
      · exact hl d hd
      · rw [hx]
        exact Nat.le_trans (hl d1 hd1) (d1.length_le_AddTopRef s.spec)

/-- Witness of C6 on the project that requires `a` and `b`, which both
require `c`: the walk returns three nodes, each with a top reference. -/
theorem topSvcRefs_never_empty_witness :
    getDependencyInfo definitionFile 2 projShared = some (graphShared, none) ∧
    ∀ d ∈ graphShared, 1 ≤ d.TopSvcRefs.length :=
  ⟨graphShared_eq,
    topSvcRefs_never_empty.2.2 definitionFile 2 projShared graphShared none graphShared_eq⟩

/-- C8: top references are the project's direct required services: in every
node returned by `getDependencyInfo`, every entry of `TopSvcRefs` is the spec
(URL, Org, Version, Arch) of an entry of the project's own `RequiredServices`
list. -/
theorem topRefs_are_project_requirements (sfx : String) (fuel : Nat) (proj : Project)
    (deps : List ServiceDependency) (err : Option String)
    (h : getDependencyInfo sfx fuel proj = some (deps, err)) :
    ∀ d ∈ deps, ∀ t ∈ d.TopSvcRefs,
      ∃ svc, proj.definition = .ok svc ∧
        ∃ s ∈ svc.RequiredServices, t = NewServiceSpec s.URL s.Org s.Version s.Arch := by
  rcases getDependencyInfo_cases sfx fuel proj deps err h with ⟨h0, _⟩ | ⟨svc, depFiles, hdef, _, hloop, _⟩
  · simp [h0]
  · intro d hd t ht
    refine ⟨svc, hdef, ?_⟩
    refine topServicesLoop_preserves proj.readDependency depFiles
      (fun l => ∀ d ∈ l, ∀ t ∈ d.TopSvcRefs, ∃ s ∈ svc.RequiredServices, t = s.spec)
      svc.RequiredServices ?_ ?_ fuel [] deps hloop (by simp) d hd t ht
    · intro s hs l fileInfo dep _ _ hl d hd t ht
      rcases List.mem_append.1 hd with hd | hd
      · exact hl d hd t ht
      · rw [List.mem_singleton] at hd
        subst hd
        simp only [NewServiceDependency, List.mem_singleton] at ht
        exact ⟨s, hs, ht⟩
    · intro s hs l i hl d hd t ht
      rcases mem_addTopRefAt s.spec l i d hd with hd | ⟨d1, hd1, hx⟩
      · exact hl d hd t ht
      · subst hx
        rcases d1.mem_AddTopRef s.spec t ht with ht | ht
        · exact hl d1 hd1 t ht
        · exact ⟨s, hs, ht⟩

/-- Witness of C8 on the project that requires `a` and `b`: the top
references of the shared node `c` are the declarations of `a` and `b`. -/
theorem topRefs_are_project_requirements_witness :
    getDependencyInfo definitionFile 2 projShared = some (graphShared, none) ∧
    ∀ d ∈ graphShared, ∀ t ∈ d.TopSvcRefs,
      ∃ svc, projShared.definition = .ok svc ∧
        ∃ s ∈ svc.RequiredServices, t = NewServiceSpec s.URL s.Org s.Version s.Arch :=
  ⟨graphShared_eq,
    topRefs_are_project_requirements definitionFile 2 projShared graphShared none graphShared_eq⟩

/-- C7 (the code at the failing input): for the project that requires `u` at
any version, with `u` 1.0 (which requires `u` 2.0) and `u` 2.0 in the store,
`getDependencyInfo` returns three nodes, and the nodes at positions 1 and 2
both have the spec of `u` 2.0, so two nodes at distinct positions match. -/
theorem graph_has_duplicate_nodes :
    getDependencyInfo definitionFile 2 projDup = some (graphDup, none) ∧
    ¬ NoTwoMatch (graphDup.map (fun d => d.Service)) := by
  refine ⟨by decide, fun h => ?_⟩
  have h12 := h 1 2 (by decide) (by decide) (by decide)
  revert h12
  decide

/-- C9 (the code at the failing input): the project requires `u` 1.0 and `u`
at any version and the store holds the readable records `u` 1.0 and `u` 2.0.
The record `u` 2.0 matches the second declaration, yet the returned list has
no node whose `Service` is the spec of `u` 2.0: the record is attached to the
node of `u` 1.0, which the lookup by the search spec found. -/
theorem missing_node_counterexample :
    projMissing.definition = .ok defMissing ∧
    reqUAny ∈ defMissing.RequiredServices ∧
    GetDependencyFiles projMissing definitionFile = .ok [fileU1, fileU2] ∧
    projMissing.readDependency fileU1.Name = .ok recU1 ∧
    projMissing.readDependency fileU2.Name = .ok recU2 ∧
    recU2.spec.Matches reqUAny.spec = true ∧
    getDependencyInfo definitionFile 2 projMissing = some (graphMissing, none) ∧
    ¬ ∃ d ∈ graphMissing, d.Service = recU2.spec ∧
        ∃ t ∈ d.TopSvcRefs, t.Matches reqUAny.spec = true := by
  refine ⟨rfl, by decide, by rfl, by rfl, by rfl, by decide, by decide, by decide⟩

theorem node_present_in_other_order :
    getDependencyInfo definitionFile 2 projMissingSwapped = some (graphMissingSwapped, none) ∧
    ∃ d ∈ graphMissingSwapped, d.Service = recU2.spec ∧
      ∃ t ∈ d.TopSvcRefs, t.Matches reqUAny.spec = true := by
  refine ⟨by decide, by decide⟩

/-! ## The remover -/

theorem removeTopRefsLoop_no_match
    (RSD RCV : Project → Option ServiceFile → Project × Option String)
    (topDep : ServiceSpec) (dep : ServiceDependency) (tops : List ServiceSpec)
    (proj : Project) (found : Bool) (h : ∀ t ∈ tops, t.Matches topDep = false) :
    removeTopRefsLoop RSD RCV topDep dep tops proj found = (proj, found, none) := by
  induction tops with
  | nil => rfl
  | cons t rest ih =>
    have ht : t.Matches topDep = false := h t (List.mem_cons_self _ _)
    simp only [removeTopRefsLoop, ht, Bool.false_eq_true, if_false]
    exact ih (fun t1 h1 => h t1 (List.mem_cons_of_mem _ h1))

theorem removeTopRefsLoop_found
    (RSD RCV : Project → Option ServiceFile → Project × Option String)
    (topDep : ServiceSpec) (dep : ServiceDependency) (tops : List ServiceSpec)
    (proj proj1 : Project) (found found1 : Bool)
    (h : removeTopRefsLoop RSD RCV topDep dep tops proj found = (proj1, found1, none))
    (hf : found = true ∨ ∃ t ∈ tops, t.Matches topDep = true) : found1 = true := by
  induction tops generalizing proj found with
  | nil =>
    simp only [removeTopRefsLoop, Prod.mk.injEq] at h
    rcases hf with hf | ⟨t, ht, _⟩
    · rw [← h.2.1, hf]
    · simp at ht
  | cons t rest ih =>
    simp only [removeTopRefsLoop] at h
    by_cases ht : t.Matches topDep = true
    · simp only [ht, if_true] at h
      split at h
      · split at h
        · simp at h
        · exact ih _ _ h (Or.inl rfl)
      · split at h
        · split at h
          · split at h
            · simp at h
            · exact ih _ _ h (Or.inl rfl)
          · exact ih _ _ h (Or.inl rfl)
        · exact ih _ _ h (Or.inl rfl)
    · simp only [ht, if_false] at h
      refine ih _ _ h ?_
      rcases hf with hf | ⟨t1, ht1, hm⟩
      · exact Or.inl hf
      · rcases List.mem_cons.1 ht1 with h1 | h1
        · exact absurd (h1 ▸ hm) ht
        · exact Or.inr ⟨t1, h1, hm⟩

theorem removeDepsLoop_no_match
    (RSD RCV : Project → Option ServiceFile → Project × Option String)
    (topDep : ServiceSpec) (deps : List ServiceDependency) (proj : Project) (found : Bool)
    (h : ∀ d ∈ deps, ∀ t ∈ d.TopSvcRefs, t.Matches topDep = false) :
    removeDepsLoop RSD RCV topDep deps proj found = (proj, found, none) := by
  induction deps with
  | nil => rfl
  | cons d rest ih =>
    simp only [removeDepsLoop]
    rw [removeTopRefsLoop_no_match RSD RCV topDep d d.TopSvcRefs proj found
      (h d (List.mem_cons_self _ _))]
    exact ih (fun d1 h1 => h d1 (List.mem_cons_of_mem _ h1))

theorem removeDepsLoop_found
    (RSD RCV : Project → Option ServiceFile → Project × Option String)
    (topDep : ServiceSpec) (deps : List ServiceDependency)
    (proj proj1 : Project) (found found1 : Bool)
    (h : removeDepsLoop RSD RCV topDep deps proj found = (proj1, found1, none))
    (hf : found = true ∨ ∃ d ∈ deps, ∃ t ∈ d.TopSvcRefs, t.Matches topDep = true) :
    found1 = true := by
  induction deps generalizing proj found with
  | nil =>
    simp only [removeDepsLoop, Prod.mk.injEq] at h
    rcases hf with hf | ⟨d, hd, _⟩
    · rw [← h.2.1, hf]
    · simp at hd
  | cons d rest ih =>
    simp only [removeDepsLoop] at h
    split at h
    · simp at h
    · rename_i proj2 found2 hinner
      refine ih _ _ h ?_
      by_cases hd : ∃ t ∈ d.TopSvcRefs, t.Matches topDep = true
      · exact Or.inl (removeTopRefsLoop_found RSD RCV topDep d d.TopSvcRefs proj proj2 found
          found2 hinner (Or.inr hd))
      · rcases hf with hf | ⟨d1, hd1, hm⟩
        · exact Or.inl (removeTopRefsLoop_found RSD RCV topDep d d.TopSvcRefs proj proj2 found
            found2 hinner (Or.inl hf))
        · rcases List.mem_cons.1 hd1 with h1 | h1
          · exact absurd (h1 ▸ hm) hd
          · exact Or.inr ⟨d1, h1, hm⟩

/-- C10: `removeDependencyAndChildren` ends with the fatal error 'dependency
not found' exactly when `getDependencyInfo` built a graph in which no node has a
`TopSvcRefs` entry matching the target spec, and then the project (record
files, required-services entries, configuration entries) is unchanged. -/
theorem remove_not_found_iff (sfx : String)
    (RSD RCV : Project → Option ServiceFile → Project × Option String)
    (fuel : Nat) (proj proj1 : Project) (specRef org version arch : String) :
    removeDependencyAndChildren sfx RSD RCV fuel proj specRef org version arch =
        some (proj1, RemoveResult.fatalNotFound) ↔
      (∃ deps, getDependencyInfo sfx fuel proj = some (deps, none) ∧
        ∀ d ∈ deps, ∀ t ∈ d.TopSvcRefs,
          t.Matches (NewServiceSpec specRef org version arch) = false) ∧
      proj1 = proj := by
  simp only [removeDependencyAndChildren]
  constructor
  · intro h
    split at h
    · simp at h
    · simp at h
    · rename_i deps hinfo
      split at h
      · simp at h
      · rename_i proj2 found hloop
        by_cases hfound : found = true
        · simp [hfound] at h
        · simp only [hfound, Bool.not_false, if_true, Option.some.injEq, Prod.mk.injEq,
            and_true] at h
          have hno : ∀ d ∈ deps, ∀ t ∈ d.TopSvcRefs,
              t.Matches (NewServiceSpec specRef org version arch) = false := by
            intro d hd t ht
            cases hm : t.Matches (NewServiceSpec specRef org version arch)
            · rfl
            · exact absurd (removeDepsLoop_found RSD RCV _ deps proj proj2 false found hloop
                (Or.inr ⟨d, hd, t, ht, hm⟩)) hfound
          rw [removeDepsLoop_no_match RSD RCV _ deps proj false hno] at hloop
          simp only [Prod.mk.injEq] at hloop
          exact ⟨⟨deps, hinfo, hno⟩, by rw [← h, ← hloop.1]⟩
  · rintro ⟨⟨deps, hinfo, hno⟩, rfl⟩
    simp only [hinfo]
    rw [removeDepsLoop_no_match RSD RCV _ deps proj1 false hno]
    simp

/-- Witness of C10: no node of the graph of the project that requires `a` and
`b` has a top reference matching service `z`, so removing `z` ends with
'dependency not found' and leaves the project as it was. -/
theorem remove_not_found_iff_witness :
    removeDependencyAndChildren definitionFile (fun p _ => (p, none)) (fun p _ => (p, none))
      2 projShared "z" "o" "1.0" "amd64" = some (projShared, RemoveResult.fatalNotFound) :=
  (remove_not_found_iff definitionFile (fun p _ => (p, none)) (fun p _ => (p, none))
    2 projShared projShared "z" "o" "1.0" "amd64").2
    ⟨⟨graphShared, graphShared_eq, by decide⟩, rfl⟩

/-! ## Completeness of the graph -/

theorem Grows.exists_mem {deps1 deps2 : List ServiceDependency} (h : Grows deps1 deps2)
    (d : ServiceDependency) (hd : d ∈ deps1) :
    ∃ d2 ∈ deps2, d2.Service = d.Service ∧ ∀ t ∈ d.TopSvcRefs, t ∈ d2.TopSvcRefs := by
  obtain ⟨i, hi⟩ := List.getElem?_of_mem hd
  obtain ⟨d2, h2, hs, ht⟩ := h i d hi
  exact ⟨d2, List.getElem?_mem h2, hs, ht⟩

theorem getDependencyDependencyInfo_grows (read : String → Except String ServiceFile)
    (depFiles : List FileInfo) (spTop sp : ServiceSpec) (fuel : Nat)
    (deps deps2 : List ServiceDependency) (e : Option String)
    (h : getDependencyDependencyInfo read fuel spTop sp depFiles deps = some (deps2, e)) :
    Grows deps deps2 :=
  getDependencyDependencyInfo_preserves read depFiles spTop (Grows deps)
    (fun l _ _ _ _ hl => hl.trans (Grows.append l _))
    (fun l i hl => hl.trans (Grows.addTopRefAt spTop l i))
    fuel sp deps deps2 e h (Grows.refl deps)

theorem topServicesLoop_grows (read : String → Except String ServiceFile)
    (depFiles : List FileInfo) (fuel : Nat) (req : List RequiredService)
    (deps deps2 : List ServiceDependency)
    (h : topServicesLoop read fuel depFiles req deps = some deps2) : Grows deps deps2 :=
  topServicesLoop_preserves read depFiles (Grows deps) req
    (fun _ _ l _ _ _ _ hl => hl.trans (Grows.append l _))
    (fun s _ l i hl => hl.trans (Grows.addTopRefAt s.spec l i))
    fuel deps deps2 h (Grows.refl deps)

theorem depFilesLoop_hits (read : String → Except String ServiceFile)
    (spTop sp : ServiceSpec) (theItem : Option Nat)
    (recCall : ServiceSpec → List ServiceDependency →
      Option (List ServiceDependency × Option String))
    (hrec : ∀ sp1 d d2 e, recCall sp1 d = some (d2, e) → Grows d d2)
    (f : FileInfo) (post : List FileInfo) (r : ServiceFile)
    (hr : read f.Name = .ok r) (hm : r.spec.Matches sp = true)
    (before : List FileInfo) (hbefore : ∀ g ∈ before, ∃ r1, read g.Name = .ok r1)
    (deps deps2 : List ServiceDependency) (e : Option String)
    (h : depFilesLoop read recCall spTop sp theItem (before ++ f :: post) deps =
      some (deps2, e)) :
    ∃ depsA, Grows deps depsA ∧
      (theItem = none → Grows (depsA ++ [NewServiceDependency r.spec spTop f]) deps2) ∧
      (∀ i, theItem = some i → Grows (addTopRefAt spTop depsA i) deps2) := by
  have hloop : ∀ files d d2 e1,
      depFilesLoop read recCall spTop sp theItem files d = some (d2, e1) → Grows d d2 := by
    intro files d d2 e1 h1
    exact depFilesLoop_preserves read files spTop (Grows d)
      (fun l _ _ _ _ hl => hl.trans (Grows.append l _))
      (fun l i hl => hl.trans (Grows.addTopRefAt spTop l i))
      recCall (fun sp1 a b e2 hab ha => ha.trans (hrec sp1 a b e2 hab))
      sp theItem files (fun _ hf => hf) d d2 e1 h1 (Grows.refl d)
  have hreq : ∀ req d d2, requiredServicesLoop recCall req d = some d2 → Grows d d2 := by
    intro req d d2 h1
    exact requiredServicesLoop_preserves (Grows d) recCall
      (fun sp1 a b e2 hab ha => ha.trans (hrec sp1 a b e2 hab)) req d d2 h1 (Grows.refl d)
  induction before generalizing deps with
  | nil =>
    simp only [List.nil_append, depFilesLoop, hr, hm, if_true] at h
    split at h
    · exact absurd h (by simp)
    · rename_i deps3 h3
      have h4 := (hreq _ _ _ h3).trans (hloop _ _ _ _ h)
      refine ⟨deps, Grows.refl deps, ?_, ?_⟩
      · intro hnone
        subst hnone
        exact h4
      · intro i hsome
        subst hsome
        exact h4
  | cons g rest ih =>
    obtain ⟨r1, hr1⟩ := hbefore g (List.mem_cons_self _ _)
    have hrest : ∀ g1 ∈ rest, ∃ r2, read g1.Name = .ok r2 :=
      fun g1 hg1 => hbefore g1 (List.mem_cons_of_mem _ hg1)
    simp only [List.cons_append, depFilesLoop, hr1] at h
    split at h
    · split at h
      · exact absurd h (by simp)
      · rename_i deps3 h3
        obtain ⟨depsA, hA, hB⟩ := ih hrest deps3 h
        refine ⟨depsA, Grows.trans ?_ ((hreq _ _ _ h3).trans hA), hB⟩
        cases theItem with
        | none => exact Grows.append deps _
        | some i => exact Grows.addTopRefAt spTop deps i
    · exact ih hrest deps h

theorem getDependencyDependencyInfo_node (read : String → Except String ServiceFile)
    (spTop sp : ServiceSpec) (fuel : Nat)
    (before : List FileInfo) (f : FileInfo) (post : List FileInfo) (r : ServiceFile)
    (hbefore : ∀ g ∈ before, ∃ r1, read g.Name = .ok r1)
    (hr : read f.Name = .ok r) (hm : r.spec.Matches sp = true)
    (deps deps2 : List ServiceDependency) (e : Option String)
    (h : getDependencyDependencyInfo read fuel spTop sp (before ++ f :: post) deps =
      some (deps2, e)) :
    ∃ d ∈ deps2,
      (d.Service = r.spec ∨ ∃ d0 ∈ deps, d0.Service.Matches sp = true ∧ d.Service = d0.Service) ∧
      ∃ t ∈ d.TopSvcRefs, t.Matches spTop = true := by
  cases fuel with
  | zero => simp [getDependencyDependencyInfo] at h
  | succ fuel =>
    simp only [getDependencyDependencyInfo] at h
    obtain ⟨depsA, hA, hnone, hsome⟩ := depFilesLoop_hits read spTop sp _ _
      (fun sp1 d d2 e1 h1 =>
        getDependencyDependencyInfo_grows read _ spTop sp1 fuel d d2 e1 h1)
      f post r hr hm before hbefore deps deps2 e h
    cases hidx : deps.findIdx? (fun d => d.Service.Matches sp) with
    | none =>
      obtain ⟨d2, h2, hs, ht⟩ :=
        hnone hidx depsA.length _ (List.getElem?_concat_length depsA _)
      exact ⟨d2, List.getElem?_mem h2, Or.inl hs,
        spTop, ht spTop (by simp [NewServiceDependency]), ServiceSpec.matches_self spTop⟩
    | some i =>
      obtain ⟨hlt, hp, _⟩ := List.findIdx?_eq_some_iff_getElem.1 hidx
      obtain ⟨dA, hdA, hsA, _⟩ := hA i deps[i] (List.getElem?_eq_getElem hlt)
      have h1 : (addTopRefAt spTop depsA i)[i]? = some (dA.AddTopRef spTop) := by
        rw [getElem?_addTopRefAt, if_pos rfl, hdA]
        rfl
      obtain ⟨d2, h2, hs, ht⟩ := hsome i hidx i _ h1
      obtain ⟨t, htmem, htm⟩ := dA.exists_match_AddTopRef spTop
      refine ⟨d2, List.getElem?_mem h2, Or.inr ⟨deps[i], List.getElem_mem hlt, hp, ?_⟩,
        t, ht t htmem, htm⟩
      rw [hs, dA.AddTopRef_Service spTop, hsA]

theorem topServicesLoop_node (read : String → Except String ServiceFile) (fuel : Nat)
    (before : List FileInfo) (f : FileInfo) (post : List FileInfo) (r : ServiceFile)
    (hbefore : ∀ g ∈ before, ∃ r1, read g.Name = .ok r1)
    (hr : read f.Name = .ok r) (s : RequiredService) (hm : r.spec.Matches s.spec = true)
    (req : List RequiredService) (hs : s ∈ req) (deps deps2 : List ServiceDependency)
    (hInv : ∀ d ∈ deps, ∃ g ∈ before ++ f :: post, ∃ r1,
      read g.Name = .ok r1 ∧ d.Service = r1.spec)
    (h : topServicesLoop read fuel (before ++ f :: post) req deps = some deps2) :
    ∃ d ∈ deps2, d.Service.Matches s.spec = true ∧
      ((∀ g ∈ before ++ f :: post, ∀ r1, read g.Name = .ok r1 →
          r1.spec.Matches s.spec = true → r1.spec = r.spec) → d.Service = r.spec) ∧
      ∃ t ∈ d.TopSvcRefs, t.Matches s.spec = true := by
  induction req generalizing deps with
  | nil => simp at hs
  | cons s0 rest ih =>
    simp only [topServicesLoop] at h
    split at h
    · exact absurd h (by simp)
    · rename_i deps1 e heq
      have hInv1 : ∀ d ∈ deps1, ∃ g ∈ before ++ f :: post, ∃ r1,
          read g.Name = .ok r1 ∧ d.Service = r1.spec := by
        refine getDependencyDependencyInfo_preserves read (before ++ f :: post) s0.spec
          (fun l => ∀ d ∈ l, ∃ g ∈ before ++ f :: post, ∃ r1,
            read g.Name = .ok r1 ∧ d.Service = r1.spec)
          ?_ ?_ fuel s0.spec deps deps1 e heq hInv
        · intro l fileInfo dep hmem hread hl d hd
          rcases List.mem_append.1 hd with hd | hd
          · exact hl d hd
          · rw [List.mem_singleton] at hd
            exact ⟨fileInfo, hmem, dep, hread, by rw [hd]; rfl⟩
        · intro l i hl d hd
          rcases mem_addTopRefAt s0.spec l i d hd with hd | ⟨d1, hd1, hx⟩
          · exact hl d hd
          · rw [hx, d1.AddTopRef_Service s0.spec]
            exact hl d1 hd1
      by_cases hs0 : s = s0
      · subst hs0
        obtain ⟨d, hd, hsvc, t, ht, htm⟩ := getDependencyDependencyInfo_node read s.spec s.spec
          fuel before f post r hbefore hr hm deps deps1 e heq
        obtain ⟨d2, hd2, hs2, ht2⟩ :=
          (topServicesLoop_grows read _ fuel rest deps1 deps2 h).exists_mem d hd
        refine ⟨d2, hd2, ?_, ?_, t, ht2 t ht, htm⟩
        · rw [hs2]
          rcases hsvc with hsvc | ⟨d0, _, hp, hsvc⟩
          · rw [hsvc]
            exact hm
          · rw [hsvc]
            exact hp
        · intro huniq
          rw [hs2]
          rcases hsvc with hsvc | ⟨d0, hd0, hp, hsvc⟩
          · exact hsvc
          · obtain ⟨g, hg, r1, hr1, hsr1⟩ := hInv d0 hd0
            rw [hsvc, hsr1]
            exact huniq g hg r1 hr1 (hsr1 ▸ hp)
      · have hsrest : s ∈ rest := by
          rcases List.mem_cons.1 hs with h1 | h1
          · exact absurd h1 hs0
          · exact h1
        exact ih hsrest deps1 hInv1 h

/-- What the walk does give for a matching record: for every required-service
declaration `s` of the project
and every record `r` of the store whose resolved spec matches `s`, such that
every file listed before the file of `r` can be read, whenever
`getDependencyInfo` returns, the returned list contains a node whose `Service`
matches `s` and whose `TopSvcRefs` contains an entry matching `s`; the
`Service` of that node is the spec of `r` when every readable record of the
store that matches `s` has the spec of `r`. -/
theorem graph_completeness (sfx : String) (fuel : Nat) (proj : Project) (svc : ServiceFile)
    (deps : List ServiceDependency) (err : Option String)
    (before : List FileInfo) (f : FileInfo) (post : List FileInfo) (r : ServiceFile)
    (s : RequiredService)
    (hdef : proj.definition = .ok svc) (hs : s ∈ svc.RequiredServices)
    (hfiles : GetDependencyFiles proj sfx = .ok (before ++ f :: post))
    (hbefore : ∀ g ∈ before, ∃ r1, proj.readDependency g.Name = .ok r1)
    (hr : proj.readDependency f.Name = .ok r)
    (hm : r.spec.Matches s.spec = true)
    (hrun : getDependencyInfo sfx fuel proj = some (deps, err)) :
    ∃ d ∈ deps, d.Service.Matches s.spec = true ∧
      ((∀ g ∈ before ++ f :: post, ∀ r1, proj.readDependency g.Name = .ok r1 →
          r1.spec.Matches s.spec = true → r1.spec = r.spec) → d.Service = r.spec) ∧
      ∃ t ∈ d.TopSvcRefs, t.Matches s.spec = true := by
  simp only [getDependencyInfo, hdef, hfiles] at hrun
  split at hrun
  · exact absurd hrun (by simp)
  · rename_i deps1 hloop
    simp only [Option.some.injEq, Prod.mk.injEq] at hrun
    rw [← hrun.1]
    exact topServicesLoop_node proj.readDependency fuel before f post r hbefore hr s hm
      svc.RequiredServices hs [] deps1 (by simp) hloop

/-- An instance on the project that requires `a` and `b`: for the
declaration of `b` and the record of `b`, listed after the readable file of
`a`, the graph has a node as stated. -/
theorem graph_completeness_witness :
    ∃ d ∈ graphShared, d.Service.Matches reqB.spec = true ∧
      ((∀ g ∈ [fileA] ++ fileB :: [fileC], ∀ r1, projShared.readDependency g.Name = .ok r1 →
          r1.spec.Matches reqB.spec = true → r1.spec = recB.spec) → d.Service = recB.spec) ∧
      ∃ t ∈ d.TopSvcRefs, t.Matches reqB.spec = true :=
  graph_completeness definitionFile 2 projShared defShared graphShared none
    [fileA] fileB [fileC] recB reqB rfl (by decide) (by rfl)
    (by
      intro g hg
      rw [List.mem_singleton] at hg
      subst hg
      exact ⟨recA, by rfl⟩)
    (by rfl) (by decide) graphShared_eq

theorem graph_walk_stops_at_unreadable_file :
    getDependencyInfo definitionFile 2 projUnreadable = some ([], none) := by
  decide

/-! ## What removal does to a node -/

theorem readDependency_ok (proj : Project) (name : String) (r : ServiceFile)
    (h : proj.readDependency name = .ok r) :
    ∃ entries, proj.dependencies = .ok entries ∧
      ∃ e ∈ entries, e.info.Name = name ∧ e.content = .ok r := by
  unfold Project.readDependency at h
  split at h
  · simp at h
  · rename_i entries hdeps
    split at h
    · rename_i e hfind
      refine ⟨entries, hdeps, e, List.mem_of_find?_eq_some hfind, ?_, h⟩
      have := List.find?_some hfind
      simpa using this
    · simp at h

theorem removeDependencyFromProject_delete (proj : Project) (sd : ServiceDependency)
    (r svc : ServiceFile) (entries : List DirEntry)
    (hr : proj.readDependency sd.FileInfo.Name = .ok r) (hdef : proj.definition = .ok svc)
    (hdeps : proj.dependencies = .ok entries) :
    removeDependencyFromProject RemoveServiceDependency RemoveConfiguredVariables proj sd false =
      (Project.mk (.ok (svc.withoutDeclarationsOf r))
        (.ok (entries.filter (fun e => !(e.info.Name == sd.FileInfo.Name))))
        (proj.userInputs.filter (keepsBlock r)), none) := by
  obtain ⟨entries1, hdeps1, e, he, hname, _⟩ := readDependency_ok proj _ r hr
  rw [hdeps] at hdeps1
  cases hdeps1
  have hany : entries.any (fun e => e.info.Name == sd.FileInfo.Name) = true :=
    List.any_eq_true.2 ⟨e, he, by simp [hname]⟩
  simp only [removeDependencyFromProject, hr, RemoveServiceDependency, hdef,
    Project.removeDependencyFile, hdeps, hany, RemoveConfiguredVariables, errText]
  simp

theorem removeDependencyFromProject_only_definition
    (RCV : Project → Option ServiceFile → Project × Option String)
    (proj : Project) (sd : ServiceDependency) (r svc : ServiceFile)
    (hr : proj.readDependency sd.FileInfo.Name = .ok r) (hdef : proj.definition = .ok svc) :
    removeDependencyFromProject RemoveServiceDependency RCV proj sd true =
      ({ proj with definition := .ok (svc.withoutDeclarationsOf r) }, none) := by
  simp only [removeDependencyFromProject, hr, RemoveServiceDependency, hdef, errText]
  simp

theorem withoutDeclarationsOf_idem (svc r : ServiceFile) :
    (svc.withoutDeclarationsOf r).withoutDeclarationsOf r = svc.withoutDeclarationsOf r := by
  simp [ServiceFile.withoutDeclarationsOf, List.filter_filter]

theorem removeTopRefsLoop_single (target : ServiceSpec) (dep : ServiceDependency)
    (t : ServiceSpec) (proj : Project) (found : Bool) (r svc : ServiceFile)
    (entries : List DirEntry)
    (htops : dep.TopSvcRefs = [t]) (hm : t.Matches target = true)
    (hr : proj.readDependency dep.FileInfo.Name = .ok r) (hdef : proj.definition = .ok svc)
    (hdeps : proj.dependencies = .ok entries) :
    removeTopRefsLoop RemoveServiceDependency RemoveConfiguredVariables target dep
        dep.TopSvcRefs proj found =
      (Project.mk (.ok (svc.withoutDeclarationsOf r))
        (.ok (entries.filter (fun e => !(e.info.Name == dep.FileInfo.Name))))
        (proj.userInputs.filter (keepsBlock r)), true, none) := by
  have hlen : dep.TopSvcRefs.length ≤ 1 := by simp [htops]
  rw [htops]
  simp only [removeTopRefsLoop, hm, if_true, hlen,
    removeDependencyFromProject_delete proj dep r svc entries hr hdef hdeps]

theorem removeTopRefsLoop_shared_top
    (RCV : Project → Option ServiceFile → Project × Option String)
    (target : ServiceSpec) (dep : ServiceDependency) (r : ServiceFile)
    (hlen : 1 < dep.TopSvcRefs.length) (hsvc : dep.Service.Matches target = true)
    (tops : List ServiceSpec) (proj : Project) (found : Bool) (svc : ServiceFile)
    (hr : proj.readDependency dep.FileInfo.Name = .ok r) (hdef : proj.definition = .ok svc) :
    removeTopRefsLoop RemoveServiceDependency RCV target dep tops proj found =
      (if tops.any (fun t => t.Matches target) then
          { proj with definition := .ok (svc.withoutDeclarationsOf r) }
        else proj,
        found || tops.any (fun t => t.Matches target), none) := by
  induction tops generalizing proj found svc with
  | nil => simp [removeTopRefsLoop]
  | cons t rest ih =>
    by_cases ht : t.Matches target = true
    · simp only [removeTopRefsLoop, ht, if_true, Nat.not_le.2 hlen, if_false, hlen, hsvc,
        gt_iff_lt, removeDependencyFromProject_only_definition RCV proj dep r svc hr hdef,
        List.any_cons, Bool.true_or, Bool.or_true]
      rw [ih (Project.mk (.ok (svc.withoutDeclarationsOf r)) proj.dependencies proj.userInputs)
        true (svc.withoutDeclarationsOf r) hr rfl]
      simp only [Bool.true_or, withoutDeclarationsOf_idem]
      split <;> rfl
    · simp only [removeTopRefsLoop, ht, if_false, List.any_cons, Bool.false_eq_true]
      rw [ih proj found svc hr hdef]
      simp [ht]

theorem removeTopRefsLoop_shared_other
    (RSD RCV : Project → Option ServiceFile → Project × Option String)
    (target : ServiceSpec) (dep : ServiceDependency)
    (hlen : 1 < dep.TopSvcRefs.length) (hsvc : dep.Service.Matches target = false)
    (tops : List ServiceSpec) (proj : Project) (found : Bool) :
    removeTopRefsLoop RSD RCV target dep tops proj found =
      (proj, found || tops.any (fun t => t.Matches target), none) := by
  induction tops generalizing found with
  | nil => simp [removeTopRefsLoop]
  | cons t rest ih =>
    by_cases ht : t.Matches target = true
    · simp only [removeTopRefsLoop, ht, if_true, Nat.not_le.2 hlen, if_false, hlen, hsvc,
        gt_iff_lt, List.any_cons, Bool.true_or, Bool.or_true, Bool.false_eq_true]
      rw [ih true]
      simp
    · simp only [removeTopRefsLoop, ht, if_false, List.any_cons, Bool.false_eq_true]
      rw [ih found]
      simp [ht]

theorem fullyDeleted_of_eq (name : String) (r svc : ServiceFile) (entries : List DirEntry)
    (proj : Project) (hdef : proj.definition = .ok svc) (hdeps : proj.dependencies = .ok entries) :
    FullyDeleted name r proj
      (Project.mk (.ok (svc.withoutDeclarationsOf r))
        (.ok (entries.filter (fun e => !(e.info.Name == name))))
        (proj.userInputs.filter (keepsBlock r))) := by
  refine ⟨⟨entries, hdeps, rfl⟩, ?_, ⟨svc, hdef, rfl, ?_⟩, rfl, ?_⟩
  · intro x hx
    obtain ⟨entries1, h1, e, he, hname, _⟩ := readDependency_ok _ _ _ hx
    simp only [Except.ok.injEq] at h1
    rw [← h1] at he
    have := (List.mem_filter.1 he).2
    simp [hname] at this
  · intro s hs
    have := (List.mem_filter.1 hs).2
    simp only [keepsDeclaration, Bool.not_eq_true', Bool.and_eq_false_iff, beq_eq_false_iff_ne,
      ne_eq] at this
    tauto
  · intro b hb
    have := (List.mem_filter.1 hb).2
    simp only [keepsBlock, Bool.not_eq_true', Bool.and_eq_false_iff, beq_eq_false_iff_ne,
      ne_eq] at this
    tauto

theorem graphTopShared_eq :
    getDependencyInfo definitionFile 2 projTopShared = some (graphTopShared, none) := by
  decide

/-- C11: a node that has exactly one top reference, which matches the removal
target, is fully deleted when the remover handles it: whatever the project is
at that moment, as long as the record file and the project definition can be
read, the step ends without error, the record file is removed from the store,
the declarations of the service are removed from the project's
required-services list and the configuration blocks keyed to it are stripped;
nothing else changes. -/
theorem remove_deletes_single_reference_node (target : ServiceSpec) (dep : ServiceDependency)
    (t : ServiceSpec) (proj : Project) (found : Bool) (r svc : ServiceFile)
    (htops : dep.TopSvcRefs = [t]) (hm : t.Matches target = true)
    (hr : proj.readDependency dep.FileInfo.Name = .ok r) (hdef : proj.definition = .ok svc) :
    ∃ proj1,
      removeTopRefsLoop RemoveServiceDependency RemoveConfiguredVariables target dep
        dep.TopSvcRefs proj found = (proj1, true, none) ∧
      FullyDeleted dep.FileInfo.Name r proj proj1 := by
  obtain ⟨entries, hdeps, _⟩ := readDependency_ok proj _ r hr
  exact ⟨_, removeTopRefsLoop_single target dep t proj found r svc entries htops hm hr hdef hdeps,
    fullyDeleted_of_eq dep.FileInfo.Name r svc entries proj hdef hdeps⟩

/-- Witness of C11: in the project that requires `a` and `b`, the node of `a`
has the single top reference `a`; removing `a` deletes it. -/
theorem remove_deletes_single_reference_node_witness :
    ∃ proj1,
      removeTopRefsLoop RemoveServiceDependency RemoveConfiguredVariables recA.spec nodeA
        nodeA.TopSvcRefs projShared false = (proj1, true, none) ∧
      FullyDeleted nodeA.FileInfo.Name recA projShared proj1 :=
  remove_deletes_single_reference_node recA.spec nodeA reqA.spec projShared false recA defShared
    rfl (by decide) (by rfl) rfl

/-- C12: a node with more than one top reference, one of which matches the
removal target, and whose own `Service` matches the target, is only removed
from the project's required-services declarations when the remover handles it:
the step ends without error, the store (and so the record file) and the user
inputs are unchanged, and the project definition lost the declarations of the
service. -/
theorem remove_undeclares_shared_top_level_node
    (RCV : Project → Option ServiceFile → Project × Option String)
    (target : ServiceSpec) (dep : ServiceDependency) (proj : Project) (found : Bool)
    (r svc : ServiceFile)
    (hlen : 1 < dep.TopSvcRefs.length)
    (hex : ∃ t ∈ dep.TopSvcRefs, t.Matches target = true)
    (hsvc : dep.Service.Matches target = true)
    (hr : proj.readDependency dep.FileInfo.Name = .ok r) (hdef : proj.definition = .ok svc) :
    ∃ proj1,
      removeTopRefsLoop RemoveServiceDependency RCV target dep dep.TopSvcRefs proj found =
        (proj1, true, none) ∧
      proj1.dependencies = proj.dependencies ∧
      proj1.readDependency dep.FileInfo.Name = .ok r ∧
      proj1.userInputs = proj.userInputs ∧
      proj1.definition = .ok (svc.withoutDeclarationsOf r) := by
  have hany : dep.TopSvcRefs.any (fun t => t.Matches target) = true := by
    simpa using hex
  refine ⟨Project.mk (.ok (svc.withoutDeclarationsOf r)) proj.dependencies proj.userInputs,
    ?_, rfl, hr, rfl, rfl⟩
  rw [removeTopRefsLoop_shared_top RCV target dep r hlen hsvc dep.TopSvcRefs proj found svc
    hr hdef]
  simp only [hany, if_true, Bool.or_true]

/-- Witness of C12: in the project that requires `a` and `b`, where `b`
requires `a`, the node of `a` has the top references `a` and `b`; removing `a`
only drops its declaration. -/
theorem remove_undeclares_shared_top_level_node_witness :
    ∃ proj1,
      removeTopRefsLoop RemoveServiceDependency RemoveConfiguredVariables recALeaf.spec nodeATop
        nodeATop.TopSvcRefs projTopShared false = (proj1, true, none) ∧
      proj1.dependencies = projTopShared.dependencies ∧
      proj1.readDependency nodeATop.FileInfo.Name = .ok recALeaf ∧
      proj1.userInputs = projTopShared.userInputs ∧
      proj1.definition = .ok (defShared.withoutDeclarationsOf recALeaf) :=
  remove_undeclares_shared_top_level_node RemoveConfiguredVariables recALeaf.spec nodeATop
    projTopShared false recALeaf defShared (by decide) (by decide) (by decide) (by rfl) rfl

/-- C13: a node with more than one top reference, one of which matches the
removal target, and whose own `Service` does not match the target, is left
untouched when the remover handles it: the project (record file,
required-services list, user inputs) is unchanged, no fatal error is raised
and `found` is set, so the run does not end with 'dependency not found'
either. -/
theorem remove_keeps_shared_transitive_node
    (RSD RCV : Project → Option ServiceFile → Project × Option String)
    (target : ServiceSpec) (dep : ServiceDependency) (proj : Project) (found : Bool)
    (hlen : 1 < dep.TopSvcRefs.length)
    (hex : ∃ t ∈ dep.TopSvcRefs, t.Matches target = true)
    (hsvc : dep.Service.Matches target = false) :
    removeTopRefsLoop RSD RCV target dep dep.TopSvcRefs proj found = (proj, true, none) := by
  have hany : dep.TopSvcRefs.any (fun t => t.Matches target) = true := by
    simpa using hex
  rw [removeTopRefsLoop_shared_other RSD RCV target dep hlen hsvc dep.TopSvcRefs proj found,
    hany, Bool.or_true]

/-- Witness of C13: in the project that requires `a` and `b`, which both
require `c`, the node of `c` is left untouched when `a` is removed. -/
theorem remove_keeps_shared_transitive_node_witness :
    removeTopRefsLoop RemoveServiceDependency RemoveConfiguredVariables recA.spec nodeC
      nodeC.TopSvcRefs projShared false = (projShared, true, none) :=
  remove_keeps_shared_transitive_node RemoveServiceDependency RemoveConfiguredVariables
    recA.spec nodeC projShared false (by decide) (by decide) (by decide)

/-! ## The shared-dependency scenario -/

theorem declaration_spec (r : ServiceFile) : r.declaration.spec = r.spec := rfl

theorem getDependencyInfo_of_loop (sfx : String) (fuel : Nat) (proj : Project)
    (pdef : ServiceFile) (depFiles : List FileInfo) (deps : List ServiceDependency)
    (hdef : proj.definition = .ok pdef) (hfiles : GetDependencyFiles proj sfx = .ok depFiles)
    (hloop : topServicesLoop proj.readDependency fuel depFiles pdef.RequiredServices [] =
      some deps) :
    getDependencyInfo sfx fuel proj = some (deps, none) := by
  simp only [getDependencyInfo, hdef, hfiles, hloop]

theorem removeDependencyAndChildren_returned (sfx : String)
    (RSD RCV : Project → Option ServiceFile → Project × Option String)
    (fuel : Nat) (proj proj1 : Project) (specRef org version arch : String)
    (deps : List ServiceDependency)
    (hinfo : getDependencyInfo sfx fuel proj = some (deps, none))
    (hloop : removeDepsLoop RSD RCV (NewServiceSpec specRef org version arch) deps proj false =
      (proj1, true, none)) :
    removeDependencyAndChildren sfx RSD RCV fuel proj specRef org version arch =
      some (proj1, RemoveResult.returned) := by
  simp only [removeDependencyAndChildren, hinfo, hloop]
  rfl

theorem topServicesLoop_shared (read : String → Except String ServiceFile) (n : Nat)
    (A B C : ServiceFile) (fA fB fC : FileInfo)
    (hA : A.RequiredServices = [C.declaration]) (hB : B.RequiredServices = [C.declaration])
    (hC : C.RequiredServices = [])
    (hAB : A.spec.Matches B.spec = false) (hAC : A.spec.Matches C.spec = false)
    (hBC : B.spec.Matches C.spec = false)
    (rA : read fA.Name = .ok A) (rB : read fB.Name = .ok B) (rC : read fC.Name = .ok C) :
    topServicesLoop read (n + 2) [fA, fB, fC] [A.declaration, B.declaration] [] =
      some [{ Service := A.spec, TopSvcRefs := [A.spec], FileInfo := fA },
            { Service := C.spec, TopSvcRefs := [A.spec, B.spec], FileInfo := fC },
            { Service := B.spec, TopSvcRefs := [B.spec], FileInfo := fB }] := by
  have hBA : B.spec.Matches A.spec = false := by rw [ServiceSpec.matches_comm]; exact hAB
  have hCA : C.spec.Matches A.spec = false := by rw [ServiceSpec.matches_comm]; exact hAC
  have hCB : C.spec.Matches B.spec = false := by rw [ServiceSpec.matches_comm]; exact hBC
  simp [topServicesLoop, getDependencyDependencyInfo, depFilesLoop,
    requiredServicesLoop, declaration_spec, rA, rB, rC, hA, hB, hC, hAB, hAC, hBC, hBA, hCA, hCB,
    ServiceSpec.matches_self, NewServiceDependency, addTopRefAt, ServiceDependency.AddTopRef_eq]

theorem topServicesLoop_chain (read : String → Except String ServiceFile) (n : Nat)
    (B C : ServiceFile) (fB fC : FileInfo)
    (hB : B.RequiredServices = [C.declaration]) (hC : C.RequiredServices = [])
    (hBC : B.spec.Matches C.spec = false)
    (rB : read fB.Name = .ok B) (rC : read fC.Name = .ok C) :
    topServicesLoop read (n + 2) [fB, fC] [B.declaration] [] =
      some [{ Service := B.spec, TopSvcRefs := [B.spec], FileInfo := fB },
            { Service := C.spec, TopSvcRefs := [B.spec], FileInfo := fC }] := by
  have hCB : C.spec.Matches B.spec = false := by rw [ServiceSpec.matches_comm]; exact hBC
  simp [topServicesLoop, getDependencyDependencyInfo, depFilesLoop,
    requiredServicesLoop, declaration_spec, rB, rC, hB, hC, hBC, hCB,
    ServiceSpec.matches_self, NewServiceDependency]

/-- C14: the shared-dependency scenario.  The project requires `A` and `B`,
two different services; the stored records of `A` and `B` both require `C`,
and the store holds exactly the three records, whose specs do not match each
other.  Removing `A` returns and leaves the store with the records of `B` and
`C`; in the graph rebuilt afterwards `C` has the single top reference `B`;
removing `B` then returns and leaves the store empty. -/
theorem shared_dependency_scenario (sfx : String) (n : Nat) (proj : Project)
    (pdef A B C : ServiceFile) (fA fB fC : FileInfo)
    (hdef : proj.definition = .ok pdef)
    (hreq : pdef.RequiredServices = [A.declaration, B.declaration])
    (hstore : proj.dependencies = .ok [⟨fA, .ok A⟩, ⟨fB, .ok B⟩, ⟨fC, .ok C⟩])
    (hA : A.RequiredServices = [C.declaration]) (hB : B.RequiredServices = [C.declaration])
    (hC : C.RequiredServices = [])
    (hAB : A.spec.Matches B.spec = false) (hAC : A.spec.Matches C.spec = false)
    (hBC : B.spec.Matches C.spec = false)
    (hsvc : ¬ (B.URL = A.URL ∧ B.Org = A.Org))
    (nAB : fA.Name ≠ fB.Name) (nAC : fA.Name ≠ fC.Name) (nBC : fB.Name ≠ fC.Name)
    (sA : sfx.data.isSuffixOf fA.Name.data = true) (sB : sfx.data.isSuffixOf fB.Name.data = true)
    (sC : sfx.data.isSuffixOf fC.Name.data = true)
    (dA : fA.IsDir = false) (dB : fB.IsDir = false) (dC : fC.IsDir = false) :
    ∃ proj1 proj2,
      removeDependencyAndChildren sfx RemoveServiceDependency RemoveConfiguredVariables (n + 2)
        proj A.URL A.Org A.Version A.Arch = some (proj1, RemoveResult.returned) ∧
      proj1.dependencies = .ok [⟨fB, .ok B⟩, ⟨fC, .ok C⟩] ∧
      getDependencyInfo sfx (n + 2) proj1 =
        some ([{ Service := B.spec, TopSvcRefs := [B.spec], FileInfo := fB },
               { Service := C.spec, TopSvcRefs := [B.spec], FileInfo := fC }], none) ∧
      removeDependencyAndChildren sfx RemoveServiceDependency RemoveConfiguredVariables (n + 2)
        proj1 B.URL B.Org B.Version B.Arch = some (proj2, RemoveResult.returned) ∧
      proj2.dependencies = .ok [] := by
  have hBA : B.spec.Matches A.spec = false := by rw [ServiceSpec.matches_comm]; exact hAB
  have hCA : C.spec.Matches A.spec = false := by rw [ServiceSpec.matches_comm]; exact hAC
  have hCB : C.spec.Matches B.spec = false := by rw [ServiceSpec.matches_comm]; exact hBC
  -- the project before the first removal
  have rA : proj.readDependency fA.Name = .ok A := by
    simp [Project.readDependency, hstore]
  have rB : proj.readDependency fB.Name = .ok B := by
    simp [Project.readDependency, hstore, List.find?_cons, nAB]
  have rC : proj.readDependency fC.Name = .ok C := by
    simp [Project.readDependency, hstore, List.find?_cons, nAC, nBC]
  have hfiles : GetDependencyFiles proj sfx = .ok [fA, fB, fC] := by
    simp [GetDependencyFiles, hstore, sA, sB, sC, dA, dB, dC]
  have hgraph := getDependencyInfo_of_loop sfx (n + 2) proj pdef [fA, fB, fC] _ hdef hfiles
    (hreq ▸ topServicesLoop_shared proj.readDependency n A B C fA fB fC hA hB hC hAB hAC hBC
      rA rB rC)
  -- the project after the first removal
  have hfilter1 : List.filter (fun e : DirEntry => !(e.info.Name == fA.Name))
      [⟨fA, .ok A⟩, ⟨fB, .ok B⟩, ⟨fC, .ok C⟩] = [⟨fB, .ok B⟩, ⟨fC, .ok C⟩] := by
    simp [List.filter_cons, nAB.symm, nAC.symm]
  have hreq1 : (pdef.withoutDeclarationsOf A).RequiredServices = [B.declaration] := by
    simp [ServiceFile.withoutDeclarationsOf, hreq, List.filter_cons, keepsDeclaration,
      ServiceFile.declaration, hsvc]
  have e1 : removeTopRefsLoop RemoveServiceDependency RemoveConfiguredVariables A.spec
      { Service := A.spec, TopSvcRefs := [A.spec], FileInfo := fA } [A.spec] proj false =
      (Project.mk (.ok (pdef.withoutDeclarationsOf A)) (.ok [⟨fB, .ok B⟩, ⟨fC, .ok C⟩])
        (proj.userInputs.filter (keepsBlock A)), true, none) := by
    have h := removeTopRefsLoop_single A.spec
      { Service := A.spec, TopSvcRefs := [A.spec], FileInfo := fA } A.spec proj false A pdef _
      rfl (ServiceSpec.matches_self _) rA hdef hstore
    rw [hfilter1] at h
    exact h
  have e2 : ∀ p : Project, removeTopRefsLoop RemoveServiceDependency RemoveConfiguredVariables
      A.spec { Service := C.spec, TopSvcRefs := [A.spec, B.spec], FileInfo := fC }
      [A.spec, B.spec] p true = (p, true, none) := by
    intro p
    have h := removeTopRefsLoop_shared_other RemoveServiceDependency RemoveConfiguredVariables
      A.spec { Service := C.spec, TopSvcRefs := [A.spec, B.spec], FileInfo := fC }
      (by simp) hCA [A.spec, B.spec] p true
    simpa using h
  have e3 : ∀ p : Project, removeTopRefsLoop RemoveServiceDependency RemoveConfiguredVariables
      A.spec { Service := B.spec, TopSvcRefs := [B.spec], FileInfo := fB }
      [B.spec] p true = (p, true, none) := by
    intro p
    exact removeTopRefsLoop_no_match _ _ A.spec _ [B.spec] p true (by simp [hBA])
  have hrm1 := removeDependencyAndChildren_returned sfx RemoveServiceDependency
    RemoveConfiguredVariables (n + 2) proj
    (Project.mk (.ok (pdef.withoutDeclarationsOf A)) (.ok [⟨fB, .ok B⟩, ⟨fC, .ok C⟩])
      (proj.userInputs.filter (keepsBlock A)))
    A.URL A.Org A.Version A.Arch _ hgraph
    (by
      show removeDepsLoop _ _ A.spec _ _ _ = _
      simp only [removeDepsLoop, e1, e2, e3])
  -- the graph rebuilt after the first removal
  have hgraph1 : getDependencyInfo sfx (n + 2)
      (Project.mk (.ok (pdef.withoutDeclarationsOf A)) (.ok [⟨fB, .ok B⟩, ⟨fC, .ok C⟩])
        (proj.userInputs.filter (keepsBlock A))) =
      some ([{ Service := B.spec, TopSvcRefs := [B.spec], FileInfo := fB },
             { Service := C.spec, TopSvcRefs := [B.spec], FileInfo := fC }], none) := by
    refine getDependencyInfo_of_loop sfx (n + 2) _ (pdef.withoutDeclarationsOf A) [fB, fC] _ rfl
      (by simp [GetDependencyFiles, sB, sC, dB, dC]) ?_
    rw [hreq1]
    exact topServicesLoop_chain _ n B C fB fC hB hC hBC
      (by simp [Project.readDependency])
      (by simp [Project.readDependency, List.find?_cons, nBC])
  -- the second removal
  have e4 : removeTopRefsLoop RemoveServiceDependency RemoveConfiguredVariables B.spec
      { Service := B.spec, TopSvcRefs := [B.spec], FileInfo := fB } [B.spec]
      (Project.mk (.ok (pdef.withoutDeclarationsOf A)) (.ok [⟨fB, .ok B⟩, ⟨fC, .ok C⟩])
        (proj.userInputs.filter (keepsBlock A))) false =
      (Project.mk (.ok ((pdef.withoutDeclarationsOf A).withoutDeclarationsOf B))
        (.ok [⟨fC, .ok C⟩])
        ((proj.userInputs.filter (keepsBlock A)).filter (keepsBlock B)), true, none) := by
    have h := removeTopRefsLoop_single B.spec
      { Service := B.spec, TopSvcRefs := [B.spec], FileInfo := fB } B.spec
      (Project.mk (.ok (pdef.withoutDeclarationsOf A)) (.ok [⟨fB, .ok B⟩, ⟨fC, .ok C⟩])
        (proj.userInputs.filter (keepsBlock A))) false B _ _
      rfl (ServiceSpec.matches_self _) (by simp [Project.readDependency]) rfl rfl
    have hf : List.filter (fun e : DirEntry => !(e.info.Name == fB.Name))
        [⟨fB, .ok B⟩, ⟨fC, .ok C⟩] = [⟨fC, .ok C⟩] := by
      simp [List.filter_cons, nBC.symm]
    rw [hf] at h
    exact h
  have e5 : removeTopRefsLoop RemoveServiceDependency RemoveConfiguredVariables B.spec
      { Service := C.spec, TopSvcRefs := [B.spec], FileInfo := fC } [B.spec]
      (Project.mk (.ok ((pdef.withoutDeclarationsOf A).withoutDeclarationsOf B))
        (.ok [⟨fC, .ok C⟩])
        ((proj.userInputs.filter (keepsBlock A)).filter (keepsBlock B))) true =
      (Project.mk
        (.ok (((pdef.withoutDeclarationsOf A).withoutDeclarationsOf B).withoutDeclarationsOf C))
        (.ok [])
        (((proj.userInputs.filter (keepsBlock A)).filter (keepsBlock B)).filter (keepsBlock C)),
        true, none) := by
    have h := removeTopRefsLoop_single B.spec
      { Service := C.spec, TopSvcRefs := [B.spec], FileInfo := fC } B.spec
      (Project.mk (.ok ((pdef.withoutDeclarationsOf A).withoutDeclarationsOf B))
        (.ok [⟨fC, .ok C⟩])
        ((proj.userInputs.filter (keepsBlock A)).filter (keepsBlock B))) true C _ _
      rfl (ServiceSpec.matches_self _) (by simp [Project.readDependency]) rfl rfl
    have hf : List.filter (fun e : DirEntry => !(e.info.Name == fC.Name))
        [⟨fC, .ok C⟩] = [] := by
      simp [List.filter_cons]
    rw [hf] at h
    exact h
  have hrm2 := removeDependencyAndChildren_returned sfx RemoveServiceDependency
    RemoveConfiguredVariables (n + 2) _
    (Project.mk
      (.ok (((pdef.withoutDeclarationsOf A).withoutDeclarationsOf B).withoutDeclarationsOf C))
      (.ok [])
      (((proj.userInputs.filter (keepsBlock A)).filter (keepsBlock B)).filter (keepsBlock C)))
    B.URL B.Org B.Version B.Arch _ hgraph1
    (by
      show removeDepsLoop _ _ B.spec _ _ _ = _
      simp only [removeDepsLoop, e4, e5])
  exact ⟨_, _, hrm1, rfl, hgraph1, hrm2, rfl⟩
/-- Witness of C14 on the project that requires `a` and `b`, which both
require `c`. -/
theorem shared_dependency_scenario_witness :
    ∃ proj1 proj2,
      removeDependencyAndChildren definitionFile RemoveServiceDependency
        RemoveConfiguredVariables (0 + 2) projShared recA.URL recA.Org recA.Version recA.Arch =
          some (proj1, RemoveResult.returned) ∧
      proj1.dependencies = .ok [⟨fileB, .ok recB⟩, ⟨fileC, .ok recC⟩] ∧
      getDependencyInfo definitionFile (0 + 2) proj1 =
        some ([{ Service := recB.spec, TopSvcRefs := [recB.spec], FileInfo := fileB },
               { Service := recC.spec, TopSvcRefs := [recB.spec], FileInfo := fileC }], none) ∧
      removeDependencyAndChildren definitionFile RemoveServiceDependency
        RemoveConfiguredVariables (0 + 2) proj1 recB.URL recB.Org recB.Version recB.Arch =
          some (proj2, RemoveResult.returned) ∧
      proj2.dependencies = .ok [] :=
  shared_dependency_scenario definitionFile 0 projShared defShared recA recB recC
    fileA fileB fileC rfl (by decide) rfl (by decide) (by decide) (by decide)
    (by decide) (by decide) (by decide) (by decide) (by decide) (by decide) (by decide)
    (by decide) (by decide) (by decide) rfl rfl rfl

/-! ## The validator -/

theorem findConfiguredVariable_iff (d : ServiceFile) (name : String) (cfg : List MicroWork) :
    findConfiguredVariable d name cfg = true ↔
      ∃ msUI ∈ cfg, (d.URL = msUI.Url ∧ (d.Org = "" ∨ msUI.Org = "" ∨ d.Org = msUI.Org)) ∧
        ∃ kv ∈ msUI.Variables, kv.1 = name := by
  induction cfg with
  | nil => simp [findConfiguredVariable]
  | cons msUI rest ih =>
    simp only [findConfiguredVariable, List.mem_cons, exists_eq_or_imp]
    by_cases happ : d.URL = msUI.Url ∧ (d.Org = "" ∨ msUI.Org = "" ∨ d.Org = msUI.Org)
    · have hb : (d.URL == msUI.Url && (d.Org == "" || msUI.Org == "" || d.Org == msUI.Org)) =
          true := by
        simp only [Bool.and_eq_true, Bool.or_eq_true, beq_iff_eq]
        tauto
      rw [if_pos hb]
      by_cases hv : msUI.hasVariable name = true
      · rw [if_pos hv]
        have : ∃ kv ∈ msUI.Variables, kv.1 = name := by
          simpa [MicroWork.hasVariable] using hv
        simp [happ, this]
      · rw [if_neg hv, ih]
        have : ¬ ∃ kv ∈ msUI.Variables, kv.1 = name := by
          simpa [MicroWork.hasVariable] using hv
        simp [this]
    · have hb : ¬ (d.URL == msUI.Url && (d.Org == "" || msUI.Org == "" || d.Org == msUI.Org)) =
          true := by
        simp only [Bool.and_eq_true, Bool.or_eq_true, beq_iff_eq]
        tauto
      rw [if_neg hb, ih]
      simp [happ]

theorem validateDependencyUserInputs_cons (d : ServiceFile) (ui : UserInput)
    (rest : List UserInput) (cfg : List MicroWork) (path : String) :
    validateDependencyUserInputs d (ui :: rest) cfg path =
      if ui.DefaultValue = "" ∧ findConfiguredVariable d ui.Name cfg = false then
        some ("variable " ++ ui.Name ++ " has no default and must be specified in " ++ path)
      else validateDependencyUserInputs d rest cfg path := by
  simp only [validateDependencyUserInputs]
  by_cases h1 : ui.DefaultValue = "" <;> cases h2 : findConfiguredVariable d ui.Name cfg <;>
    simp [h1, h2]

theorem missingVariable_iff (d : ServiceFile) (cfg : List MicroWork) (ui : UserInput) :
    MissingVariable d cfg ui ↔
      ui.DefaultValue = "" ∧ findConfiguredVariable d ui.Name cfg = false := by
  unfold MissingVariable
  rw [← findConfiguredVariable_iff, Bool.not_eq_true]

theorem validateDependencyUserInputs_first (d : ServiceFile) (cfg : List MicroWork)
    (path : String) (before : List UserInput) (ui : UserInput) (after : List UserInput)
    (hbefore : ∀ u ∈ before, ¬ MissingVariable d cfg u) (hui : MissingVariable d cfg ui) :
    validateDependencyUserInputs d (before ++ ui :: after) cfg path =
      some ("variable " ++ ui.Name ++ " has no default and must be specified in " ++ path) := by
  induction before with
  | nil =>
    rw [List.nil_append, validateDependencyUserInputs_cons, if_pos ((missingVariable_iff _ _ _).1 hui)]
  | cons u rest ih =>
    rw [List.cons_append, validateDependencyUserInputs_cons,
      if_neg (fun h => hbefore u (List.mem_cons_self _ _) ((missingVariable_iff _ _ _).2 h))]
    exact ih (fun u1 h1 => hbefore u1 (List.mem_cons_of_mem _ h1))

theorem validateDependencyUserInputs_none (d : ServiceFile) (cfg : List MicroWork)
    (path : String) (uis : List UserInput) (h : ∀ u ∈ uis, ¬ MissingVariable d cfg u) :
    validateDependencyUserInputs d uis cfg path = none := by
  induction uis with
  | nil => rfl
  | cons u rest ih =>
    rw [validateDependencyUserInputs_cons,
      if_neg (fun h1 => h u (List.mem_cons_self _ _) ((missingVariable_iff _ _ _).2 h1))]
    exact ih (fun u1 h1 => h u1 (List.mem_cons_of_mem _ h1))

theorem exists_first_missing (d : ServiceFile) (cfg : List MicroWork) (uis : List UserInput)
    (h : ∃ ui ∈ uis, MissingVariable d cfg ui) :
    ∃ before ui after, uis = before ++ ui :: after ∧
      (∀ u ∈ before, ¬ MissingVariable d cfg u) ∧ MissingVariable d cfg ui := by
  induction uis with
  | nil => simp at h
  | cons u rest ih =>
    by_cases hu : MissingVariable d cfg u
    · exact ⟨[], u, rest, rfl, by simp, hu⟩
    · obtain ⟨ui, hmem, hmiss⟩ := h
      rcases List.mem_cons.1 hmem with h1 | h1
      · exact absurd (h1 ▸ hmiss) hu
      · obtain ⟨before, ui1, after, heq, hb, hm⟩ := ih ⟨ui, h1, hmiss⟩
        refine ⟨u :: before, ui1, after, by rw [heq]; rfl, ?_, hm⟩
        intro u1 hu1
        rcases List.mem_cons.1 hu1 with h2 | h2
        · exact h2 ▸ hu
        · exact hb u1 h2

/-- C16: `validateDependencyUserInputs` returns an error exactly when some
declared user input with an empty default value is not a key of the variables
of any configuration block whose Url is the dependency's URL and whose Org is
compatible with the dependency's org; the error names the first such variable
in declaration order and the user input file path; variables that have a
default never cause a failure. -/
theorem validateDependencyUserInputs_error_iff (d : ServiceFile) (uis : List UserInput)
    (cfg : List MicroWork) (path : String) :
    ((∃ err, validateDependencyUserInputs d uis cfg path = some err) ↔
      ∃ ui ∈ uis, MissingVariable d cfg ui) ∧
    (∀ before ui after, uis = before ++ ui :: after →
      (∀ u ∈ before, ¬ MissingVariable d cfg u) → MissingVariable d cfg ui →
      validateDependencyUserInputs d uis cfg path =
        some ("variable " ++ ui.Name ++ " has no default and must be specified in " ++ path)) ∧
    ((∀ ui ∈ uis, ui.DefaultValue ≠ "") → validateDependencyUserInputs d uis cfg path = none) := by
  refine ⟨⟨?_, ?_⟩, ?_, ?_⟩
  · rintro ⟨err, herr⟩
    by_contra hno
    rw [validateDependencyUserInputs_none d cfg path uis
      (fun u hu hm => hno ⟨u, hu, hm⟩)] at herr
    simp at herr
  · intro h
    obtain ⟨before, ui, after, heq, hb, hm⟩ := exists_first_missing d cfg uis h
    exact ⟨_, heq ▸ validateDependencyUserInputs_first d cfg path before ui after hb hm⟩
  · intro before ui after heq hb hm
    rw [heq]
    exact validateDependencyUserInputs_first d cfg path before ui after hb hm
  · intro h
    exact validateDependencyUserInputs_none d cfg path uis (fun u hu hm => h u hu hm.1)
/-- Witness of C16: the dependency `a` declares `port` without default and
nothing is configured, so the validation fails naming `port`. -/
theorem validateDependencyUserInputs_error_iff_witness :
    validateDependencyUserInputs recPortA [inputPort] [] "userinput.json" =
      some ("variable " ++ inputPort.Name ++ " has no default and must be specified in " ++
        "userinput.json") :=
  (validateDependencyUserInputs_error_iff recPortA [inputPort] [] "userinput.json").2.1
    [] inputPort [] rfl (by simp) ⟨rfl, by simp⟩

theorem validateDependencyFiles_first
    (VSD : Project → String → Option String) (proj : Project) (userInputs : List MicroWork)
    (path : String) (before : List FileInfo) (f : FileInfo) (after : List FileInfo) (e : String)
    (hbefore : ∀ g ∈ before,
      VSD proj g.Name = none ∧ ValidateService proj g userInputs path = none)
    (hf : VSD proj f.Name = some e ∨
      (VSD proj f.Name = none ∧ ValidateService proj f userInputs path = some e)) :
    validateDependencyFiles VSD proj userInputs path (before ++ f :: after) =
      some ("dependency " ++ f.Name ++ " did not validate, error: " ++ e) := by
  induction before with
  | nil =>
    rcases hf with h | ⟨h1, h2⟩
    · simp only [List.nil_append, validateDependencyFiles, h]
    · simp only [List.nil_append, validateDependencyFiles, h1, h2]
  | cons g rest ih =>
    obtain ⟨h1, h2⟩ := hbefore g (List.mem_cons_self _ _)
    simp only [List.cons_append, validateDependencyFiles, h1, h2]
    exact ih (fun g1 hg1 => hbefore g1 (List.mem_cons_of_mem _ hg1))

/-- C17 (amended): when the presence check passes without fetching,
`ValidateDependencies` stops at the first stored dependency record, in the order
of the directory listing, that fails validation and returns an error that names
that dependency only; the records listed after it are not looked at. -/
theorem validation_stops_at_first_failure (sfx : String) (vc : VersionCollaborator)
    (DependencyFetch : Project → RequiredService → Except String Project)
    (GetUserInputs : Project → Except String (List MicroWork))
    (VSD : Project → String → Option String)
    (proj : Project) (d : ServiceFile) (userInputs : List MicroWork) (path : String)
    (before : List FileInfo) (f : FileInfo) (after : List FileInfo) (e : String)
    (hdef : proj.definition = .ok d)
    (hfiles : GetDependencyFiles proj sfx = .ok (before ++ f :: after))
    (hpres : presenceCheck vc DependencyFetch (before ++ f :: after) false d.RequiredServices
      proj false = .ok (proj, false))
    (hbefore : ∀ g ∈ before,
      VSD proj g.Name = none ∧ ValidateService proj g userInputs path = none)
    (hf : VSD proj f.Name = some e ∨
      (VSD proj f.Name = none ∧ ValidateService proj f userInputs path = some e)) :
    ValidateDependencies sfx vc DependencyFetch GetUserInputs VSD proj userInputs path true false =
      (proj, some ("dependency " ++ f.Name ++ " did not validate, error: " ++ e)) := by
  simp only [ValidateDependencies, if_true, hdef, hfiles, hpres, Bool.false_eq_true, if_false,
    validateDependencyFiles_first VSD proj userInputs path before f after e hbefore hf]

theorem validation_twoBad :
    ValidateDependencies definitionFile exampleRanges (fun p _ => .ok p)
      (fun p => .ok p.userInputs) (fun _ _ => none) projTwoBad [] "userinput.json" true false =
      (projTwoBad, some errorTwoBad) := by
  rfl

set_option maxRecDepth 100000 in
theorem errorTwoBad_omits_second : ¬ (fileB15.Name.data <:+: errorTwoBad.data) := by
  decide

/-- C17 (counterexample): the records of `a` and `b` each miss the
non-defaulted variable `port`, so both fail validation on their own, yet
`ValidateDependencies` returns the error of `a` only: the file name of `b` does
not occur in it. -/
theorem aggregate_errors_counterexample :
    ValidateService projTwoBad fileA15 [] "userinput.json" ≠ none ∧
    ValidateService projTwoBad fileB15 [] "userinput.json" ≠ none ∧
    ValidateDependencies definitionFile exampleRanges (fun p _ => .ok p)
      (fun p => .ok p.userInputs) (fun _ _ => none) projTwoBad [] "userinput.json" true false =
      (projTwoBad, some errorTwoBad) ∧
    ¬ (fileB15.Name.data <:+: errorTwoBad.data) :=
  ⟨by decide, by decide, validation_twoBad, errorTwoBad_omits_second⟩

/-- C15 (the code at the failing input): the project requires `u` in the
range `[1.0.0,2.0.0)` and the store holds no record of `u`, only the record of
the other service `v` at version 1.5.0.  For every version collaborator that
puts 1.5.0 in that range, the presence check passes and `ValidateDependencies`
returns no error: the check looks at the version of each record and never at
its URL or organization. -/
theorem presence_check_accepts_other_service (vc : VersionCollaborator) (R : vc.Range)
    (DependencyFetch : Project → RequiredService → Except String Project)
    (GetUserInputs : Project → Except String (List MicroWork))
    (hR : vc.Version_Expression_Factory "[1.0.0,2.0.0)" = .ok R)
    (hin : vc.Is_within_range R "1.5.0" = .ok true) :
    (∀ name r, projWrongService.readDependency name = .ok r →
      ¬ (r.URL = reqURange.URL ∧ r.Org = reqURange.Org)) ∧
    presenceCheck vc DependencyFetch [fileV15] false [reqURange] projWrongService false =
      .ok (projWrongService, false) ∧
    ValidateDependencies definitionFile vc DependencyFetch GetUserInputs (fun _ _ => none)
      projWrongService [] "userinput.json" true false = (projWrongService, none) := by
  have hread : projWrongService.readDependency fileV15.Name = .ok recV15 := by rfl
  have hpres : presenceCheck vc DependencyFetch [fileV15] false [reqURange] projWrongService
      false = .ok (projWrongService, false) := by
    have hv : reqURange.Version = "[1.0.0,2.0.0)" := rfl
    have hv2 : recV15.Version = "1.5.0" := rfl
    simp only [presenceCheck, findDependencyInRange, hread, hv, hR, hv2, hin, if_true,
      Bool.not_true, Bool.false_eq_true, if_false]
  refine ⟨?_, hpres, ?_⟩
  · intro name r h
    obtain ⟨entries, hdeps, e, he, _, hc⟩ := readDependency_ok _ _ _ h
    have hent : entries = [{ info := fileV15, content := .ok recV15 }] := by
      have : projWrongService.dependencies =
          .ok [{ info := fileV15, content := .ok recV15 }] := rfl
      rw [this] at hdeps
      exact (Except.ok.inj hdeps).symm
    rw [hent, List.mem_singleton] at he
    rw [he] at hc
    have hr : r = recV15 := (Except.ok.inj hc).symm
    rw [hr]
    decide
  · have hfiles : GetDependencyFiles projWrongService definitionFile = .ok [fileV15] := by rfl
    have hdef : projWrongService.definition = .ok defWrongService := rfl
    have hreq : defWrongService.RequiredServices = [reqURange] := rfl
    have hvs : ValidateService projWrongService fileV15 [] "userinput.json" = none := by rfl
    simp only [ValidateDependencies, if_true, hdef, hfiles, hreq, hpres, Bool.false_eq_true,
      if_false, validateDependencyFiles, hvs]

/-- Witness of C15 with the version collaborator of the examples. -/
theorem presence_check_accepts_other_service_witness :
    (∀ name r, projWrongService.readDependency name = .ok r →
      ¬ (r.URL = reqURange.URL ∧ r.Org = reqURange.Org)) ∧
    presenceCheck exampleRanges (fun p _ => .ok p) [fileV15] false [reqURange] projWrongService
      false = .ok (projWrongService, false) ∧
    ValidateDependencies definitionFile exampleRanges (fun p _ => .ok p)
      (fun p => .ok p.userInputs) (fun _ _ => none)
      projWrongService [] "userinput.json" true false = (projWrongService, none) :=
  presence_check_accepts_other_service exampleRanges "[1.0.0,2.0.0)" (fun p _ => .ok p)
    (fun p => .ok p.userInputs) rfl rfl
/-- Witness of C17 (amended) on the project whose records `a` and `b` both
fail: the error is the one of `a`, listed first. -/
theorem validation_stops_at_first_failure_witness :
    ValidateDependencies definitionFile exampleRanges (fun p _ => .ok p)
      (fun p => .ok p.userInputs) (fun _ _ => none) projTwoBad [] "userinput.json" true false =
      (projTwoBad, some ("dependency " ++ fileA15.Name ++ " did not validate, error: " ++
        "variable port has no default and must be specified in userinput.json")) :=
  validation_stops_at_first_failure definitionFile exampleRanges (fun p _ => .ok p)
    (fun p => .ok p.userInputs) (fun _ _ => none) projTwoBad _ [] "userinput.json"
    [] fileA15 [fileB15] _ rfl (by rfl) (by rfl) (by simp) (Or.inr ⟨rfl, by rfl⟩)

/-! ## Names of the dependency files -/

theorem afterSeparator_eq_some (s after : List Char) :
    afterSeparator s = some after ↔ s = ':' :: '/' :: '/' :: after := by
  unfold afterSeparator
  split
  · simp
  · rename_i h
    constructor
    · intro h1; simp at h1
    · intro h1
      exact absurd h1 (h after)

theorem matchScheme_cons (c : Char) (rest : List Char) :
    matchScheme (c :: rest) =
      match afterSeparator (c :: rest) with
      | some after => some after
      | none => if isSchemeChar c then matchScheme rest else none := rfl

theorem matchScheme_append (before after : List Char)
    (h : ∀ c ∈ before, isSchemeChar c = true) :
    matchScheme (before ++ ':' :: '/' :: '/' :: after) = some after := by
  induction before with
  | nil => simp [matchScheme, afterSeparator]
  | cons c rest ih =>
    have hc : isSchemeChar c = true := h c (List.mem_cons_self _ _)
    have hne : afterSeparator (c :: (rest ++ ':' :: '/' :: '/' :: after)) = none := by
      cases hs : afterSeparator (c :: (rest ++ ':' :: '/' :: '/' :: after)) with
      | none => rfl
      | some x =>
        rw [afterSeparator_eq_some] at hs
        have : c = ':' := by
          have := List.cons.inj hs
          exact this.1
        rw [this] at hc
        exact absurd hc (by decide)
    rw [List.cons_append, matchScheme_cons, hne]
    simp only [hc, if_true]
    exact ih (fun c1 h1 => h c1 (List.mem_cons_of_mem _ h1))

theorem matchScheme_eq_some (s after : List Char) (h : matchScheme s = some after) :
    ∃ before, s = before ++ ':' :: '/' :: '/' :: after ∧
      ∀ c ∈ before, isSchemeChar c = true := by
  induction s with
  | nil => simp [matchScheme] at h
  | cons c rest ih =>
    rw [matchScheme_cons] at h
    split at h
    · rename_i x hx
      rw [afterSeparator_eq_some] at hx
      simp only [Option.some.injEq] at h
      subst h
      exact ⟨[], by simpa using hx, by simp⟩
    · split at h
      · rename_i hc
        obtain ⟨before, hb, hcl⟩ := ih h
        refine ⟨c :: before, by rw [hb]; rfl, ?_⟩
        intro c1 h1
        rcases List.mem_cons.1 h1 with h2 | h2
        · rw [h2]; exact hc
        · exact hcl c1 h2
      · simp at h
theorem isSchemeChar_iff (c : Char) :
    isSchemeChar c = true ↔
      ('A' ≤ c ∧ c ≤ 'Z') ∨ ('a' ≤ c ∧ c ≤ 'z') ∨ ('0' ≤ c ∧ c ≤ '9') ∨
        c = '+' ∨ c = '.' ∨ c = '-' := by
  simp only [isSchemeChar, Bool.or_eq_true, Bool.and_eq_true, decide_eq_true_eq, beq_iff_eq]
  tauto

theorem removeScheme_of_scheme (scheme rest : List Char)
    (h : ∀ c ∈ scheme, isSchemeChar c = true) :
    removeScheme (scheme ++ ':' :: '/' :: '/' :: rest) = rest := by
  simp only [removeScheme, matchScheme_append scheme rest h]

theorem removeScheme_of_no_scheme (s : List Char)
    (h : ¬ ∃ scheme rest, s = scheme ++ ':' :: '/' :: '/' :: rest ∧
      ∀ c ∈ scheme, isSchemeChar c = true) :
    removeScheme s = s := by
  unfold removeScheme
  split
  · rename_i after hm
    obtain ⟨before, hb, hcl⟩ := matchScheme_eq_some s after hm
    exact absurd ⟨before, after, hb, hcl⟩ h
  · rfl

/-- C20: for org, url, version and suffix without environment-variable
references (`ExpandEnv` leaves url and version as they are),
`createDependencyFileName` returns org, `_`, s, `_`, version, `.`, suffix, where
s is the url with a leading scheme removed (a run of characters of
`[A-Za-z0-9+.-]` followed by `://`; there is at most one such run, so it is the
shortest) and then every character of `$!*,;/?@&~=%` replaced by a hyphen, all
other characters kept in order; without a leading scheme only the replacement
is done. -/
theorem createDependencyFileName_spec (ExpandEnv : String → String)
    (org url version suffix : String)
    (hurl : ExpandEnv url = url) (hversion : ExpandEnv version = version) :
    (∀ scheme rest : List Char, url.data = scheme ++ "://".data ++ rest →
      (∀ c ∈ scheme, ('A' ≤ c ∧ c ≤ 'Z') ∨ ('a' ≤ c ∧ c ≤ 'z') ∨ ('0' ≤ c ∧ c ≤ '9') ∨
        c = '+' ∨ c = '.' ∨ c = '-') →
      createDependencyFileName ExpandEnv org url version suffix =
        org ++ "_" ++ String.mk (rest.map (fun c => if c ∈ "$!*,;/?@&~=%".data then '-' else c))
          ++ "_" ++ version ++ "." ++ suffix) ∧
    ((¬ ∃ scheme rest : List Char, url.data = scheme ++ "://".data ++ rest ∧
        ∀ c ∈ scheme, ('A' ≤ c ∧ c ≤ 'Z') ∨ ('a' ≤ c ∧ c ≤ 'z') ∨ ('0' ≤ c ∧ c ≤ '9') ∨
          c = '+' ∨ c = '.' ∨ c = '-') →
      createDependencyFileName ExpandEnv org url version suffix =
        org ++ "_" ++
          String.mk (url.data.map (fun c => if c ∈ "$!*,;/?@&~=%".data then '-' else c))
          ++ "_" ++ version ++ "." ++ suffix) := by
  have hsep : ∀ scheme rest : List Char,
      scheme ++ "://".data ++ rest = scheme ++ ':' :: '/' :: '/' :: rest := by
    intro scheme rest
    show scheme ++ [':', '/', '/'] ++ rest = _
    simp
  constructor
  · intro scheme rest hdata hclass
    have hcl : ∀ c ∈ scheme, isSchemeChar c = true :=
      fun c hc => (isSchemeChar_iff c).2 (hclass c hc)
    simp only [createDependencyFileName, hurl, hversion, hdata, hsep,
      removeScheme_of_scheme scheme rest hcl]
    rfl
  · intro hno
    have hno1 : ¬ ∃ scheme rest, url.data = scheme ++ ':' :: '/' :: '/' :: rest ∧
        ∀ c ∈ scheme, isSchemeChar c = true := by
      rintro ⟨scheme, rest, hd, hcl⟩
      exact hno ⟨scheme, rest, by rw [hsep]; exact hd,
        fun c hc => (isSchemeChar_iff c).1 (hcl c hc)⟩
    simp only [createDependencyFileName, hurl, hversion, removeScheme_of_no_scheme _ hno1]
    rfl

/-- Witness of C20: the scheme `https` is removed and the two slashes of the
path become hyphens. -/
theorem createDependencyFileName_spec_witness :
    createDependencyFileName id "IBM" "https://bluehorizon.network/services/gps" "2.0.3"
        definitionFile =
      "IBM" ++ "_" ++ String.mk ("bluehorizon.network/services/gps".data.map
          (fun c => if c ∈ "$!*,;/?@&~=%".data then '-' else c))
        ++ "_" ++ "2.0.3" ++ "." ++ definitionFile :=
  (createDependencyFileName_spec id "IBM" "https://bluehorizon.network/services/gps" "2.0.3"
    definitionFile rfl rfl).1 "https".data "bluehorizon.network/services/gps".data
    (by decide) (by decide)
/-! ## The fetcher -/

theorem highest_foldl (le : String → String → Bool)
    (htotal : ∀ a b, le a b = true ∨ le b a = true)
    (htrans : ∀ a b c, le a b = true → le b c = true → le a c = true)
    (l : List (String × ExchangeService)) (hne : ∀ c ∈ l, c.2.Version ≠ "")
    (b : String × ExchangeService) (hb : b.2.Version ≠ "") :
    ∃ c ∈ b :: l,
      l.foldl
        (fun (best : String × ExchangeService × String) (c : String × ExchangeService) =>
          if best.1 == "" || (le best.1 c.2.Version && !le c.2.Version best.1) then
            (c.2.Version, c.2, c.1)
          else best)
        (b.2.Version, b.2, b.1) = (c.2.Version, c.2, c.1) ∧
      ∀ x ∈ b :: l, le x.2.Version c.2.Version = true := by
  induction l generalizing b with
  | nil =>
    refine ⟨b, by simp, rfl, ?_⟩
    intro x hx
    rw [List.mem_singleton] at hx
    rw [hx]
    exact (htotal _ _).elim id id
  | cons c rest ih =>
    have hc : c.2.Version ≠ "" := hne c (List.mem_cons_self _ _)
    have hrest : ∀ x ∈ rest, x.2.Version ≠ "" := fun x hx => hne x (List.mem_cons_of_mem _ hx)
    rw [List.foldl_cons]
    by_cases hlt : (le b.2.Version c.2.Version && !le c.2.Version b.2.Version) = true
    · have hstep : (if (b.2.Version == "" || (le b.2.Version c.2.Version &&
          !le c.2.Version b.2.Version)) = true then (c.2.Version, c.2, c.1)
          else (b.2.Version, b.2, b.1)) = (c.2.Version, c.2, c.1) := by
        simp [hlt]
      simp only [hstep]
      obtain ⟨r, hr, hfold, hmax⟩ := ih hrest c hc
      refine ⟨r, List.mem_cons_of_mem _ hr, hfold, ?_⟩
      intro x hx
      rcases List.mem_cons.1 hx with h1 | h1
      · rw [h1]
        have hbc : le b.2.Version c.2.Version = true := by
          simp only [Bool.and_eq_true] at hlt
          exact hlt.1
        exact htrans _ _ _ hbc (hmax c (List.mem_cons_self _ _))
      · exact hmax x h1
    · have hstep : (if (b.2.Version == "" || (le b.2.Version c.2.Version &&
          !le c.2.Version b.2.Version)) = true then (c.2.Version, c.2, c.1)
          else (b.2.Version, b.2, b.1)) = (b.2.Version, b.2, b.1) := by
        simp [hb, hlt]
      simp only [hstep]
      obtain ⟨r, hr, hfold, hmax⟩ := ih hrest b hb
      have hcb : le c.2.Version b.2.Version = true := by
        rcases htotal c.2.Version b.2.Version with h | h
        · exact h
        · simp [h] at hlt
          exact hlt
      refine ⟨r, ?_, hfold, ?_⟩
      · rcases List.mem_cons.1 hr with h1 | h1
        · rw [h1]; exact List.mem_cons_self _ _
        · exact List.mem_cons_of_mem _ (List.mem_cons_of_mem _ h1)
      · intro x hx
        rcases List.mem_cons.1 hx with h1 | h1
        · rw [h1]; exact hmax b (List.mem_cons_self _ _)
        · rcases List.mem_cons.1 h1 with h2 | h2
          · rw [h2]; exact htrans _ _ _ hcb (hmax b (List.mem_cons_self _ _))
          · exact hmax x (List.mem_cons_of_mem _ h2)

theorem getHighestVersion_max (le : String → String → Bool)
    (htotal : ∀ a b, le a b = true ∨ le b a = true)
    (htrans : ∀ a b c, le a b = true → le b c = true → le a c = true)
    (services : List (String × ExchangeService)) (hne : ∀ c ∈ services, c.2.Version ≠ "")
    (hlen : services ≠ []) :
    ∃ c ∈ services, GetHighestVersion le services = .ok (c.2.Version, c.2, c.1) ∧
      ∀ x ∈ services, le x.2.Version c.2.Version = true := by
  cases services with
  | nil => exact absurd rfl hlen
  | cons b rest =>
    obtain ⟨c, hc, hfold, hmax⟩ := highest_foldl le htotal htrans rest
      (fun x hx => hne x (List.mem_cons_of_mem _ hx)) b (hne b (List.mem_cons_self _ _))
    refine ⟨c, hc, ?_, hmax⟩
    simp only [GetHighestVersion, List.foldl_cons, beq_self_eq_true, Bool.true_or, if_true]
    rw [hfold]
theorem same_candidate_of_same_version (services : List (String × ExchangeService))
    (hdistinct : services.Pairwise (fun c1 c2 => c1.2.Version ≠ c2.2.Version))
    (x y : String × ExchangeService) (hx : x ∈ services) (hy : y ∈ services)
    (hv : x.2.Version = y.2.Version) : x = y := by
  by_contra hne
  exact (hdistinct.forall (fun _ _ h => Ne.symm h) hx hy hne) hv

theorem selectServiceDefinition_highest (le : String → String → Bool)
    (htotal : ∀ a b, le a b = true ∨ le b a = true)
    (htrans : ∀ a b c, le a b = true → le b c = true → le a c = true)
    (hanti : ∀ a b, le a b = true → le b a = true → a = b)
    (surl org : String) (services : List (String × ExchangeService))
    (hne : ∀ c ∈ services, c.2.Version ≠ "")
    (hdistinct : services.Pairwise (fun c1 c2 => c1.2.Version ≠ c2.2.Version))
    (hlen : 1 < services.length)
    (c : String × ExchangeService) (hc : c ∈ services)
    (hmax : ∀ x ∈ services, le x.2.Version c.2.Version = true) :
    selectServiceDefinition (GetHighestVersion le) surl org services = .ok (c.2, c.1) := by
  have hnil : services ≠ [] := by
    intro h
    rw [h] at hlen
    simp at hlen
  obtain ⟨r, hr, hget, hrmax⟩ := getHighestVersion_max le htotal htrans services hne hnil
  have hv : r.2.Version = c.2.Version := hanti _ _ (hmax r hr) (hrmax c hc)
  have hrc : r = c := same_candidate_of_same_version services hdistinct r c hr hc hv
  subst hrc
  have hnonempty : (r.2.Version == "") = false := by
    simpa using hne r hr
  simp only [selectServiceDefinition, gt_iff_lt, hlen, if_true, hget, hnonempty,
    Bool.false_eq_true, if_false]

/-- C18: version selection on remote fetch.  For a version order that is
total, transitive and antisymmetric and candidates with non-empty, pairwise
different versions: with more than one candidate the choice of
`getServiceDefinition` is the candidate whose version is the highest; the choice
does not depend on the order in which the candidates are returned; and a
single candidate is chosen as it is. -/
theorem fetch_selects_highest_version (le : String → String → Bool)
    (htotal : ∀ a b, le a b = true ∨ le b a = true)
    (htrans : ∀ a b c, le a b = true → le b c = true → le a c = true)
    (hanti : ∀ a b, le a b = true → le b a = true → a = b)
    (surl org : String) (services : List (String × ExchangeService))
    (hne : ∀ c ∈ services, c.2.Version ≠ "")
    (hdistinct : services.Pairwise (fun c1 c2 => c1.2.Version ≠ c2.2.Version)) :
    (1 < services.length → ∀ c ∈ services,
      (∀ x ∈ services, le x.2.Version c.2.Version = true) →
      selectServiceDefinition (GetHighestVersion le) surl org services = .ok (c.2, c.1)) ∧
    (∀ services1, services1.Perm services →
      selectServiceDefinition (GetHighestVersion le) surl org services1 =
        selectServiceDefinition (GetHighestVersion le) surl org services) ∧
    (∀ G sId sDef, selectServiceDefinition G surl org [(sId, sDef)] = .ok (sDef, sId)) := by
  refine ⟨?_, ?_, ?_⟩
  · intro hlen c hc hmax
    exact selectServiceDefinition_highest le htotal htrans hanti surl org services hne
      hdistinct hlen c hc hmax
  · intro services1 hperm
    by_cases hlen : 1 < services.length
    · have hnil : services ≠ [] := by
        intro h
        rw [h] at hlen
        simp at hlen
      obtain ⟨r, hr, _, hrmax⟩ := getHighestVersion_max le htotal htrans services hne hnil
      rw [selectServiceDefinition_highest le htotal htrans hanti surl org services hne
        hdistinct hlen r hr hrmax]
      exact selectServiceDefinition_highest le htotal htrans hanti surl org services1
        (fun x hx => hne x (hperm.mem_iff.1 hx))
        ((hperm.pairwise_iff (fun h => Ne.symm h)).2 hdistinct)
        (by rw [hperm.length_eq]; exact hlen) r (hperm.mem_iff.2 hr)
        (fun x hx => hrmax x (hperm.mem_iff.1 hx))
    · have h1 : services.length ≤ 1 := Nat.le_of_not_lt hlen
      have : services1 = services := by
        match services, h1, hperm with
        | [], _, hp => exact List.perm_nil.1 hp
        | [a], _, hp => exact List.perm_singleton.1 hp
      rw [this]
  · intro G sId sDef
    simp [selectServiceDefinition]

theorem selectServiceDefinition_nil
    (G : List (String × ExchangeService) → Except String (String × ExchangeService × String))
    (surl org : String) :
    selectServiceDefinition G surl org [] = .error "no services found in the exchange." := by
  simp [selectServiceDefinition]

/-- C19: when the lookup of a remote fetch returns no candidate, the choice
is the error 'no services found in the exchange.', `getServiceDefinition`
returns that error and no definition, and `fetchExchangeProjectDependency`
returns an error with the project unchanged: no dependency record is
written. -/
theorem fetch_fails_on_zero_candidates (env : FetchEnv) (fuel : Nat) (proj : Project)
    (url org version arch : String)
    (hzero : env.ExchangeGet (servicesResource env.ArchString url org version arch) = .ok []) :
    selectServiceDefinition env.GetHighestVersion url org [] =
      .error "no services found in the exchange." ∧
    getServiceDefinition env (fuel + 1) proj url org version arch =
      some (proj, .error "no services found in the exchange.") ∧
    ∃ err, fetchExchangeProjectDependency env (fuel + 1) proj url org version arch =
      some (proj, some err) := by
  have hsel := selectServiceDefinition_nil env.GetHighestVersion url org
  have hget : getServiceDefinition env (fuel + 1) proj url org version arch =
      some (proj, .error "no services found in the exchange.") := by
    simp only [getServiceDefinition, hzero, hsel]
  refine ⟨hsel, hget, ?_⟩
  by_cases hsvc : env.IsServiceProject proj = true
  · refine ⟨"no services found in the exchange.", ?_⟩
    simp only [fetchExchangeProjectDependency, getExchangeDefinition, hsvc, if_true, hget]
  · refine ⟨"unsupported project type", ?_⟩
    simp only [fetchExchangeProjectDependency, getExchangeDefinition, hsvc, if_false,
      Bool.false_eq_true]
/-- Witness of C18: of the candidates 1.0.0 and 1.2.0 the fetch selects
1.2.0. -/
theorem fetch_selects_highest_version_witness :
    selectServiceDefinition (GetHighestVersion exampleVersionLE) "u" "o"
      [candidate100, candidate120] = .ok (candidate120.2, candidate120.1) :=
  (fetch_selects_highest_version exampleVersionLE
    (fun a b => by
      simp only [exampleVersionLE, decide_eq_true_eq]
      exact le_total a.data b.data)
    (fun a b c => by
      simp only [exampleVersionLE, decide_eq_true_eq]
      exact le_trans)
    (fun a b => by
      simp only [exampleVersionLE, decide_eq_true_eq]
      exact fun h1 h2 => String.ext (le_antisymm h1 h2))
    "u" "o" [candidate100, candidate120] (by decide) (by decide)).1
    (by decide) candidate120 (by decide) (by decide)

/-- Witness of C19: a fetch of `u` from an exchange that has no candidate
leaves the project as it was. -/
theorem fetch_fails_on_zero_candidates_witness :
    selectServiceDefinition (exampleEnv []).GetHighestVersion "u" "o" [] =
      .error "no services found in the exchange." ∧
    getServiceDefinition (exampleEnv []) (0 + 1) projShared "u" "o" "" "" =
      some (projShared, .error "no services found in the exchange.") ∧
    ∃ err, fetchExchangeProjectDependency (exampleEnv []) (0 + 1) projShared "u" "o" "" "" =
      some (projShared, some err) :=
  fetch_fails_on_zero_candidates (exampleEnv []) 0 projShared "u" "o" "" "" rfl

/-! ## Safety and collisions of the file names -/

theorem data_createDependencyFileName (ExpandEnv : String → String)
    (org url version suffix : String) :
    (createDependencyFileName ExpandEnv org url version suffix).data =
      org.data ++ '_' :: replaceReserved (removeScheme (ExpandEnv url).data) ++
        '_' :: (ExpandEnv version).data ++ '.' :: suffix.data := by
  simp only [createDependencyFileName, String.data_append]
  simp

theorem not_mem_replaceReserved (s : List Char) (c : Char) (hc : c ∈ reservedChars) :
    c ∉ replaceReserved s := by
  intro h
  simp only [replaceReserved, List.mem_map] at h
  obtain ⟨x, _, hx⟩ := h
  split at hx
  · rw [← hx] at hc
    exact absurd hc (by decide)
  · rename_i hnot
    rw [hx] at hnot
    exact hnot hc

/-- C21 (amended): the reference part of the name, the url after the scheme
is removed and the reserved characters are replaced, contains no `/` and none
of the characters `$!*,;?@&~=%`; the organization, the expanded version and the
suffix are copied as they are, so the whole name contains such a character
exactly when one of these three does. -/
theorem createDependencyFileName_reserved (ExpandEnv : String → String)
    (org url version suffix : String) (c : Char) (hc : c ∈ reservedChars) :
    c ∉ replaceReserved (removeScheme (ExpandEnv url).data) ∧
    (c ∈ (createDependencyFileName ExpandEnv org url version suffix).data ↔
      c ∈ org.data ∨ c ∈ (ExpandEnv version).data ∨ c ∈ suffix.data) := by
  have h1 := not_mem_replaceReserved (removeScheme (ExpandEnv url).data) c hc
  have hu : c ≠ '_' := by
    intro h
    rw [h] at hc
    exact absurd hc (by decide)
  have hd : c ≠ '.' := by
    intro h
    rw [h] at hc
    exact absurd hc (by decide)
  refine ⟨h1, ?_⟩
  rw [data_createDependencyFileName]
  simp only [List.mem_append, List.mem_cons, hu, hd, h1, false_or, or_false]
  tauto

/-- C21 (counterexample): for the organization `a/b` the name returned by
`createDependencyFileName` contains the path separator. -/
theorem unsafe_name_counterexample :
    '/' ∈ (createDependencyFileName (fun s => s) "a/b" "u" "1.0" definitionFile).data := by
  decide

/-- Witness of C21 (amended): the name for `https://a/b` of organization `o`
at version 1.0 contains no `/`. -/
theorem createDependencyFileName_reserved_witness :
    '/' ∉ replaceReserved (removeScheme ((fun s => s) "https://a/b").data) ∧
    ('/' ∈ (createDependencyFileName (fun s => s) "o" "https://a/b" "1.0" definitionFile).data ↔
      '/' ∈ "o".data ∨ '/' ∈ ((fun s => s) "1.0").data ∨ '/' ∈ definitionFile.data) :=
  createDependencyFileName_reserved (fun s => s) "o" "https://a/b" "1.0" definitionFile '/'
    (by decide)

/-! ## Writing a record twice -/

theorem writeEntry_cons (name : String) (sDef : ServiceFile) (e : DirEntry)
    (rest : List DirEntry) :
    writeEntry name sDef (e :: rest) =
      if e.info.Name == name then newEntry name sDef :: rest
      else if name < e.info.Name then newEntry name sDef :: e :: rest
      else e :: writeEntry name sDef rest := rfl

theorem writeEntry_spec (name : String) (sDef : ServiceFile) (entries : List DirEntry)
    (hs : SortedNames entries) :
    SortedNames (writeEntry name sDef entries) ∧
    (writeEntry name sDef entries).filter (fun e => e.info.Name == name) = [newEntry name sDef] ∧
    (writeEntry name sDef entries).filter (fun e => !(e.info.Name == name)) =
      entries.filter (fun e => !(e.info.Name == name)) := by
  induction entries with
  | nil =>
    refine ⟨by simp [SortedNames, writeEntry], ?_, ?_⟩
    · simp [writeEntry, newEntry]
    · simp [writeEntry]
  | cons e rest ih =>
    have hs1 : SortedNames rest := (List.pairwise_cons.1 hs).2
    have hlt : ∀ x ∈ rest, e.info.Name < x.info.Name := by
      intro x hx
      exact (List.pairwise_cons.1 hs).1 _ (List.mem_map_of_mem _ hx)
    obtain ⟨ih1, ih2, ih3⟩ := ih hs1
    rw [writeEntry_cons]
    by_cases h1 : e.info.Name = name
    · have hrest : ∀ x ∈ rest, ¬ x.info.Name = name := by
        intro x hx hxn
        have := hlt x hx
        rw [h1, hxn] at this
        exact lt_irrefl _ this
      have hfilter : rest.filter (fun e => e.info.Name == name) = [] := by
        rw [List.filter_eq_nil_iff]
        intro x hx
        simpa using hrest x hx
      simp only [h1, beq_self_eq_true, if_true]
      refine ⟨?_, ?_, ?_⟩
      · simp only [SortedNames, List.map_cons, List.pairwise_cons, newEntry]
        refine ⟨?_, hs1⟩
        intro a ha
        obtain ⟨x, hx, rfl⟩ := List.mem_map.1 ha
        rw [← h1]
        exact hlt x hx
      · simp [List.filter_cons, newEntry, hfilter]
      · simp [List.filter_cons, newEntry, h1]
    · have h1b : (e.info.Name == name) = false := by simpa using h1
      simp only [h1b, Bool.false_eq_true, if_false]
      by_cases h2 : name < e.info.Name
      · have hrest : ∀ x ∈ rest, ¬ x.info.Name = name := by
          intro x hx hxn
          have := lt_trans h2 (hlt x hx)
          rw [hxn] at this
          exact lt_irrefl _ this
        have hfilter : rest.filter (fun e => e.info.Name == name) = [] := by
          rw [List.filter_eq_nil_iff]
          intro x hx
          simpa using hrest x hx
        simp only [h2, if_true]
        refine ⟨?_, ?_, ?_⟩
        · simp only [SortedNames, List.map_cons, List.pairwise_cons, newEntry]
          refine ⟨?_, (List.pairwise_cons.1 hs)⟩
          intro a ha
          rcases List.mem_cons.1 ha with ha | ha
          · rw [ha]; exact h2
          · obtain ⟨x, hx, rfl⟩ := List.mem_map.1 ha
            exact lt_trans h2 (hlt x hx)
        · simp [List.filter_cons, newEntry, hfilter, h1b]
        · simp [List.filter_cons, newEntry, h1b]
      · simp only [h2, if_false]
        have h3 : e.info.Name < name := by
          rcases lt_trichotomy e.info.Name name with h | h | h
          · exact h
          · exact absurd h h1
          · exact absurd h h2
        refine ⟨?_, ?_, ?_⟩
        · simp only [SortedNames, List.map_cons, List.pairwise_cons]
          refine ⟨?_, ih1⟩
          intro a ha
          obtain ⟨x, hx, rfl⟩ := List.mem_map.1 ha
          by_cases hxn : x.info.Name = name
          · rw [hxn]; exact h3
          · have hx1 : x ∈ (writeEntry name sDef rest).filter (fun e => !(e.info.Name == name)) :=
              List.mem_filter.2 ⟨hx, by simpa using hxn⟩
            rw [ih3] at hx1
            exact hlt x (List.mem_filter.1 hx1).1
        · simp [List.filter_cons, h1b, ih2]
        · simp [List.filter_cons, h1b, ih3]

theorem find_writeEntry (name : String) (sDef : ServiceFile) (entries : List DirEntry)
    (other : String) :
    (writeEntry name sDef entries).find? (fun e => e.info.Name == other) =
      if name = other then some (newEntry name sDef)
      else entries.find? (fun e => e.info.Name == other) := by
  induction entries with
  | nil =>
    by_cases h : name = other
    · simp [writeEntry, newEntry, h]
    · simp [writeEntry, h]
  | cons e rest ih =>
    rw [writeEntry_cons]
    by_cases h1 : e.info.Name = name
    · by_cases h : name = other
      · simp [h1, newEntry, h]
      · simp [h1, newEntry, h, List.find?_cons]
    · have h1b : (e.info.Name == name) = false := by simpa using h1
      simp only [h1b, Bool.false_eq_true, if_false]
      by_cases h2 : name < e.info.Name
      · rw [if_pos h2]
        by_cases h : name = other
        · simp [newEntry, h]
        · simp [newEntry, h, List.find?_cons]
      · simp only [h2, if_false]
        by_cases h : name = other
        · have h3 : (e.info.Name == other) = false := by rw [← h]; exact h1b
          rw [List.find?_cons, h3, ih]
          simp [h]
        · rw [List.find?_cons, ih, List.find?_cons]
          simp [h]

theorem writeDependencyFile_ok (proj : Project) (entries : List DirEntry) (name : String)
    (sDef : ServiceFile) (hdeps : proj.dependencies = .ok entries)
    (hdir : entries.any (fun e => e.info.Name == name && e.info.IsDir) = false) :
    proj.writeDependencyFile name sDef =
      (Project.mk proj.definition (.ok (writeEntry name sDef entries)) proj.userInputs, none) := by
  simp only [Project.writeDependencyFile, hdeps, hdir]
  rfl

theorem readDependency_write (proj : Project) (entries : List DirEntry) (name : String)
    (sDef : ServiceFile) (other : String) (hdeps : proj.dependencies = .ok entries) :
    (Project.mk proj.definition (.ok (writeEntry name sDef entries))
        proj.userInputs).readDependency other =
      if name = other then .ok sDef else proj.readDependency other := by
  simp only [Project.readDependency, hdeps, find_writeEntry]
  by_cases h : name = other
  · simp [h, newEntry]
  · simp [h]

/-- C22: idempotent fetch.  Two definitions with the same organization,
reference and version get the same file name; when both are stored through
`UpdateDependencyFile` in a store whose listing is in the order of the names
and has no directory of that name, both calls succeed, the store afterwards
has exactly one entry of that name, which holds the second definition, its
other entries are the entries it had before, and the rest of the project is
unchanged. -/
theorem fetch_twice_single_record (env : FetchEnv) (proj : Project) (entries : List DirEntry)
    (sDef1 sDef2 : ServiceFile)
    (hdeps : proj.dependencies = .ok entries) (hs : SortedNames entries)
    (horg : sDef1.Org = sDef2.Org) (hurl : sDef1.URL = sDef2.URL)
    (hver : sDef1.Version = sDef2.Version)
    (hdir : entries.any (fun e =>
      e.info.Name == createDependencyFileName env.ExpandEnv sDef1.Org sDef1.URL sDef1.Version
        env.SERVICE_DEFINITION_FILE && e.info.IsDir) = false) :
    createDependencyFileName env.ExpandEnv sDef1.Org sDef1.URL sDef1.Version
        env.SERVICE_DEFINITION_FILE =
      createDependencyFileName env.ExpandEnv sDef2.Org sDef2.URL sDef2.Version
        env.SERVICE_DEFINITION_FILE ∧
    ∃ proj1 proj2 entries2,
      UpdateDependencyFile env proj sDef1 = (proj1, none) ∧
      UpdateDependencyFile env proj1 sDef2 = (proj2, none) ∧
      proj2.dependencies = .ok entries2 ∧
      entries2.filter (fun e => e.info.Name ==
          createDependencyFileName env.ExpandEnv sDef2.Org sDef2.URL sDef2.Version
            env.SERVICE_DEFINITION_FILE) =
        [newEntry (createDependencyFileName env.ExpandEnv sDef2.Org sDef2.URL sDef2.Version
          env.SERVICE_DEFINITION_FILE) sDef2] ∧
      entries2.filter (fun e => !(e.info.Name ==
          createDependencyFileName env.ExpandEnv sDef2.Org sDef2.URL sDef2.Version
            env.SERVICE_DEFINITION_FILE)) =
        entries.filter (fun e => !(e.info.Name ==
          createDependencyFileName env.ExpandEnv sDef2.Org sDef2.URL sDef2.Version
            env.SERVICE_DEFINITION_FILE)) ∧
      proj2.readDependency (createDependencyFileName env.ExpandEnv sDef2.Org sDef2.URL
        sDef2.Version env.SERVICE_DEFINITION_FILE) = .ok sDef2 ∧
      (∀ other, other ≠ createDependencyFileName env.ExpandEnv sDef2.Org sDef2.URL
          sDef2.Version env.SERVICE_DEFINITION_FILE →
        proj2.readDependency other = proj.readDependency other) ∧
      proj2.definition = proj.definition ∧ proj2.userInputs = proj.userInputs := by
  rw [horg, hurl, hver] at hdir
  refine ⟨by rw [horg, hurl, hver], ?_⟩
  generalize hname : createDependencyFileName env.ExpandEnv sDef2.Org sDef2.URL sDef2.Version
    env.SERVICE_DEFINITION_FILE = name at hdir
  obtain ⟨hs1, hone1, hother1⟩ := writeEntry_spec name sDef1 entries hs
  obtain ⟨_, hone2, hother2⟩ := writeEntry_spec name sDef2 (writeEntry name sDef1 entries) hs1
  have hdir1 : (writeEntry name sDef1 entries).any
      (fun e => e.info.Name == name && e.info.IsDir) = false := by
    rw [List.any_eq_false]
    intro e he
    by_cases hn : e.info.Name = name
    · have hmem : e ∈ (writeEntry name sDef1 entries).filter (fun e => e.info.Name == name) :=
        List.mem_filter.2 ⟨he, by simpa using hn⟩
      rw [hone1, List.mem_singleton] at hmem
      simp [hmem, newEntry]
    · simp [hn]
  have hw1 := writeDependencyFile_ok proj entries name sDef1 hdeps hdir
  have hw2 := writeDependencyFile_ok
    (Project.mk proj.definition (.ok (writeEntry name sDef1 entries)) proj.userInputs)
    (writeEntry name sDef1 entries) name sDef2 rfl hdir1
  refine ⟨Project.mk proj.definition (.ok (writeEntry name sDef1 entries)) proj.userInputs,
    Project.mk proj.definition (.ok (writeEntry name sDef2 (writeEntry name sDef1 entries)))
      proj.userInputs,
    writeEntry name sDef2 (writeEntry name sDef1 entries), ?_, ?_, rfl,
    hone2, hother2.trans hother1, ?_, ?_, rfl, rfl⟩
  · simp only [UpdateDependencyFile, horg, hurl, hver, hname]
    exact hw1
  · simp only [UpdateDependencyFile, hname]
    exact hw2
  · have := readDependency_write
      (Project.mk proj.definition (.ok (writeEntry name sDef1 entries)) proj.userInputs)
      (writeEntry name sDef1 entries) name sDef2 name rfl
    simpa using this
  · intro other hne
    have h2 := readDependency_write
      (Project.mk proj.definition (.ok (writeEntry name sDef1 entries)) proj.userInputs)
      (writeEntry name sDef1 entries) name sDef2 other rfl
    have h1 := readDependency_write proj entries name sDef1 other hdeps
    simp only [Ne.symm hne, if_false] at h1 h2
    exact h2.trans h1

/-- Witness of C22: the record of `u` 1.0 is stored again, and then a second
definition of `u` 1.0 that declares `port`; the store holds the second. -/
theorem fetch_twice_single_record_witness :
    createDependencyFileName (exampleEnv []).ExpandEnv recU1.Org recU1.URL recU1.Version
        (exampleEnv []).SERVICE_DEFINITION_FILE =
      createDependencyFileName (exampleEnv []).ExpandEnv recU1Port.Org recU1Port.URL
        recU1Port.Version (exampleEnv []).SERVICE_DEFINITION_FILE ∧
    ∃ proj1 proj2 entries2,
      UpdateDependencyFile (exampleEnv []) projOneRecord recU1 = (proj1, none) ∧
      UpdateDependencyFile (exampleEnv []) proj1 recU1Port = (proj2, none) ∧
      proj2.dependencies = .ok entries2 ∧
      entries2.filter (fun e => e.info.Name ==
          createDependencyFileName (exampleEnv []).ExpandEnv recU1Port.Org recU1Port.URL
            recU1Port.Version (exampleEnv []).SERVICE_DEFINITION_FILE) =
        [newEntry (createDependencyFileName (exampleEnv []).ExpandEnv recU1Port.Org
          recU1Port.URL recU1Port.Version (exampleEnv []).SERVICE_DEFINITION_FILE) recU1Port] ∧
      entries2.filter (fun e => !(e.info.Name ==
          createDependencyFileName (exampleEnv []).ExpandEnv recU1Port.Org recU1Port.URL
            recU1Port.Version (exampleEnv []).SERVICE_DEFINITION_FILE)) =
        [DirEntry.mk fileU1 (.ok recU1)].filter (fun e => !(e.info.Name ==
          createDependencyFileName (exampleEnv []).ExpandEnv recU1Port.Org recU1Port.URL
            recU1Port.Version (exampleEnv []).SERVICE_DEFINITION_FILE)) ∧
      proj2.readDependency (createDependencyFileName (exampleEnv []).ExpandEnv recU1Port.Org
        recU1Port.URL recU1Port.Version (exampleEnv []).SERVICE_DEFINITION_FILE) =
          .ok recU1Port ∧
      (∀ other, other ≠ createDependencyFileName (exampleEnv []).ExpandEnv recU1Port.Org
          recU1Port.URL recU1Port.Version (exampleEnv []).SERVICE_DEFINITION_FILE →
        proj2.readDependency other = projOneRecord.readDependency other) ∧
      proj2.definition = projOneRecord.definition ∧
      proj2.userInputs = projOneRecord.userInputs :=
  fetch_twice_single_record (exampleEnv []) projOneRecord [DirEntry.mk fileU1 (.ok recU1)]
    recU1 recU1Port rfl (List.pairwise_singleton _ _) rfl rfl rfl (by decide)

/-- C30: the file name is not injective in the identity of the dependency.
The architecture is not part of the name; references that differ only in the
scheme, or in `/` against `-`, get the same name; an underscore in the
organization or the reference cannot be told from the separator.  Storing the
second of two such dependencies leaves a store that holds only the second
record. -/
theorem file_names_not_injective :
    (∀ (env : FetchEnv) (proj : Project) (sDef : ServiceFile) (arch : String),
      UpdateDependencyFile env proj { sDef with Arch := arch } =
        proj.writeDependencyFile
          (createDependencyFileName env.ExpandEnv sDef.Org sDef.URL sDef.Version
            env.SERVICE_DEFINITION_FILE) { sDef with Arch := arch }) ∧
    (recU1.spec ≠ recU1Arm.spec ∧
      createDependencyFileName (fun s => s) recU1.Org recU1.URL recU1.Version definitionFile =
        createDependencyFileName (fun s => s) recU1Arm.Org recU1Arm.URL recU1Arm.Version
          definitionFile) ∧
    (recSlash.spec ≠ recHyphen.spec ∧
      createDependencyFileName (fun s => s) "o" "http://a/b" "1.0" definitionFile =
        createDependencyFileName (fun s => s) "o" "a-b" "1.0" definitionFile ∧
      createDependencyFileName (fun s => s) "o" "http://a/b" "1.0" definitionFile =
        createDependencyFileName (fun s => s) "o" "https://a/b" "1.0" definitionFile) ∧
    createDependencyFileName (fun s => s) "a_b" "c" "1.0" definitionFile =
      createDependencyFileName (fun s => s) "a" "b_c" "1.0" definitionFile ∧
    (UpdateDependencyFile (exampleEnv [])
        (UpdateDependencyFile (exampleEnv []) projNoRecords recSlash).1 recHyphen).1.dependencies
      = Except.ok [newEntry "o_a-b_1.0.service.definition.json" recHyphen] ∧
    (UpdateDependencyFile (exampleEnv [])
        (UpdateDependencyFile (exampleEnv []) projNoRecords recU1).1 recU1Arm).1.dependencies
      = Except.ok [newEntry "o_u_1.0.service.definition.json" recU1Arm] := by
  refine ⟨fun _ _ _ _ => rfl, ⟨by decide, by decide⟩, ⟨by decide, by decide, by decide⟩,
    by decide, by rfl, by rfl⟩

/-! ## The input check of a fetch -/

theorem verifyFetchArguments_none_iff (project specRef url org : String) :
    verifyFetchArguments project specRef url org = none ↔
      (project ≠ "" ∧ specRef = "" ∧ org = "" ∧ url = "") ∨
      (project = "" ∧ org ≠ "" ∧ ((specRef ≠ "" ∧ url = "") ∨ (specRef = "" ∧ url ≠ ""))) := by
  unfold verifyFetchArguments
  by_cases h1 : project = "" <;> by_cases h2 : specRef = "" <;> by_cases h3 : url = "" <;>
    by_cases h4 : org = "" <;> simp [h1, h2, h3, h4]

/-- C23: when the environment check succeeds, the check of the argument
combination in `verifyFetchInput` accepts exactly when project is given and
specRef, org and url are all empty, or project is empty, org is given and
exactly one of specRef and url is given.  Every rejected combination makes
`verifyFetchInput` return the error of the check; this is so when both specRef
and url are given, when project comes with any of the others, when nothing is
given, and when a reference comes without org.  The result does not depend on
version and arch. -/
theorem verifyFetchInput_accepts_iff
    (VerifyEnvironment : String → Bool → Bool → String → Except String String)
    (IsServiceProject : String → Bool)
    (ValidateServiceDefinition : String → String → Option String)
    (sfx homeDirectory project specRef url org version arch userCreds dir : String)
    (henv : VerifyEnvironment homeDirectory true true userCreds = .ok dir) :
    (verifyFetchArguments project specRef url org = none ↔
      (project ≠ "" ∧ specRef = "" ∧ org = "" ∧ url = "") ∨
      (project = "" ∧ org ≠ "" ∧ ((specRef ≠ "" ∧ url = "") ∨ (specRef = "" ∧ url ≠ "")))) ∧
    (∀ err, verifyFetchArguments project specRef url org = some err →
      verifyFetchInput VerifyEnvironment IsServiceProject ValidateServiceDefinition sfx
        homeDirectory project specRef url org version arch userCreds = .error err) ∧
    ((specRef ≠ "" ∧ url ≠ "") ∨ (project ≠ "" ∧ (specRef ≠ "" ∨ org ≠ "" ∨ url ≠ "")) ∨
        (project = "" ∧ specRef = "" ∧ org = "" ∧ url = "") ∨
        ((specRef ≠ "" ∨ url ≠ "") ∧ org = "") →
      ∃ err, verifyFetchInput VerifyEnvironment IsServiceProject ValidateServiceDefinition sfx
        homeDirectory project specRef url org version arch userCreds = .error err) ∧
    (∀ version1 arch1,
      verifyFetchInput VerifyEnvironment IsServiceProject ValidateServiceDefinition sfx
          homeDirectory project specRef url org version1 arch1 userCreds =
        verifyFetchInput VerifyEnvironment IsServiceProject ValidateServiceDefinition sfx
          homeDirectory project specRef url org version arch userCreds) := by
  have hiff := verifyFetchArguments_none_iff project specRef url org
  have hrej : ∀ err, verifyFetchArguments project specRef url org = some err →
      verifyFetchInput VerifyEnvironment IsServiceProject ValidateServiceDefinition sfx
        homeDirectory project specRef url org version arch userCreds = .error err := by
    intro err herr
    simp only [verifyFetchInput, henv, herr]
  refine ⟨hiff, hrej, ?_, fun _ _ => rfl⟩
  intro hbad
  cases hcheck : verifyFetchArguments project specRef url org with
  | some err => exact ⟨err, hrej err hcheck⟩
  | none =>
    exfalso
    have := hiff.1 hcheck
    tauto

/-- Witness of C23: a fetch by url `u` of organization `o`. -/
theorem verifyFetchInput_accepts_iff_witness :
    (verifyFetchArguments "" "" "u" "o" = none ↔
      (("" : String) ≠ "" ∧ ("" : String) = "" ∧ ("o" : String) = "" ∧ ("u" : String) = "") ∨
      (("" : String) = "" ∧ ("o" : String) ≠ "" ∧
        ((("" : String) ≠ "" ∧ ("u" : String) = "") ∨ (("" : String) = "" ∧ ("u" : String) ≠ "")))) ∧
    (∀ err, verifyFetchArguments "" "" "u" "o" = some err →
      verifyFetchInput (fun d _ _ _ => .ok d) (fun _ => true) (fun _ _ => none) definitionFile
        "home" "" "" "u" "o" "1.0" "amd64" "" = .error err) ∧
    ((("" : String) ≠ "" ∧ ("u" : String) ≠ "") ∨
        (("" : String) ≠ "" ∧ (("" : String) ≠ "" ∨ ("o" : String) ≠ "" ∨ ("u" : String) ≠ "")) ∨
        (("" : String) = "" ∧ ("" : String) = "" ∧ ("o" : String) = "" ∧ ("u" : String) = "") ∨
        ((("" : String) ≠ "" ∨ ("u" : String) ≠ "") ∧ ("o" : String) = "") →
      ∃ err, verifyFetchInput (fun d _ _ _ => .ok d) (fun _ => true) (fun _ _ => none)
        definitionFile "home" "" "" "u" "o" "1.0" "amd64" "" = .error err) ∧
    (∀ version1 arch1,
      verifyFetchInput (fun d _ _ _ => .ok d) (fun _ => true) (fun _ _ => none) definitionFile
          "home" "" "" "u" "o" version1 arch1 "" =
        verifyFetchInput (fun d _ _ _ => .ok d) (fun _ => true) (fun _ _ => none) definitionFile
          "home" "" "" "u" "o" "1.0" "amd64" "") :=
  verifyFetchInput_accepts_iff (fun d _ _ _ => .ok d) (fun _ => true) (fun _ _ => none)
    definitionFile "home" "" "" "u" "o" "1.0" "amd64" "" "home" rfl

/-! ## Termination of the walk -/

theorem requiredServicesLoop_some
    (recCall : ServiceSpec → List ServiceDependency →
      Option (List ServiceDependency × Option String))
    (req : List RequiredService)
    (hrec : ∀ s ∈ req, ∀ d, ∃ r, recCall s.spec d = some r)
    (deps : List ServiceDependency) : ∃ r, requiredServicesLoop recCall req deps = some r := by
  induction req generalizing deps with
  | nil => exact ⟨deps, rfl⟩
  | cons s rest ih =>
    obtain ⟨r, hr⟩ := hrec s (List.mem_cons_self _ _) deps
    simp only [requiredServicesLoop, hr]
    exact ih (fun s1 h1 => hrec s1 (List.mem_cons_of_mem _ h1)) r.1

theorem depFilesLoop_some (read : String → Except String ServiceFile)
    (recCall : ServiceSpec → List ServiceDependency →
      Option (List ServiceDependency × Option String))
    (spTop sp : ServiceSpec) (theItem : Option Nat) (files : List FileInfo)
    (hrec : ∀ f ∈ files, ∀ dep, read f.Name = .ok dep → dep.spec.Matches sp = true →
      ∀ s ∈ dep.RequiredServices, ∀ d, ∃ r, recCall s.spec d = some r)
    (deps : List ServiceDependency) :
    ∃ r, depFilesLoop read recCall spTop sp theItem files deps = some r := by
  induction files generalizing deps with
  | nil => exact ⟨(deps, none), rfl⟩
  | cons f rest ih =>
    have hrest := fun f1 (h1 : f1 ∈ rest) => hrec f1 (List.mem_cons_of_mem _ h1)
    simp only [depFilesLoop]
    cases hread : read f.Name with
    | error err => exact ⟨_, rfl⟩
    | ok dep =>
      by_cases hm : dep.spec.Matches sp = true
      · simp only [hm, if_true]
        have hreq := requiredServicesLoop_some recCall dep.RequiredServices
          (hrec f (List.mem_cons_self _ _) dep hread hm)
        cases theItem with
        | none =>
          obtain ⟨r, hr⟩ := hreq (deps ++ [NewServiceDependency dep.spec spTop f])
          simp only [hr]
          exact ih hrest r
        | some i =>
          obtain ⟨r, hr⟩ := hreq (addTopRefAt spTop deps i)
          simp only [hr]
          exact ih hrest r
      · have hm1 : dep.spec.Matches sp = false := by simpa using hm
        simp only [hm1, Bool.false_eq_true, if_false]
        exact ih hrest deps

theorem getDependencyDependencyInfo_some (read : String → Except String ServiceFile)
    (depFiles : List FileInfo) (hacyclic : Acyclic read depFiles) (spTop : ServiceSpec)
    (fuel : Nat) (visited : List FileInfo) (hvis : ∀ f ∈ visited, f ∈ depFiles)
    (hchain : visited.reverse.Chain' (fun f g => Requires read f g = true))
    (sp : ServiceSpec)
    (hsp : ∀ last ∈ visited.head?, ∃ dlast s, read last.Name = .ok dlast ∧
      s ∈ dlast.RequiredServices ∧ sp = s.spec)
    (hfuel : depFiles.length < fuel + visited.length) (deps : List ServiceDependency) :
    ∃ r, getDependencyDependencyInfo read fuel spTop sp depFiles deps = some r := by
  induction fuel generalizing visited sp deps with
  | zero =>
    exfalso
    have hnodup : visited.reverse.Nodup :=
      hacyclic visited.reverse (fun f hf => hvis f (List.mem_reverse.1 hf)) hchain
    have hle : visited.length ≤ depFiles.length :=
      (List.subperm_of_subset (List.nodup_reverse.1 hnodup) hvis).length_le
    omega
  | succ fuel ih =>
    simp only [getDependencyDependencyInfo]
    refine depFilesLoop_some read _ spTop sp _ depFiles ?_ deps
    intro f hf dep hread hm s hs d
    refine ih (f :: visited) ?_ ?_ s.spec ?_ ?_ d
    · intro g hg
      rcases List.mem_cons.1 hg with h | h
      · rw [h]; exact hf
      · exact hvis g h
    · rw [List.reverse_cons]
      refine List.Chain'.append hchain (List.chain'_singleton f) ?_
      intro x hx y hy
      simp only [List.head?_cons, Option.mem_def, Option.some.injEq] at hy
      subst hy
      rw [List.getLast?_reverse] at hx
      obtain ⟨dlast, s0, hlast, hs0, hsp0⟩ := hsp x hx
      simp only [Requires, hlast, hread, List.any_eq_true]
      exact ⟨s0, hs0, hsp0 ▸ hm⟩
    · intro last hlast
      simp only [List.head?_cons, Option.mem_def, Option.some.injEq] at hlast
      subst hlast
      exact ⟨dep, s, hread, hs, rfl⟩
    · simp only [List.length_cons]
      omega

theorem topServicesLoop_some (read : String → Except String ServiceFile) (fuel : Nat)
    (depFiles : List FileInfo)
    (hwalk : ∀ spTop sp deps, ∃ r,
      getDependencyDependencyInfo read fuel spTop sp depFiles deps = some r)
    (req : List RequiredService) (deps : List ServiceDependency) :
    ∃ r, topServicesLoop read fuel depFiles req deps = some r := by
  induction req generalizing deps with
  | nil => exact ⟨deps, rfl⟩
  | cons s rest ih =>
    obtain ⟨r, hr⟩ := hwalk s.spec s.spec deps
    simp only [topServicesLoop, hr]
    exact ih r.1

/-- C29: the graph walk terminates on acyclic stores.  When no chain of
required-service declarations, each matched against a record of the store by
`Matches`, returns to a record already on the chain, every call of
`getDependencyDependencyInfo` returns, and so does `getDependencyInfo`, as soon
as the bound on the depth of the recursion exceeds the number of record files:
the first call plus at most one level of recursion for each record. -/
theorem graph_walk_terminates (sfx : String) (proj : Project) (depFiles : List FileInfo)
    (hfiles : GetDependencyFiles proj sfx = .ok depFiles)
    (hacyclic : Acyclic proj.readDependency depFiles)
    (fuel : Nat) (hfuel : depFiles.length < fuel) :
    (∀ spTop sp deps, ∃ r,
      getDependencyDependencyInfo proj.readDependency fuel spTop sp depFiles deps = some r) ∧
    ∃ r, getDependencyInfo sfx fuel proj = some r := by
  have hwalk : ∀ spTop sp deps, ∃ r,
      getDependencyDependencyInfo proj.readDependency fuel spTop sp depFiles deps = some r := by
    intro spTop sp deps
    exact getDependencyDependencyInfo_some proj.readDependency depFiles hacyclic spTop fuel []
      (by simp) (by simp) sp (by simp) (by simpa using hfuel) deps
  refine ⟨hwalk, ?_⟩
  simp only [getDependencyInfo, hfiles]
  cases hdef : proj.definition with
  | error err => exact ⟨_, rfl⟩
  | ok svc =>
    obtain ⟨r, hr⟩ := topServicesLoop_some proj.readDependency fuel depFiles hwalk
      svc.RequiredServices []
    simp only [hr]
    exact ⟨_, rfl⟩

theorem acyclic_of_rank (read : String → Except String ServiceFile) (depFiles : List FileInfo)
    (rank : FileInfo → Nat)
    (hrank : ∀ f ∈ depFiles, ∀ g ∈ depFiles, Requires read f g = true → rank f < rank g) :
    Acyclic read depFiles := by
  intro chain hmem hchain
  have hlt : chain.Chain' (fun f g => rank f < rank g) := by
    induction chain with
    | nil => exact List.chain'_nil
    | cons f rest ih =>
      cases rest with
      | nil => exact List.chain'_singleton f
      | cons g rest1 =>
        rw [List.chain'_cons] at hchain ⊢
        exact ⟨hrank f (hmem f (List.mem_cons_self _ _)) g
          (hmem g (List.mem_cons_of_mem _ (List.mem_cons_self _ _))) hchain.1,
          ih (fun x hx => hmem x (List.mem_cons_of_mem _ hx)) hchain.2⟩
  haveI : IsTrans FileInfo (fun f g => rank f < rank g) :=
    ⟨fun _ _ _ h1 h2 => lt_trans h1 h2⟩
  have hpair : chain.Pairwise (fun f g => rank f < rank g) := List.chain'_iff_pairwise.1 hlt
  exact hpair.imp (fun h heq => by rw [heq] at h; exact lt_irrefl _ h)

theorem acyclic_projShared : Acyclic projShared.readDependency filesShared :=
  acyclic_of_rank projShared.readDependency filesShared
    (fun f => if f == fileC then 1 else 0) (by decide)

/-- Witness of C29: the store of the project that requires `a` and `b`, which
both require `c`, is acyclic and has three files; the walk returns with the
bound 4. -/
theorem graph_walk_terminates_witness :
    (∀ spTop sp deps, ∃ r,
      getDependencyDependencyInfo projShared.readDependency 4 spTop sp filesShared deps =
        some r) ∧
    ∃ r, getDependencyInfo definitionFile 4 projShared = some r :=
  graph_walk_terminates definitionFile projShared filesShared (by rfl) acyclic_projShared 4
    (by decide)

/-! ## A walk that does not end -/

theorem requiredServicesLoop_none
    (recCall : ServiceSpec → List ServiceDependency →
      Option (List ServiceDependency × Option String))
    (req : List RequiredService) (s : RequiredService) (hs : s ∈ req)
    (hrec : ∀ d, recCall s.spec d = none) (deps : List ServiceDependency) :
    requiredServicesLoop recCall req deps = none := by
  induction req generalizing deps with
  | nil => simp at hs
  | cons s0 rest ih =>
    simp only [requiredServicesLoop]
    cases hcall : recCall s0.spec deps with
    | none => rfl
    | some r =>
      rcases List.mem_cons.1 hs with h | h
      · rw [← h, hrec deps] at hcall
        exact absurd hcall (by simp)
      · exact ih h r.1

theorem depFilesLoop_none (read : String → Except String ServiceFile)
    (recCall : ServiceSpec → List ServiceDependency →
      Option (List ServiceDependency × Option String))
    (spTop sp : ServiceSpec) (theItem : Option Nat) (files : List FileInfo)
    (hreadable : ∀ g ∈ files, ∃ r, read g.Name = .ok r)
    (f : FileInfo) (hf : f ∈ files) (dep : ServiceFile) (hread : read f.Name = .ok dep)
    (hm : dep.spec.Matches sp = true) (s : RequiredService) (hs : s ∈ dep.RequiredServices)
    (hrec : ∀ d, recCall s.spec d = none) (deps : List ServiceDependency) :
    depFilesLoop read recCall spTop sp theItem files deps = none := by
  induction files generalizing deps with
  | nil => simp at hf
  | cons g rest ih =>
    have hrest : ∀ g1 ∈ rest, ∃ r, read g1.Name = .ok r :=
      fun g1 h1 => hreadable g1 (List.mem_cons_of_mem _ h1)
    obtain ⟨dg, hdg⟩ := hreadable g (List.mem_cons_self _ _)
    simp only [depFilesLoop, hdg]
    by_cases hfg : f = g
    · subst hfg
      rw [hread] at hdg
      cases hdg
      simp only [hm, if_true,
        requiredServicesLoop_none recCall dep.RequiredServices s hs hrec]
    · have hfr : f ∈ rest := by
        rcases List.mem_cons.1 hf with h | h
        · exact absurd h hfg
        · exact h
      by_cases hmg : dg.spec.Matches sp = true
      · simp only [hmg, if_true]
        split
        · rfl
        · exact ih hrest hfr _
      · have hmg1 : dg.spec.Matches sp = false := by simpa using hmg
        simp only [hmg1, Bool.false_eq_true, if_false]
        exact ih hrest hfr deps

theorem getDependencyDependencyInfo_none (read : String → Except String ServiceFile)
    (depFiles : List FileInfo) (hreadable : ∀ g ∈ depFiles, ∃ r, read g.Name = .ok r)
    (P : ServiceSpec → Prop)
    (hP : ∀ sp, P sp → ∃ f ∈ depFiles, ∃ dep, read f.Name = .ok dep ∧
      dep.spec.Matches sp = true ∧ ∃ s ∈ dep.RequiredServices, P s.spec)
    (fuel : Nat) (spTop sp : ServiceSpec) (hsp : P sp) (deps : List ServiceDependency) :
    getDependencyDependencyInfo read fuel spTop sp depFiles deps = none := by
  induction fuel generalizing sp deps with
  | zero => rfl
  | succ fuel ih =>
    obtain ⟨f, hf, dep, hread, hm, s, hs, hPs⟩ := hP sp hsp
    simp only [getDependencyDependencyInfo]
    exact depFilesLoop_none read _ spTop sp _ depFiles hreadable f hf dep hread hm s hs
      (fun d => ih s.spec hPs d) deps

theorem topServicesLoop_none (read : String → Except String ServiceFile) (fuel : Nat)
    (depFiles : List FileInfo) (req : List RequiredService) (s : RequiredService)
    (hs : s ∈ req)
    (hwalk : ∀ d, getDependencyDependencyInfo read fuel s.spec s.spec depFiles d = none)
    (deps : List ServiceDependency) :
    topServicesLoop read fuel depFiles req deps = none := by
  induction req generalizing deps with
  | nil => simp at hs
  | cons s0 rest ih =>
    simp only [topServicesLoop]
    cases hcall : getDependencyDependencyInfo read fuel s0.spec s0.spec depFiles deps with
    | none => rfl
    | some r =>
      rcases List.mem_cons.1 hs with h | h
      · rw [← h, hwalk deps] at hcall
        exact absurd hcall (by simp)
      · exact ih h r.1

theorem getDependencyInfo_cycle (sfx : String) (proj : Project) (svc : ServiceFile)
    (depFiles : List FileInfo) (fA fB : FileInfo) (A B : ServiceFile)
    (s sA sB : RequiredService)
    (hdef : proj.definition = .ok svc) (hfiles : GetDependencyFiles proj sfx = .ok depFiles)
    (hreadable : ∀ g ∈ depFiles, ∃ r, proj.readDependency g.Name = .ok r)
    (hfA : fA ∈ depFiles) (hfB : fB ∈ depFiles)
    (hA : proj.readDependency fA.Name = .ok A) (hB : proj.readDependency fB.Name = .ok B)
    (hs : s ∈ svc.RequiredServices) (hm : A.spec.Matches s.spec = true)
    (hsB : sB ∈ A.RequiredServices) (hmB : B.spec.Matches sB.spec = true)
    (hsA : sA ∈ B.RequiredServices) (hmA : A.spec.Matches sA.spec = true) (fuel : Nat) :
    getDependencyInfo sfx fuel proj = none := by
  have hwalk : ∀ d, getDependencyDependencyInfo proj.readDependency fuel s.spec s.spec
      depFiles d = none := by
    intro d
    refine getDependencyDependencyInfo_none proj.readDependency depFiles hreadable
      (fun sp => A.spec.Matches sp = true ∨ B.spec.Matches sp = true) ?_ fuel s.spec s.spec
      (Or.inl hm) d
    intro sp hsp
    rcases hsp with h | h
    · exact ⟨fA, hfA, A, hA, h, sB, hsB, Or.inr hmB⟩
    · exact ⟨fB, hfB, B, hB, h, sA, hsA, Or.inl hmA⟩
  simp only [getDependencyInfo, hdef, hfiles,
    topServicesLoop_none proj.readDependency fuel depFiles svc.RequiredServices s hs hwalk []]

/-- C24 (amended): the graph builder has no guard against cyclic
required-service declarations.  For a store whose files can all be read and in
which record A requires B and record B requires A, with A required by the
project, `getDependencyInfo` does not return for any bound on the depth of the
recursion: the walk goes on forever, and no error is reported. -/
theorem graph_walk_has_no_cycle_guard (sfx : String) (proj : Project) (svc : ServiceFile)
    (depFiles : List FileInfo) (fA fB : FileInfo) (A B : ServiceFile)
    (s sA sB : RequiredService)
    (hdef : proj.definition = .ok svc) (hfiles : GetDependencyFiles proj sfx = .ok depFiles)
    (hreadable : ∀ g ∈ depFiles, ∃ r, proj.readDependency g.Name = .ok r)
    (hfA : fA ∈ depFiles) (hfB : fB ∈ depFiles)
    (hA : proj.readDependency fA.Name = .ok A) (hB : proj.readDependency fB.Name = .ok B)
    (hs : s ∈ svc.RequiredServices) (hm : A.spec.Matches s.spec = true)
    (hsB : sB ∈ A.RequiredServices) (hmB : B.spec.Matches sB.spec = true)
    (hsA : sA ∈ B.RequiredServices) (hmA : A.spec.Matches sA.spec = true) :
    ¬ ∃ fuel r, getDependencyInfo sfx fuel proj = some r := by
  rintro ⟨fuel, r, h⟩
  rw [getDependencyInfo_cycle sfx proj svc depFiles fA fB A B s sA sB hdef hfiles hreadable
    hfA hfB hA hB hs hm hsB hmB hsA hmA fuel] at h
  exact absurd h (by simp)

theorem readable_projCycle :
    ∀ g ∈ [fileA, fileB], ∃ r, projCycle.readDependency g.Name = .ok r := by
  intro g hg
  simp only [List.mem_cons, List.mem_singleton, List.not_mem_nil, or_false] at hg
  rcases hg with h | h
  · exact ⟨recAneedsB, by rw [h]; rfl⟩
  · exact ⟨recBneedsA, by rw [h]; rfl⟩

/-- Witness of C24 (amended): the project that requires `a`, where `a`
requires `b` and `b` requires `a`. -/
theorem graph_walk_has_no_cycle_guard_witness :
    ¬ ∃ fuel r, getDependencyInfo definitionFile fuel projCycle = some r :=
  graph_walk_has_no_cycle_guard definitionFile projCycle _ [fileA, fileB] fileA fileB
    recAneedsB recBneedsA reqA reqA reqB rfl (by rfl) readable_projCycle (by decide) (by decide)
    (by rfl) (by rfl) (by decide) (by decide) (by decide) (by decide) (by decide) (by decide)

/-- C24 (counterexample): in the store of `projCycle` the record of `a`
requires `b` and the record of `b` requires `a`, and the project requires `a`;
for no bound on the depth of the recursion does `getDependencyInfo` return the
error 'dependency cycle detected'. -/
theorem cycle_counterexample :
    projCycle.readDependency fileA.Name = .ok recAneedsB ∧
    projCycle.readDependency fileB.Name = .ok recBneedsA ∧
    reqB ∈ recAneedsB.RequiredServices ∧ reqA ∈ recBneedsA.RequiredServices ∧
    (∃ svc, projCycle.definition = .ok svc ∧ reqA ∈ svc.RequiredServices) ∧
    ¬ ∃ fuel deps, getDependencyInfo definitionFile fuel projCycle =
        some (deps, some "dependency cycle detected") := by
  refine ⟨by rfl, by rfl, by decide, by decide, ⟨_, rfl, by decide⟩, ?_⟩
  rintro ⟨fuel, deps, h⟩
  rw [getDependencyInfo_cycle definitionFile projCycle _ [fileA, fileB] fileA fileB
    recAneedsB recBneedsA reqA reqA reqB rfl (by rfl) readable_projCycle (by decide) (by decide)
    (by rfl) (by rfl) (by decide) (by decide) (by decide) (by decide) (by decide) (by decide)
    fuel] at h
  exact absurd h (by simp)

/-! ## Errors of the walk -/

/-- C25 (the code at the failing input): the store of `projUnreadable` lists a
file that does not parse.  The walk `getDependencyDependencyInfo` returns the
parse error, but `getDependencyInfo` returns an empty graph and no error.  In
general, once the project definition and the listing of the store were read,
`getDependencyInfo` never returns an error. -/
theorem graph_walk_drops_read_error :
    projUnreadable.readDependency fileBad.Name = .error "unexpected end of JSON input" ∧
    getDependencyDependencyInfo projUnreadable.readDependency 1 reqU1.spec reqU1.spec
        [fileBad, fileU1] [] = some ([], some "unexpected end of JSON input") ∧
    getDependencyInfo definitionFile 2 projUnreadable = some ([], none) ∧
    (∀ sfx fuel (proj : Project) svc depFiles deps err,
      proj.definition = .ok svc → GetDependencyFiles proj sfx = .ok depFiles →
      getDependencyInfo sfx fuel proj = some (deps, err) → err = none) := by
  refine ⟨by rfl, by decide, by decide, ?_⟩
  intro sfx fuel proj svc depFiles deps err hdef hfiles hrun
  simp only [getDependencyInfo, hdef, hfiles] at hrun
  split at hrun
  · exact absurd hrun (by simp)
  · simp only [Option.some.injEq, Prod.mk.injEq] at hrun
    exact hrun.2.symm

/-! ## The global attributes of a local fetch -/

theorem mergeGlobal_found {V : Type} [DecidableEq V] (url org : String)
    (C : List (GlobalSet V)) (g : GlobalSet V) (h : ∃ c ∈ C, SameGlobal c g) :
    mergeGlobal url org C g = C := by
  have hany : C.any (fun c => c.Type_ == g.Type_ && decide (c.Variables = g.Variables)) = true := by
    obtain ⟨c, hc, h1, h2⟩ := h
    exact List.any_eq_true.2 ⟨c, hc, by simp [h1, h2]⟩
  simp only [mergeGlobal, hany, if_true]

theorem mergeGlobal_not_found {V : Type} [DecidableEq V] (url org : String)
    (C : List (GlobalSet V)) (g : GlobalSet V) (h : ¬ ∃ c ∈ C, SameGlobal c g) :
    mergeGlobal url org C g = C ++ [taggedGlobal url org g] := by
  have hany : C.any (fun c => c.Type_ == g.Type_ && decide (c.Variables = g.Variables)) = false := by
    rw [List.any_eq_false]
    intro c hc hcon
    simp only [Bool.and_eq_true, beq_iff_eq, decide_eq_true_eq] at hcon
    exact h ⟨c, hc, hcon⟩
  simp only [mergeGlobal, hany, Bool.false_eq_true, if_false, taggedGlobal]
  by_cases hs : g.ServiceSpecs = []
  · simp [hs]
  · have : g.ServiceSpecs.length ≠ 0 := by simpa using hs
    simp [hs, this]

theorem sameGlobal_tagged {V : Type} (url org : String) (g : GlobalSet V) :
    SameGlobal (taggedGlobal url org g) g := by
  unfold taggedGlobal SameGlobal
  split <;> exact ⟨rfl, rfl⟩

theorem mergeGlobals_cons {V : Type} [DecidableEq V] (url org : String) (g : GlobalSet V)
    (D C : List (GlobalSet V)) :
    mergeGlobals url org (g :: D) C = mergeGlobals url org D (mergeGlobal url org C g) := rfl

theorem mergeGlobals_extends {V : Type} [DecidableEq V] (url org : String)
    (D C : List (GlobalSet V)) :
    ∃ added, mergeGlobals url org D C = C ++ added ∧
      (∀ b ∈ added, ∃ g ∈ D, b = taggedGlobal url org g ∧ ¬ ∃ c ∈ C, SameGlobal c g) ∧
      added.Pairwise (fun a b => ¬ SameGlobal a b) := by
  induction D generalizing C with
  | nil => exact ⟨[], by simp [mergeGlobals], by simp, List.Pairwise.nil⟩
  | cons g rest ih =>
    rw [mergeGlobals_cons]
    by_cases h : ∃ c ∈ C, SameGlobal c g
    · rw [mergeGlobal_found url org C g h]
      obtain ⟨added, h1, h2, h3⟩ := ih C
      refine ⟨added, h1, ?_, h3⟩
      intro b hb
      obtain ⟨g1, hg1, hb1, hb2⟩ := h2 b hb
      exact ⟨g1, List.mem_cons_of_mem _ hg1, hb1, hb2⟩
    · rw [mergeGlobal_not_found url org C g h]
      obtain ⟨added, h1, h2, h3⟩ := ih (C ++ [taggedGlobal url org g])
      refine ⟨taggedGlobal url org g :: added, by rw [h1]; simp, ?_, ?_⟩
      · intro b hb
        rcases List.mem_cons.1 hb with hb | hb
        · exact ⟨g, List.mem_cons_self _ _, hb, h⟩
        · obtain ⟨g1, hg1, hb1, hb2⟩ := h2 b hb
          refine ⟨g1, List.mem_cons_of_mem _ hg1, hb1, ?_⟩
          rintro ⟨c, hc, hcg⟩
          exact hb2 ⟨c, List.mem_append_left _ hc, hcg⟩
      · refine List.Pairwise.cons ?_ h3
        intro b hb hsame
        obtain ⟨g1, _, hb1, hb2⟩ := h2 b hb
        apply hb2
        refine ⟨taggedGlobal url org g, by simp, ?_⟩
        have hbg := sameGlobal_tagged url org g1
        rw [← hb1] at hbg
        exact ⟨hsame.1.trans hbg.1, hsame.2.trans hbg.2⟩

theorem mergeGlobals_covers {V : Type} [DecidableEq V] (url org : String)
    (D C : List (GlobalSet V)) :
    (∀ c ∈ C, c ∈ mergeGlobals url org D C) ∧
    ∀ g ∈ D, ∃ c ∈ mergeGlobals url org D C, SameGlobal c g := by
  induction D generalizing C with
  | nil => exact ⟨fun c hc => hc, by simp⟩
  | cons g rest ih =>
    rw [mergeGlobals_cons]
    obtain ⟨ih1, ih2⟩ := ih (mergeGlobal url org C g)
    have hsub : ∀ c ∈ C, c ∈ mergeGlobal url org C g := by
      intro c hc
      by_cases h : ∃ c ∈ C, SameGlobal c g
      · rw [mergeGlobal_found url org C g h]; exact hc
      · rw [mergeGlobal_not_found url org C g h]; exact List.mem_append_left _ hc
    refine ⟨fun c hc => ih1 c (hsub c hc), ?_⟩
    intro g1 hg1
    rcases List.mem_cons.1 hg1 with h1 | h1
    · subst h1
      by_cases h : ∃ c ∈ C, SameGlobal c g1
      · obtain ⟨c, hc, hcg⟩ := h
        exact ⟨c, ih1 c (hsub c hc), hcg⟩
      · refine ⟨taggedGlobal url org g1, ih1 _ ?_, sameGlobal_tagged url org g1⟩
        rw [mergeGlobal_not_found url org C g1 h]
        simp
    · exact ih2 g1 h1

theorem mergeGlobals_of_covered {V : Type} [DecidableEq V] (url org : String)
    (D C : List (GlobalSet V)) (h : ∀ g ∈ D, ∃ c ∈ C, SameGlobal c g) :
    mergeGlobals url org D C = C := by
  induction D with
  | nil => rfl
  | cons g rest ih =>
    rw [mergeGlobals_cons, mergeGlobal_found url org C g (h g (List.mem_cons_self _ _))]
    exact ih (fun g1 h1 => h g1 (List.mem_cons_of_mem _ h1))

/-- C26: the merge of the global attributes in a local fetch.  The blocks the
project had are kept, unchanged and in order, and blocks are only appended;
a block of the dependency is appended exactly when no block of the list at
that moment has the same Type and equal Variables, so every appended block
comes from a block of the dependency that the project did not have, no two
appended blocks have the same Type and Variables, and afterwards every block of
the dependency has its like in the list.  An appended block without service
specs is tagged with exactly the URL and organization of the dependency, one
with service specs keeps them.  Merging the same blocks a second time changes
nothing. -/
theorem global_merge_spec {V : Type} [DecidableEq V] (url org : String)
    (D C : List (GlobalSet V)) :
    (∃ added, mergeGlobals url org D C = C ++ added ∧
      (∀ b ∈ added, ∃ g ∈ D, b = taggedGlobal url org g ∧ ¬ ∃ c ∈ C, SameGlobal c g) ∧
      added.Pairwise (fun a b => ¬ SameGlobal a b)) ∧
    (∀ g ∈ D, ∃ c ∈ mergeGlobals url org D C, SameGlobal c g) ∧
    (∀ g : GlobalSet V, (∃ c ∈ C, SameGlobal c g) → mergeGlobal url org C g = C) ∧
    (∀ g : GlobalSet V, (¬ ∃ c ∈ C, SameGlobal c g) →
      mergeGlobal url org C g = C ++ [taggedGlobal url org g]) ∧
    (∀ g : GlobalSet V, g.ServiceSpecs = [] →
      taggedGlobal url org g = { g with ServiceSpecs := [⟨url, org⟩] }) ∧
    (∀ g : GlobalSet V, g.ServiceSpecs ≠ [] → taggedGlobal url org g = g) ∧
    mergeGlobals url org D (mergeGlobals url org D C) = mergeGlobals url org D C :=
  ⟨mergeGlobals_extends url org D C, (mergeGlobals_covers url org D C).2,
    fun g h => mergeGlobal_found url org C g h,
    fun g h => mergeGlobal_not_found url org C g h,
    fun g h => by simp [taggedGlobal, h],
    fun g h => by simp [taggedGlobal, h],
    mergeGlobals_of_covered url org D _ (mergeGlobals_covers url org D C).2⟩

theorem global_merge_example :
    mergeGlobals "u" "o" exampleDepGlobals exampleCurrentGlobals =
      exampleCurrentGlobals ++
        [{ Type_ := "LocationAttributes", ServiceSpecs := [⟨"w", "o"⟩],
           Variables := [("lat", "1")] },
         { Type_ := "HTTPSBasicAuthAttributes", ServiceSpecs := [⟨"u", "o"⟩],
           Variables := [("user", "x")] }] := by
  decide

/-! ## Skeleton configuration -/

theorem setVariable_spec (name value : String) (vars : List (String × String))
    (hnodup : (vars.map Prod.fst).Nodup) :
    ((setVariable name value vars).map Prod.fst).Nodup ∧
    ∀ kv, kv ∈ setVariable name value vars ↔ kv = (name, value) ∨ (kv ∈ vars ∧ kv.1 ≠ name) := by
  induction vars with
  | nil => simp [setVariable]
  | cons x rest ih =>
    have hx : x.1 ∉ rest.map Prod.fst := (List.nodup_cons.1 hnodup).1
    have hrest : (rest.map Prod.fst).Nodup := (List.nodup_cons.1 hnodup).2
    obtain ⟨ih1, ih2⟩ := ih hrest
    by_cases h : x.1 = name
    · have hno : ∀ kv ∈ rest, kv.1 ≠ name := by
        intro kv hkv hk
        exact hx (by rw [h, ← hk]; exact List.mem_map_of_mem _ hkv)
      simp only [setVariable, h, beq_self_eq_true, if_true, List.map_cons, List.mem_cons]
      refine ⟨by rw [← h]; exact hnodup, ?_⟩
      intro kv
      constructor
      · rintro (hk | hk)
        · exact Or.inl hk
        · exact Or.inr ⟨Or.inr hk, hno kv hk⟩
      · rintro (hk | ⟨hk | hk, hne⟩)
        · exact Or.inl hk
        · rw [hk] at hne; exact absurd h hne
        · exact Or.inr hk
    · have hb : (x.1 == name) = false := by simpa using h
      simp only [setVariable, hb, Bool.false_eq_true, if_false, List.map_cons, List.mem_cons,
        List.nodup_cons]
      refine ⟨⟨?_, ih1⟩, ?_⟩
      · intro hmem
        obtain ⟨kv, hkv, hk⟩ := List.mem_map.1 hmem
        rcases (ih2 kv).1 hkv with h1 | ⟨h1, _⟩
        · rw [h1] at hk; exact h hk.symm
        · exact hx (by rw [← hk]; exact List.mem_map_of_mem _ h1)
      · intro kv
        rw [ih2 kv]
        constructor
        · rintro (hk | hk | ⟨hk, hne⟩)
          · rw [hk]; exact Or.inr ⟨Or.inl rfl, h⟩
          · exact Or.inl hk
          · exact Or.inr ⟨Or.inr hk, hne⟩
        · rintro (hk | ⟨hk | hk, hne⟩)
          · exact Or.inr (Or.inl hk)
          · exact Or.inl hk
          · exact Or.inr (Or.inr ⟨hk, hne⟩)

theorem skeleton_foldl (uis done : List UserInput) (vars : List (String × String))
    (hnodup : (vars.map Prod.fst).Nodup)
    (hvars : ∀ kv, kv ∈ vars ↔ kv.2 = "" ∧ ∃ ui ∈ done, ui.DefaultValue = "" ∧ ui.Name = kv.1) :
    ((uis.foldl (fun vars ui =>
        if ui.DefaultValue == "" then setVariable ui.Name "" vars else vars) vars).map
      Prod.fst).Nodup ∧
    ∀ kv, kv ∈ uis.foldl (fun vars ui =>
        if ui.DefaultValue == "" then setVariable ui.Name "" vars else vars) vars ↔
      kv.2 = "" ∧ ∃ ui ∈ done ++ uis, ui.DefaultValue = "" ∧ ui.Name = kv.1 := by
  induction uis generalizing done vars with
  | nil =>
    simp only [List.foldl_nil, List.append_nil]
    exact ⟨hnodup, hvars⟩
  | cons ui rest ih =>
    simp only [List.foldl_cons]
    have happ : done ++ ui :: rest = (done ++ [ui]) ++ rest := by simp
    rw [happ]
    by_cases hd : ui.DefaultValue = ""
    · obtain ⟨h1, h2⟩ := setVariable_spec ui.Name "" vars hnodup
      simp only [hd, beq_self_eq_true, if_true]
      refine ih (done ++ [ui]) _ h1 ?_
      intro kv
      rw [h2 kv, hvars kv]
      constructor
      · rintro (hk | ⟨⟨hv, u, hu, hud, hun⟩, _⟩)
        · rw [hk]
          exact ⟨rfl, ui, by simp, hd, rfl⟩
        · exact ⟨hv, u, List.mem_append_left _ hu, hud, hun⟩
      · rintro ⟨hv, u, hu, hud, hun⟩
        by_cases hk : kv.1 = ui.Name
        · left
          exact Prod.ext hk hv
        · right
          refine ⟨⟨hv, u, ?_, hud, hun⟩, hk⟩
          rcases List.mem_append.1 hu with h | h
          · exact h
          · rw [List.mem_singleton] at h
            rw [h] at hun
            exact absurd hun.symm hk
    · have hb : (ui.DefaultValue == "") = false := by simpa using hd
      simp only [hb, Bool.false_eq_true, if_false]
      refine ih (done ++ [ui]) vars hnodup ?_
      intro kv
      rw [hvars kv]
      constructor
      · rintro ⟨hv, u, hu, hud, hun⟩
        exact ⟨hv, u, List.mem_append_left _ hu, hud, hun⟩
      · rintro ⟨hv, u, hu, hud, hun⟩
        refine ⟨hv, u, ?_, hud, hun⟩
        rcases List.mem_append.1 hu with h | h
        · exact h
        · rw [List.mem_singleton] at h
          rw [h] at hud
          exact absurd hud hd

theorem skeletonVariables_spec (uis : List UserInput) :
    ((skeletonVariables uis).map Prod.fst).Nodup ∧
    ∀ kv, kv ∈ skeletonVariables uis ↔
      kv.2 = "" ∧ ∃ ui ∈ uis, ui.DefaultValue = "" ∧ ui.Name = kv.1 := by
  have := skeleton_foldl uis [] [] (by simp) (by simp)
  rw [List.nil_append] at this
  exact this

theorem updateServiceDefandUserInputFile_cases (env : FetchEnv) (proj proj2 : Project)
    (sDef : ServiceFile) (skipServcieDef : Bool)
    (hget : ∀ p, env.GetUserInputsVariableConfiguration p = .ok p.userInputs)
    (hrefresh : ∀ p d p1, env.RefreshServiceDependencies p d = (p1, none) →
      p1.userInputs = p.userInputs)
    (hrun : UpdateServiceDefandUserInputFile env proj sDef skipServcieDef = (proj2, none)) :
    ∃ proj1, proj1.userInputs = proj.userInputs ∧
      (((∃ b ∈ proj.userInputs, b.isFor sDef) ∨ (∀ ui ∈ sDef.UserInputs, ui.DefaultValue ≠ "")) ∧
          proj2 = proj1 ∨
        (¬ ∃ b ∈ proj.userInputs, b.isFor sDef) ∧
          (∃ ui ∈ sDef.UserInputs, ui.DefaultValue = "") ∧
          env.SetUserInputsVariableConfiguration proj1 sDef [skeletonBlock sDef] =
            (proj2, none)) := by
  have hmain : ∀ proj1 : Project, proj1.userInputs = proj.userInputs →
      (match env.GetUserInputsVariableConfiguration proj1 with
        | .error err => (proj1, some err)
        | .ok varConfigs =>
          if !varConfigs.any (fun currentUI =>
            currentUI.Url == sDef.URL && currentUI.Org == sDef.Org &&
              currentUI.VersionRange == sDef.Version) then
            if sDef.UserInputs.any (fun ui => ui.DefaultValue == "") then
              env.SetUserInputsVariableConfiguration proj1 sDef
                [{ Org := sDef.Org, Url := sDef.URL, VersionRange := sDef.Version,
                   Variables := skeletonVariables sDef.UserInputs }]
            else (proj1, none)
          else (proj1, none)) = (proj2, none) →
      ((∃ b ∈ proj.userInputs, b.isFor sDef) ∨ (∀ ui ∈ sDef.UserInputs, ui.DefaultValue ≠ "")) ∧
          proj2 = proj1 ∨
        (¬ ∃ b ∈ proj.userInputs, b.isFor sDef) ∧
          (∃ ui ∈ sDef.UserInputs, ui.DefaultValue = "") ∧
          env.SetUserInputsVariableConfiguration proj1 sDef [skeletonBlock sDef] =
            (proj2, none) := by
    intro proj1 huis h
    rw [hget proj1, huis] at h
    simp only at h
    by_cases hfound : ∃ b ∈ proj.userInputs, b.isFor sDef
    · have hany : proj.userInputs.any (fun currentUI =>
          currentUI.Url == sDef.URL && currentUI.Org == sDef.Org &&
            currentUI.VersionRange == sDef.Version) = true := by
        obtain ⟨b, hb, h1, h2, h3⟩ := hfound
        exact List.any_eq_true.2 ⟨b, hb, by simp [h1, h2, h3]⟩
      simp only [hany, Bool.not_true, Bool.false_eq_true, if_false, Prod.mk.injEq,
        and_true] at h
      exact Or.inl ⟨Or.inl hfound, h.symm⟩
    · have hany : proj.userInputs.any (fun currentUI =>
          currentUI.Url == sDef.URL && currentUI.Org == sDef.Org &&
            currentUI.VersionRange == sDef.Version) = false := by
        rw [List.any_eq_false]
        intro b hb hcon
        simp only [Bool.and_eq_true, beq_iff_eq] at hcon
        exact hfound ⟨b, hb, hcon.1.1, hcon.1.2, hcon.2⟩
      simp only [hany, Bool.not_false, if_true] at h
      by_cases hnd : ∃ ui ∈ sDef.UserInputs, ui.DefaultValue = ""
      · have hany2 : sDef.UserInputs.any (fun ui => ui.DefaultValue == "") = true := by
          obtain ⟨ui, hui, hd⟩ := hnd
          exact List.any_eq_true.2 ⟨ui, hui, by simp [hd]⟩
        simp only [hany2, if_true] at h
        exact Or.inr ⟨hfound, hnd, h⟩
      · have hany2 : sDef.UserInputs.any (fun ui => ui.DefaultValue == "") = false := by
          rw [List.any_eq_false]
          intro ui hui hcon
          exact hnd ⟨ui, hui, by simpa using hcon⟩
        simp only [hany2, Bool.false_eq_true, if_false, Prod.mk.injEq, and_true] at h
        refine Or.inl ⟨Or.inr ?_, h.symm⟩
        intro ui hui hd
        exact hnd ⟨ui, hui, hd⟩
  simp only [UpdateServiceDefandUserInputFile] at hrun
  cases skipServcieDef with
  | true =>
    simp only [Bool.not_true, Bool.false_eq_true, if_false] at hrun
    exact ⟨proj, rfl, hmain proj rfl hrun⟩
  | false =>
    simp only [Bool.not_false, if_true] at hrun
    cases hr : env.RefreshServiceDependencies proj sDef with
    | mk proj1 e =>
      rw [hr] at hrun
      cases e with
      | some err => simp at hrun
      | none =>
        simp only at hrun
        exact ⟨proj1, hrefresh proj sDef proj1 hr, hmain proj1 (hrefresh proj sDef proj1 hr) hrun⟩

/-- C27 (amended): let `UpdateServiceDefandUserInputFile` succeed for the
dependency `d`, where the collaborators read and write the blocks of the
project's user input file.  If the project had no block with the (url, org,
versionRange) of `d`, every variable of `d` without default value is afterwards
a key, set to the empty string, of a block of the project with that triple, and
when `d` has such a variable the block handed over for writing is the skeleton
block.  The skeleton block has the triple of `d`, and its variables are exactly
the names of the variables of `d` without default value, each once and each
set to the empty string.  No block is added when `d` has no variable without
default value, nor when the project already had a block with the triple of
`d`, whatever that block configures. -/
theorem skeleton_configuration (env : FetchEnv) (proj proj2 : Project)
    (sDef : ServiceFile) (skipServcieDef : Bool)
    (hget : ∀ p, env.GetUserInputsVariableConfiguration p = .ok p.userInputs)
    (hset : ∀ p d (b : MicroWork) p1,
      (¬ ∃ c ∈ p.userInputs, c.Url = b.Url ∧ c.Org = b.Org ∧ c.VersionRange = b.VersionRange) →
      env.SetUserInputsVariableConfiguration p d [b] = (p1, none) → b ∈ p1.userInputs)
    (hrefresh : ∀ p d p1, env.RefreshServiceDependencies p d = (p1, none) →
      p1.userInputs = p.userInputs)
    (hrun : UpdateServiceDefandUserInputFile env proj sDef skipServcieDef = (proj2, none)) :
    ((¬ ∃ b ∈ proj.userInputs, b.isFor sDef) →
      ∀ ui ∈ sDef.UserInputs, ui.DefaultValue = "" →
        ∃ b ∈ proj2.userInputs, b.isFor sDef ∧ (ui.Name, "") ∈ b.Variables) ∧
    ((¬ ∃ b ∈ proj.userInputs, b.isFor sDef) → (∃ ui ∈ sDef.UserInputs, ui.DefaultValue = "") →
      ∃ proj1, proj1.userInputs = proj.userInputs ∧
        env.SetUserInputsVariableConfiguration proj1 sDef [skeletonBlock sDef] = (proj2, none)) ∧
    ((skeletonBlock sDef).isFor sDef ∧
      (((skeletonBlock sDef).Variables.map Prod.fst).Nodup) ∧
      ∀ kv, kv ∈ (skeletonBlock sDef).Variables ↔
        kv.2 = "" ∧ ∃ ui ∈ sDef.UserInputs, ui.DefaultValue = "" ∧ ui.Name = kv.1) ∧
    (((∃ b ∈ proj.userInputs, b.isFor sDef) ∨ (∀ ui ∈ sDef.UserInputs, ui.DefaultValue ≠ "")) →
      proj2.userInputs = proj.userInputs) := by
  obtain ⟨proj1, huis, hcases⟩ := updateServiceDefandUserInputFile_cases env proj proj2 sDef
    skipServcieDef hget hrefresh hrun
  obtain ⟨hnodup, hvars⟩ := skeletonVariables_spec sDef.UserInputs
  refine ⟨?_, ?_, ⟨⟨rfl, rfl, rfl⟩, hnodup, hvars⟩, ?_⟩
  · intro hno ui hui hd
    rcases hcases with ⟨hor, _⟩ | ⟨_, _, hsetrun⟩
    · rcases hor with h | h
      · exact absurd h hno
      · exact absurd hd (h ui hui)
    · refine ⟨skeletonBlock sDef, hset proj1 sDef _ proj2 ?_ hsetrun, ⟨rfl, rfl, rfl⟩, ?_⟩
      · rw [huis]
        exact hno
      · exact (hvars (ui.Name, "")).2 ⟨rfl, ui, hui, hd, rfl⟩
  · intro hno hnd
    rcases hcases with ⟨hor, _⟩ | ⟨_, _, hsetrun⟩
    · rcases hor with h | h
      · exact absurd h hno
      · obtain ⟨ui, hui, hd⟩ := hnd
        exact absurd hd (h ui hui)
    · exact ⟨proj1, huis, hsetrun⟩
  · intro hor
    rcases hcases with ⟨_, h2⟩ | ⟨hno, hnd, _⟩
    · rw [h2, huis]
    · rcases hor with h | h
      · exact absurd h hno
      · obtain ⟨ui, hui, hd⟩ := hnd
        exact absurd hd (h ui hui)

/-- Witness of C27 (amended): the definition of `u` 1.0 that declares `port` is
added to a project without configuration blocks. -/
theorem skeleton_configuration_witness :
    ((¬ ∃ b ∈ projOneRecord.userInputs, b.isFor recU1Port) →
      ∀ ui ∈ recU1Port.UserInputs, ui.DefaultValue = "" →
        ∃ b ∈ projSkeleton.userInputs, b.isFor recU1Port ∧ (ui.Name, "") ∈ b.Variables) ∧
    ((¬ ∃ b ∈ projOneRecord.userInputs, b.isFor recU1Port) →
      (∃ ui ∈ recU1Port.UserInputs, ui.DefaultValue = "") →
      ∃ proj1, proj1.userInputs = projOneRecord.userInputs ∧
        (exampleEnv []).SetUserInputsVariableConfiguration proj1 recU1Port
          [skeletonBlock recU1Port] = (projSkeleton, none)) ∧
    ((skeletonBlock recU1Port).isFor recU1Port ∧
      (((skeletonBlock recU1Port).Variables.map Prod.fst).Nodup) ∧
      ∀ kv, kv ∈ (skeletonBlock recU1Port).Variables ↔
        kv.2 = "" ∧ ∃ ui ∈ recU1Port.UserInputs, ui.DefaultValue = "" ∧ ui.Name = kv.1) ∧
    (((∃ b ∈ projOneRecord.userInputs, b.isFor recU1Port) ∨
        (∀ ui ∈ recU1Port.UserInputs, ui.DefaultValue ≠ "")) →
      projSkeleton.userInputs = projOneRecord.userInputs) :=
  skeleton_configuration (exampleEnv []) projOneRecord projSkeleton recU1Port true
    (fun _ => rfl)
    (fun p _ b p1 _ h => by
      have h1 : p1 = { p with userInputs := p.userInputs ++ [b] } := (Prod.mk.inj h).1.symm
      rw [h1]
      simp)
    (fun p _ p1 h => by
      have h1 : p1 = p := (Prod.mk.inj h).1.symm
      rw [h1])
    (by rfl)

/-- C27 (counterexample): the project already has a block for `u` 1.0 of
organization `o` that configures nothing.  `UpdateServiceDefandUserInputFile`
succeeds for the definition of `u` 1.0 that declares `port` without default
value and changes nothing: `port` is not a key of any block with that triple. -/
theorem skeleton_blocked_counterexample :
    UpdateServiceDefandUserInputFile (exampleEnv []) projConfigured recU1Port true =
      (projConfigured, none) ∧
    inputPort ∈ recU1Port.UserInputs ∧ inputPort.DefaultValue = "" ∧
    ¬ ∃ b ∈ projConfigured.userInputs,
        (b.Url = recU1Port.URL ∧ b.Org = recU1Port.Org ∧ b.VersionRange = recU1Port.Version) ∧
        ∃ kv ∈ b.Variables, kv.1 = inputPort.Name := by
  refine ⟨by rfl, by decide, rfl, by decide⟩

/-! ## A walk over full, distinct specs -/

theorem matches_iff_eq_of_full (a b : ServiceSpec) (ha : a.isFull = true) (hb : b.isFull = true) :
    a.Matches b = true ↔ a = b := by
  constructor
  · intro h
    rw [ServiceSpec.matches_iff] at h
    simp only [ServiceSpec.isFull, Bool.and_eq_true, bne_iff_ne, ne_eq] at ha hb
    obtain ⟨h1, h2, h3, h4⟩ := h
    cases a
    cases b
    simp only [ServiceSpec.mk.injEq]
    simp only at ha hb h1 h2 h3 h4
    tauto
  · intro h
    rw [h]
    exact ServiceSpec.matches_self b

theorem fullRecords_mem (read : String → Except String ServiceFile) (depFiles : List FileInfo)
    (h : fullRecords read depFiles = true) (g : FileInfo) (hg : g ∈ depFiles) :
    ∃ r, read g.Name = .ok r ∧ r.spec.isFull = true ∧
      ∀ s ∈ r.RequiredServices, s.spec.isFull = true := by
  have hg1 := List.all_eq_true.1 h g hg
  cases hr : read g.Name with
  | error err => simp [hr] at hg1
  | ok r =>
    simp only [hr, Bool.and_eq_true, List.all_eq_true] at hg1
    exact ⟨r, rfl, hg1.1, hg1.2⟩

theorem covered_of_grows (read : String → Except String ServiceFile) (depFiles : List FileInfo)
    (t sp : ServiceSpec) (deps deps2 : List ServiceDependency) (hg : Grows deps deps2)
    (h : Covered read depFiles t sp deps) : Covered read depFiles t sp deps2 := by
  intro f r hreach hread
  obtain ⟨d, hd, hs, ht⟩ := h f r hreach hread
  obtain ⟨d2, hd2, hs2, ht2⟩ := hg.exists_mem d hd
  exact ⟨d2, hd2, hs2.trans hs, ht2 t ht⟩

theorem map_service_addTopRefAt (t : ServiceSpec) (deps : List ServiceDependency) (i : Nat) :
    (addTopRefAt t deps i).map (fun d => d.Service) = deps.map (fun d => d.Service) := by
  induction deps generalizing i with
  | nil => rfl
  | cons d rest ih =>
    cases i with
    | zero => simp [addTopRefAt, d.AddTopRef_Service t]
    | succ i => simp [addTopRefAt, ih]

theorem nodesOk_append (read : String → Except String ServiceFile) (depFiles : List FileInfo)
    (deps : List ServiceDependency) (t : ServiceSpec) (f : FileInfo) (r : ServiceFile)
    (hok : NodesOk read depFiles deps) (hf : f ∈ depFiles) (hread : read f.Name = .ok r)
    (ht : t.isFull = true) (hnew : ∀ d ∈ deps, d.Service ≠ r.spec) :
    NodesOk read depFiles (deps ++ [NewServiceDependency r.spec t f]) := by
  obtain ⟨h1, h2, h3⟩ := hok
  refine ⟨?_, ?_, ?_⟩
  · intro d hd
    rcases List.mem_append.1 hd with hd | hd
    · exact h1 d hd
    · rw [List.mem_singleton] at hd
      exact ⟨f, hf, r, hread, by rw [hd]; rfl, by rw [hd]; rfl⟩
  · rw [List.map_append, List.nodup_append]
    refine ⟨h2, by simp, ?_⟩
    intro a ha hb
    obtain ⟨d, hd, hda⟩ := List.mem_map.1 ha
    simp only [List.map_cons, List.map_nil, List.mem_singleton] at hb
    exact hnew d hd (by rw [hda, hb]; rfl)
  · intro d hd t1 ht1
    rcases List.mem_append.1 hd with hd | hd
    · exact h3 d hd t1 ht1
    · rw [List.mem_singleton] at hd
      rw [hd] at ht1
      simp only [NewServiceDependency, List.mem_singleton] at ht1
      rw [ht1]
      exact ht

theorem nodesOk_addTopRefAt (read : String → Except String ServiceFile)
    (depFiles : List FileInfo) (deps : List ServiceDependency) (t : ServiceSpec) (i : Nat)
    (hok : NodesOk read depFiles deps) (ht : t.isFull = true) :
    NodesOk read depFiles (addTopRefAt t deps i) := by
  obtain ⟨h1, h2, h3⟩ := hok
  refine ⟨?_, ?_, ?_⟩
  · intro d hd
    rcases mem_addTopRefAt t deps i d hd with hd | ⟨d1, hd1, hx⟩
    · exact h1 d hd
    · obtain ⟨g, hg, r, hr, hs, hfi⟩ := h1 d1 hd1
      exact ⟨g, hg, r, hr, by rw [hx, d1.AddTopRef_Service t, hs],
        by rw [hx, d1.AddTopRef_FileInfo t, hfi]⟩
  · rw [map_service_addTopRefAt]
    exact h2
  · intro d hd t1 ht1
    rcases mem_addTopRefAt t deps i d hd with hd | ⟨d1, hd1, hx⟩
    · exact h3 d hd t1 ht1
    · rw [hx] at ht1
      rcases d1.mem_AddTopRef t t1 ht1 with h | h
      · exact h3 d1 hd1 t1 h
      · rw [h]; exact ht

theorem depFilesLoop_skip (read : String → Except String ServiceFile)
    (recCall : ServiceSpec → List ServiceDependency →
      Option (List ServiceDependency × Option String))
    (spTop sp : ServiceSpec) (theItem : Option Nat) (files rest : List FileInfo)
    (hskip : ∀ g ∈ files, ∃ r, read g.Name = .ok r ∧ r.spec.Matches sp = false)
    (deps : List ServiceDependency) :
    depFilesLoop read recCall spTop sp theItem (files ++ rest) deps =
      depFilesLoop read recCall spTop sp theItem rest deps := by
  induction files with
  | nil => rfl
  | cons g more ih =>
    obtain ⟨r, hr, hm⟩ := hskip g (List.mem_cons_self _ _)
    simp only [List.cons_append, depFilesLoop, hr, hm, Bool.false_eq_true, if_false]
    exact ih (fun g1 h1 => hskip g1 (List.mem_cons_of_mem _ h1))

theorem depFilesLoop_unique (read : String → Except String ServiceFile)
    (recCall : ServiceSpec → List ServiceDependency →
      Option (List ServiceDependency × Option String))
    (spTop sp : ServiceSpec) (theItem : Option Nat) (before post : List FileInfo)
    (f : FileInfo) (r : ServiceFile)
    (hbefore : ∀ g ∈ before, ∃ r1, read g.Name = .ok r1 ∧ r1.spec.Matches sp = false)
    (hpost : ∀ g ∈ post, ∃ r1, read g.Name = .ok r1 ∧ r1.spec.Matches sp = false)
    (hread : read f.Name = .ok r) (hm : r.spec.Matches sp = true)
    (deps deps2 : List ServiceDependency) (e : Option String)
    (h : depFilesLoop read recCall spTop sp theItem (before ++ f :: post) deps =
      some (deps2, e)) :
    ∃ deps1, (theItem = none → deps1 = deps ++ [NewServiceDependency r.spec spTop f]) ∧
      (∀ i, theItem = some i → deps1 = addTopRefAt spTop deps i) ∧
      requiredServicesLoop recCall r.RequiredServices deps1 = some deps2 := by
  rw [depFilesLoop_skip read recCall spTop sp theItem before (f :: post) hbefore] at h
  simp only [depFilesLoop, hread, hm, if_true] at h
  have hrest : ∀ d, depFilesLoop read recCall spTop sp theItem post d = some (d, none) := by
    intro d
    have := depFilesLoop_skip read recCall spTop sp theItem post [] hpost d
    rw [List.append_nil] at this
    rw [this]
    rfl
  cases theItem with
  | none =>
    simp only at h
    cases hreq : requiredServicesLoop recCall r.RequiredServices
        (deps ++ [NewServiceDependency r.spec spTop f]) with
    | none => rw [hreq] at h; simp at h
    | some deps3 =>
      rw [hreq] at h
      simp only [hrest, Option.some.injEq, Prod.mk.injEq] at h
      exact ⟨deps ++ [NewServiceDependency r.spec spTop f], fun _ => rfl,
        fun i hi => by simp at hi, by rw [hreq, h.1]⟩
  | some i =>
    simp only at h
    cases hreq : requiredServicesLoop recCall r.RequiredServices (addTopRefAt spTop deps i) with
    | none => rw [hreq] at h; simp at h
    | some deps3 =>
      rw [hreq] at h
      simp only [hrest, Option.some.injEq, Prod.mk.injEq] at h
      refine ⟨addTopRefAt spTop deps i, fun hn => by simp at hn, fun j hj => ?_,
        by rw [hreq, h.1]⟩
      simp only [Option.some.injEq] at hj
      rw [hj]

theorem depFilesLoop_no_match (read : String → Except String ServiceFile)
    (recCall : ServiceSpec → List ServiceDependency →
      Option (List ServiceDependency × Option String))
    (spTop sp : ServiceSpec) (theItem : Option Nat) (files : List FileInfo)
    (hskip : ∀ g ∈ files, ∃ r, read g.Name = .ok r ∧ r.spec.Matches sp = false)
    (deps : List ServiceDependency) :
    depFilesLoop read recCall spTop sp theItem files deps = some (deps, none) := by
  have := depFilesLoop_skip read recCall spTop sp theItem files [] hskip deps
  rw [List.append_nil] at this
  rw [this]
  rfl

theorem requiredServicesLoop_covered (read : String → Except String ServiceFile)
    (depFiles : List FileInfo) (t : ServiceSpec)
    (recCall : ServiceSpec → List ServiceDependency →
      Option (List ServiceDependency × Option String))
    (req : List RequiredService)
    (hrec : ∀ s ∈ req, ∀ d d2 e, recCall s.spec d = some (d2, e) → NodesOk read depFiles d →
      NodesOk read depFiles d2 ∧ Grows d d2 ∧ Covered read depFiles t s.spec d2)
    (deps deps2 : List ServiceDependency)
    (h : requiredServicesLoop recCall req deps = some deps2) (hok : NodesOk read depFiles deps) :
    NodesOk read depFiles deps2 ∧ Grows deps deps2 ∧
      ∀ s ∈ req, Covered read depFiles t s.spec deps2 := by
  induction req generalizing deps with
  | nil =>
    simp only [requiredServicesLoop, Option.some.injEq] at h
    subst h
    exact ⟨hok, Grows.refl deps, by simp⟩
  | cons s rest ih =>
    simp only [requiredServicesLoop] at h
    split at h
    · exact absurd h (by simp)
    · rename_i deps1 e heq
      obtain ⟨hok1, hg1, hc1⟩ := hrec s (List.mem_cons_self _ _) deps deps1 e heq hok
      obtain ⟨hok2, hg2, hc2⟩ :=
        ih (fun s1 h1 => hrec s1 (List.mem_cons_of_mem _ h1)) deps1 h hok1
      refine ⟨hok2, hg1.trans hg2, ?_⟩
      intro s1 hs1
      rcases List.mem_cons.1 hs1 with h1 | h1
      · rw [h1]
        exact covered_of_grows read depFiles t s.spec deps1 deps2 hg2 hc1
      · exact hc2 s1 h1

theorem sameRecordSpec_of_eq (read : String → Except String ServiceFile) (g1 g2 : FileInfo)
    (r1 r2 : ServiceFile) (h1 : read g1.Name = .ok r1) (h2 : read g2.Name = .ok r2)
    (h : r1.spec = r2.spec) : sameRecordSpec read g1 g2 = true := by
  simp [sameRecordSpec, h1, h2, h]

theorem unique_match_split (read : String → Except String ServiceFile)
    (depFiles : List FileInfo) (hfull : fullRecords read depFiles = true)
    (hdist : depFiles.Pairwise (fun g1 g2 => sameRecordSpec read g1 g2 = false))
    (sp : ServiceSpec) (hsp : sp.isFull = true) (f : FileInfo) (hf : f ∈ depFiles)
    (r : ServiceFile) (hread : read f.Name = .ok r) (hm : r.spec.Matches sp = true) :
    ∃ before post, depFiles = before ++ f :: post ∧
      (∀ g ∈ before, ∃ r1, read g.Name = .ok r1 ∧ r1.spec.Matches sp = false) ∧
      (∀ g ∈ post, ∃ r1, read g.Name = .ok r1 ∧ r1.spec.Matches sp = false) := by
  obtain ⟨before, post, hsplit⟩ := List.append_of_mem hf
  obtain ⟨r0, hr0, hr0full, _⟩ := fullRecords_mem read depFiles hfull f hf
  rw [hread] at hr0
  cases hr0
  have hrsp : r.spec = sp := (matches_iff_eq_of_full _ _ hr0full hsp).1 hm
  have hdist1 := hdist
  rw [hsplit, List.pairwise_append, List.pairwise_cons] at hdist1
  obtain ⟨_, ⟨hfpost, _⟩, hbf⟩ := hdist1
  refine ⟨before, post, hsplit, ?_, ?_⟩
  · intro g hg
    have hgmem : g ∈ depFiles := by rw [hsplit]; exact List.mem_append_left _ hg
    obtain ⟨r1, hr1, hr1full, _⟩ := fullRecords_mem read depFiles hfull g hgmem
    refine ⟨r1, hr1, ?_⟩
    cases hm1 : r1.spec.Matches sp with
    | false => rfl
    | true =>
      have h1 : r1.spec = sp := (matches_iff_eq_of_full _ _ hr1full hsp).1 hm1
      have := hbf g hg f (List.mem_cons_self _ _)
      rw [sameRecordSpec_of_eq read g f r1 r hr1 hread (h1.trans hrsp.symm)] at this
      exact absurd this (by simp)
  · intro g hg
    have hgmem : g ∈ depFiles := by
      rw [hsplit]; exact List.mem_append_right _ (List.mem_cons_of_mem _ hg)
    obtain ⟨r1, hr1, hr1full, _⟩ := fullRecords_mem read depFiles hfull g hgmem
    refine ⟨r1, hr1, ?_⟩
    cases hm1 : r1.spec.Matches sp with
    | false => rfl
    | true =>
      have h1 : r1.spec = sp := (matches_iff_eq_of_full _ _ hr1full hsp).1 hm1
      have := hfpost g hg
      rw [sameRecordSpec_of_eq read f g r r1 hread hr1 (hrsp.trans h1.symm)] at this
      exact absurd this (by simp)

theorem walk_covered (read : String → Except String ServiceFile) (depFiles : List FileInfo)
    (hfull : fullRecords read depFiles = true)
    (hdist : depFiles.Pairwise (fun g1 g2 => sameRecordSpec read g1 g2 = false))
    (t : ServiceSpec) (ht : t.isFull = true) (fuel : Nat) (sp : ServiceSpec)
    (hsp : sp.isFull = true) (deps deps2 : List ServiceDependency) (e : Option String)
    (hok : NodesOk read depFiles deps)
    (h : getDependencyDependencyInfo read fuel t sp depFiles deps = some (deps2, e)) :
    NodesOk read depFiles deps2 ∧ Grows deps deps2 ∧ Covered read depFiles t sp deps2 := by
  induction fuel generalizing sp deps deps2 e with
  | zero => simp [getDependencyDependencyInfo] at h
  | succ fuel ih =>
    simp only [getDependencyDependencyInfo] at h
    by_cases hex : ∃ f ∈ depFiles, ∃ r, read f.Name = .ok r ∧ r.spec.Matches sp = true
    · obtain ⟨f, hf, r, hread, hm⟩ := hex
      obtain ⟨before, post, hsplit, hbefore, hpost⟩ :=
        unique_match_split read depFiles hfull hdist sp hsp f hf r hread hm
      obtain ⟨r0, hr0, hrfull, hreqfull⟩ := fullRecords_mem read depFiles hfull f hf
      rw [hread] at hr0
      cases hr0
      have hrsp : r.spec = sp := (matches_iff_eq_of_full _ _ hrfull hsp).1 hm
      have h1 := h
      rw [hsplit] at h1
      obtain ⟨deps1, hnone, hsome, hreq⟩ := depFilesLoop_unique read _ t sp _ before post f r
        hbefore hpost hread hm deps deps2 e h1
      have hstart : NodesOk read depFiles deps1 ∧ Grows deps deps1 ∧
          ∃ d ∈ deps1, d.Service = r.spec ∧ t ∈ d.TopSvcRefs := by
        cases hidx : deps.findIdx? (fun d => d.Service.Matches sp) with
        | none =>
          rw [hnone hidx]
          have hnew : ∀ d ∈ deps, d.Service ≠ r.spec := by
            intro d hd heq
            have := (List.findIdx?_eq_none_iff.1 hidx) d hd
            rw [heq, hrsp, ServiceSpec.matches_self] at this
            exact absurd this (by simp)
          exact ⟨nodesOk_append read depFiles deps t f r hok hf hread ht hnew, Grows.append deps _,
            NewServiceDependency r.spec t f, by simp, rfl, by simp [NewServiceDependency]⟩
        | some i =>
          rw [hsome i hidx]
          have hok1 := nodesOk_addTopRefAt read depFiles deps t i hok ht
          refine ⟨hok1, Grows.addTopRefAt t deps i, ?_⟩
          obtain ⟨hlt, hp, _⟩ := List.findIdx?_eq_some_iff_getElem.1 hidx
          obtain ⟨g, hg, rg, hrg, hsvc, _⟩ := hok.1 deps[i] (List.getElem_mem hlt)
          obtain ⟨rg0, hrg0, hrgfull, _⟩ := fullRecords_mem read depFiles hfull g hg
          rw [hrg] at hrg0
          cases hrg0
          have hsvcsp : deps[i].Service = sp := by
            have hp1 : deps[i].Service.Matches sp = true := by simpa using hp
            exact (matches_iff_eq_of_full _ _ (by rw [hsvc]; exact hrgfull) hsp).1 hp1
          have hget : (addTopRefAt t deps i)[i]? = some (deps[i].AddTopRef t) := by
            rw [getElem?_addTopRefAt, if_pos rfl, List.getElem?_eq_getElem hlt]
            rfl
          have hmem : deps[i].AddTopRef t ∈ addTopRefAt t deps i := List.getElem?_mem hget
          obtain ⟨t1, ht1, ht1m⟩ := deps[i].exists_match_AddTopRef t
          have ht1eq : t1 = t :=
            (matches_iff_eq_of_full _ _ (hok1.2.2 _ hmem t1 ht1) ht).1 ht1m
          exact ⟨deps[i].AddTopRef t, hmem,
            by rw [deps[i].AddTopRef_Service t, hsvcsp, hrsp], by subst ht1eq; exact ht1⟩
      obtain ⟨hok1, hg1, d, hd, hdsvc, hdt⟩ := hstart
      obtain ⟨hok2, hg2, hcov⟩ := requiredServicesLoop_covered read depFiles t _
        r.RequiredServices
        (fun s hs d1 d2 e1 hcall hokd =>
          ih s.spec (hreqfull s hs) d1 d2 e1 hokd (by rw [hsplit]; exact hcall))
        deps1 deps2 hreq hok1
      refine ⟨hok2, hg1.trans hg2, ?_⟩
      intro f1 r1 hreach hread1
      have hunique : ∀ g rg, g ∈ depFiles → read g.Name = .ok rg →
          rg.spec.Matches sp = true → rg = r := by
        intro g rg hg hrg hmg
        rw [hsplit] at hg
        rcases List.mem_append.1 hg with hg | hg
        · obtain ⟨r2, hr2, hm2⟩ := hbefore g hg
          rw [hrg] at hr2
          cases hr2
          rw [hmg] at hm2
          exact absurd hm2 (by simp)
        · rcases List.mem_cons.1 hg with hg | hg
          · rw [hg, hread] at hrg
            cases hrg
            rfl
          · obtain ⟨r2, hr2, hm2⟩ := hpost g hg
            rw [hrg] at hr2
            cases hr2
            rw [hmg] at hm2
            exact absurd hm2 (by simp)
      cases hreach with
      | direct _ _ r2 hf1 hr2 hm2 =>
        rw [hread1] at hr2
        cases hr2
        have := hunique f1 r1 hf1 hread1 hm2
        obtain ⟨d2, hd2, hs2, ht2⟩ := hg2.exists_mem d hd
        exact ⟨d2, hd2, by rw [hs2, hdsvc, this], ht2 t hdt⟩
      | through _ g rg s _ hg hrg hmg hs hreach1 =>
        have := hunique g rg hg hrg hmg
        rw [this] at hs
        exact hcov s hs f1 r1 hreach1 hread1
    · have hskip : ∀ g ∈ depFiles, ∃ r, read g.Name = .ok r ∧ r.spec.Matches sp = false := by
        intro g hg
        obtain ⟨r, hr, _, _⟩ := fullRecords_mem read depFiles hfull g hg
        refine ⟨r, hr, ?_⟩
        cases hm : r.spec.Matches sp with
        | false => rfl
        | true => exact absurd ⟨g, hg, r, hr, hm⟩ hex
      rw [depFilesLoop_no_match read _ t sp _ depFiles hskip deps] at h
      simp only [Option.some.injEq, Prod.mk.injEq] at h
      rw [← h.1]
      refine ⟨hok, Grows.refl deps, ?_⟩
      intro f1 r1 hreach _
      cases hreach with
      | direct _ _ r2 hf1 hr2 hm2 => exact absurd ⟨f1, hf1, r2, hr2, hm2⟩ hex
      | through _ g rg s _ hg hrg hmg _ _ => exact absurd ⟨g, hg, rg, hrg, hmg⟩ hex

/-! ## What removal keeps in the store -/

theorem keepsExcept_refl (S : String → Prop) (proj : Project) : KeepsExcept S proj proj :=
  fun entries h => ⟨entries, h, fun _ he _ => he⟩

theorem keepsExcept_trans {S : String → Prop} {a b c : Project} (hab : KeepsExcept S a b)
    (hbc : KeepsExcept S b c) : KeepsExcept S a c := by
  intro entries h
  obtain ⟨entries1, h1, k1⟩ := hab entries h
  obtain ⟨entries2, h2, k2⟩ := hbc entries1 h1
  exact ⟨entries2, h2, fun e he hs => k2 e (k1 e he hs) hs⟩

theorem keepsExcept_of_eq (S : String → Prop) (a b : Project)
    (h : b.dependencies = a.dependencies) : KeepsExcept S a b :=
  fun entries hd => ⟨entries, by rw [h, hd], fun _ he _ => he⟩

theorem removeDependencyFile_keeps (S : String → Prop) (proj : Project) (name : String)
    (hS : S name) : KeepsExcept S proj (proj.removeDependencyFile name).1 := by
  intro entries hd
  simp only [Project.removeDependencyFile, hd]
  split
  · refine ⟨_, rfl, ?_⟩
    intro e he hne
    refine List.mem_filter.2 ⟨he, ?_⟩
    have : e.info.Name ≠ name := fun h => hne (h ▸ hS)
    simpa using this
  · exact ⟨entries, hd, fun _ he _ => he⟩

theorem removeDependencyFromProject_keeps (S : String → Prop)
    (RSD RCV : Project → Option ServiceFile → Project × Option String)
    (hRSD : ∀ p d, (RSD p d).1.dependencies = p.dependencies)
    (hRCV : ∀ p d, (RCV p d).1.dependencies = p.dependencies)
    (proj : Project) (sd : ServiceDependency) (only : Bool)
    (hS : only = false → S sd.FileInfo.Name) :
    KeepsExcept S proj (removeDependencyFromProject RSD RCV proj sd only).1 := by
  have hfst : ∀ (p : Project) (s : String),
      (if (s != "") = true then (p, some s) else (p, (none : Option String))).1 = p := by
    intro p s
    split <;> rfl
  cases only with
  | true =>
    refine keepsExcept_of_eq _ _ _ ?_
    simp only [removeDependencyFromProject, Bool.not_true, Bool.false_eq_true, if_false]
    rw [hfst]
    exact hRSD _ _
  | false =>
    simp only [removeDependencyFromProject, Bool.not_false, if_true]
    rw [hfst]
    refine keepsExcept_trans ?_ (keepsExcept_of_eq _ _ _ (hRCV _ _))
    refine keepsExcept_trans ?_ (removeDependencyFile_keeps S _ sd.FileInfo.Name (hS rfl))
    exact keepsExcept_of_eq _ _ _ (hRSD _ _)

theorem removeTopRefsLoop_keeps (S : String → Prop)
    (RSD RCV : Project → Option ServiceFile → Project × Option String)
    (hRSD : ∀ p d, (RSD p d).1.dependencies = p.dependencies)
    (hRCV : ∀ p d, (RCV p d).1.dependencies = p.dependencies)
    (topDep : ServiceSpec) (dep : ServiceDependency)
    (hS : dep.TopSvcRefs.length ≤ 1 → (∃ t ∈ dep.TopSvcRefs, t.Matches topDep = true) →
      S dep.FileInfo.Name)
    (tops : List ServiceSpec) (htops : ∀ t ∈ tops, t ∈ dep.TopSvcRefs)
    (proj : Project) (found : Bool) :
    KeepsExcept S proj (removeTopRefsLoop RSD RCV topDep dep tops proj found).1 := by
  induction tops generalizing proj found with
  | nil => exact keepsExcept_refl _ _
  | cons t rest ih =>
    have hrest : ∀ t1 ∈ rest, t1 ∈ dep.TopSvcRefs :=
      fun t1 h1 => htops t1 (List.mem_cons_of_mem _ h1)
    simp only [removeTopRefsLoop]
    by_cases hm : t.Matches topDep = true
    · simp only [hm, if_true]
      by_cases hlen : dep.TopSvcRefs.length ≤ 1
      · simp only [hlen, if_true]
        have hk := removeDependencyFromProject_keeps S RSD RCV hRSD hRCV proj dep false
          (fun _ => hS hlen ⟨t, htops t (List.mem_cons_self _ _), hm⟩)
        cases hr : removeDependencyFromProject RSD RCV proj dep false with
        | mk proj1 msg =>
          rw [hr] at hk
          cases msg with
          | some m => exact hk
          | none => exact keepsExcept_trans hk (ih hrest proj1 true)
      · have hgt : dep.TopSvcRefs.length > 1 := by omega
        simp only [hlen, if_false, hgt, if_true]
        by_cases hsvc : dep.Service.Matches topDep = true
        · simp only [hsvc, if_true]
          have hk := removeDependencyFromProject_keeps S RSD RCV hRSD hRCV proj dep true
            (fun h => absurd h (by simp))
          cases hr : removeDependencyFromProject RSD RCV proj dep true with
          | mk proj1 msg =>
            rw [hr] at hk
            cases msg with
            | some m => exact hk
            | none => exact keepsExcept_trans hk (ih hrest proj1 true)
        · have hsvc1 : dep.Service.Matches topDep = false := by simpa using hsvc
          simp only [hsvc1, Bool.false_eq_true, if_false]
          exact ih hrest proj true
    · have hm1 : t.Matches topDep = false := by simpa using hm
      simp only [hm1, Bool.false_eq_true, if_false]
      exact ih hrest proj found

theorem removeDepsLoop_keeps (S : String → Prop)
    (RSD RCV : Project → Option ServiceFile → Project × Option String)
    (hRSD : ∀ p d, (RSD p d).1.dependencies = p.dependencies)
    (hRCV : ∀ p d, (RCV p d).1.dependencies = p.dependencies)
    (topDep : ServiceSpec) (deps : List ServiceDependency)
    (hS : ∀ dep ∈ deps, dep.TopSvcRefs.length ≤ 1 →
      (∃ t ∈ dep.TopSvcRefs, t.Matches topDep = true) → S dep.FileInfo.Name)
    (proj : Project) (found : Bool) :
    KeepsExcept S proj (removeDepsLoop RSD RCV topDep deps proj found).1 := by
  induction deps generalizing proj found with
  | nil => exact keepsExcept_refl _ _
  | cons dep rest ih =>
    simp only [removeDepsLoop]
    have hk := removeTopRefsLoop_keeps S RSD RCV hRSD hRCV topDep dep
      (hS dep (List.mem_cons_self _ _)) dep.TopSvcRefs (fun _ h => h) proj found
    cases hr : removeTopRefsLoop RSD RCV topDep dep dep.TopSvcRefs proj found with
    | mk proj1 rest1 =>
      cases rest1 with
      | mk found1 msg =>
        rw [hr] at hk
        cases msg with
        | some m => exact hk
        | none =>
          exact keepsExcept_trans hk (ih (fun d hd => hS d (List.mem_cons_of_mem _ hd)) proj1 found1)

/-! ## Removal spares what is still needed -/

theorem topServicesLoop_covered (read : String → Except String ServiceFile)
    (depFiles : List FileInfo) (hfull : fullRecords read depFiles = true)
    (hdist : depFiles.Pairwise (fun g1 g2 => sameRecordSpec read g1 g2 = false))
    (fuel : Nat) (req : List RequiredService) (hreq : ∀ s ∈ req, s.spec.isFull = true)
    (deps deps2 : List ServiceDependency) (hok : NodesOk read depFiles deps)
    (h : topServicesLoop read fuel depFiles req deps = some deps2) :
    NodesOk read depFiles deps2 ∧ Grows deps deps2 ∧
      ∀ s ∈ req, Covered read depFiles s.spec s.spec deps2 := by
  induction req generalizing deps with
  | nil =>
    simp only [topServicesLoop, Option.some.injEq] at h
    subst h
    exact ⟨hok, Grows.refl deps, by simp⟩
  | cons s rest ih =>
    simp only [topServicesLoop] at h
    split at h
    · exact absurd h (by simp)
    · rename_i deps1 e heq
      have hs := hreq s (List.mem_cons_self _ _)
      obtain ⟨hok1, hg1, hc1⟩ :=
        walk_covered read depFiles hfull hdist s.spec hs fuel s.spec hs deps deps1 e hok heq
      obtain ⟨hok2, hg2, hc2⟩ :=
        ih (fun s1 h1 => hreq s1 (List.mem_cons_of_mem _ h1)) deps1 hok1 h
      refine ⟨hok2, hg1.trans hg2, ?_⟩
      intro s1 hs1
      rcases List.mem_cons.1 hs1 with h1 | h1
      · rw [h1]
        exact covered_of_grows read depFiles s.spec s.spec deps1 deps2 hg2 hc1
      · exact hc2 s1 h1

theorem eq_of_mem_of_length_le_one (l : List ServiceSpec) (h : l.length ≤ 1)
    (a b : ServiceSpec) (ha : a ∈ l) (hb : b ∈ l) : a = b := by
  match l, h, ha, hb with
  | [x], _, h1, h2 =>
    simp only [List.mem_singleton] at h1 h2
    rw [h1, h2]

theorem getDependencyFiles_mem (proj : Project) (sfx : String) (depFiles : List FileInfo)
    (h : GetDependencyFiles proj sfx = .ok depFiles) :
    ∃ entries, proj.dependencies = .ok entries ∧
      ∀ f ∈ depFiles, ∃ e ∈ entries, e.info = f := by
  unfold GetDependencyFiles at h
  split at h
  · simp at h
  · rename_i entries hd
    simp only [Except.ok.injEq] at h
    refine ⟨entries, hd, ?_⟩
    intro f hf
    rw [← h] at hf
    have := (List.mem_filter.1 hf).1
    obtain ⟨e, he, hef⟩ := List.mem_map.1 this
    exact ⟨e, he, hef⟩

/-- C28: removal never deletes a record that another top-level service still
needs.  Let every file of the store be readable, let the spec of every record
and of every required-service declaration, of the records and of the project,
have all four fields, let the records have pairwise distinct specs, let the
store be acyclic, and let `RemoveServiceDependency` and
`RemoveConfiguredVariables` leave the store alone.  Then removing a target
with all four fields returns as soon as the bound on the depth of the walk
exceeds the number of files, and a file of the store is gone afterwards only
if every required service of the project from which its record is reachable,
following required-service declarations matched against records, is the
target. -/
theorem removal_spares_needed_records (sfx : String)
    (RSD RCV : Project → Option ServiceFile → Project × Option String)
    (hRSD : ∀ p d, (RSD p d).1.dependencies = p.dependencies)
    (hRCV : ∀ p d, (RCV p d).1.dependencies = p.dependencies)
    (proj : Project) (svc : ServiceFile) (depFiles : List FileInfo)
    (hdef : proj.definition = .ok svc) (hfiles : GetDependencyFiles proj sfx = .ok depFiles)
    (hfull : fullRecords proj.readDependency depFiles = true)
    (hdecl : svc.RequiredServices.all (fun s => s.spec.isFull) = true)
    (hdist : depFiles.Pairwise (fun g1 g2 => sameRecordSpec proj.readDependency g1 g2 = false))
    (hacyclic : Acyclic proj.readDependency depFiles)
    (specRef org version arch : String)
    (hT : (NewServiceSpec specRef org version arch).isFull = true)
    (fuel : Nat) (hfuel : depFiles.length < fuel) :
    ∃ proj1 res entries1,
      removeDependencyAndChildren sfx RSD RCV fuel proj specRef org version arch =
        some (proj1, res) ∧
      proj1.dependencies = .ok entries1 ∧
      ∀ f ∈ depFiles, (¬ ∃ e ∈ entries1, e.info.Name = f.Name) →
        ∀ s ∈ svc.RequiredServices, Reaches proj.readDependency depFiles s.spec f →
          s.spec = NewServiceSpec specRef org version arch := by
  have hwalk : ∀ spTop sp deps, ∃ r,
      getDependencyDependencyInfo proj.readDependency fuel spTop sp depFiles deps = some r := by
    intro spTop sp deps
    exact getDependencyDependencyInfo_some proj.readDependency depFiles hacyclic spTop fuel []
      (by simp) (by simp) sp (by simp) (by simpa using hfuel) deps
  obtain ⟨deps, hloop⟩ := topServicesLoop_some proj.readDependency fuel depFiles hwalk
    svc.RequiredServices []
  have hinfo := getDependencyInfo_of_loop sfx fuel proj svc depFiles deps hdef hfiles hloop
  have hreqfull : ∀ s ∈ svc.RequiredServices, s.spec.isFull = true :=
    fun s hs => List.all_eq_true.1 hdecl s hs
  obtain ⟨hok, _, hcov⟩ := topServicesLoop_covered proj.readDependency depFiles hfull hdist
    fuel svc.RequiredServices hreqfull [] deps ⟨by simp, by simp, by simp⟩ hloop
  obtain ⟨entries, hdeps, hmem⟩ := getDependencyFiles_mem proj sfx depFiles hfiles
  have hkeep := removeDepsLoop_keeps
    (fun n => ∃ dep ∈ deps, n = dep.FileInfo.Name ∧ dep.TopSvcRefs.length ≤ 1 ∧
      ∃ t ∈ dep.TopSvcRefs, t.Matches (NewServiceSpec specRef org version arch) = true)
    RSD RCV hRSD hRCV (NewServiceSpec specRef org version arch) deps
    (fun dep hdep hlen hex => ⟨dep, hdep, rfl, hlen, hex⟩) proj false
  obtain ⟨entries1, hdeps1, hkept⟩ := hkeep entries hdeps
  have hrun : ∃ res, removeDependencyAndChildren sfx RSD RCV fuel proj specRef org version arch =
      some ((removeDepsLoop RSD RCV (NewServiceSpec specRef org version arch) deps proj
        false).1, res) := by
    simp only [removeDependencyAndChildren, hinfo]
    cases hr : removeDepsLoop RSD RCV (NewServiceSpec specRef org version arch) deps proj
        false with
    | mk proj1 rest1 =>
      cases rest1 with
      | mk found msg =>
        cases msg with
        | some m => exact ⟨_, rfl⟩
        | none =>
          simp only
          split
          · exact ⟨_, rfl⟩
          · exact ⟨_, rfl⟩
  obtain ⟨res, hres⟩ := hrun
  refine ⟨_, res, entries1, hres, hdeps1, ?_⟩
  intro f hf hgone s hs hreach
  obtain ⟨e, he, hef⟩ := hmem f hf
  have hS : ∃ dep ∈ deps, e.info.Name = dep.FileInfo.Name ∧ dep.TopSvcRefs.length ≤ 1 ∧
      ∃ t ∈ dep.TopSvcRefs, t.Matches (NewServiceSpec specRef org version arch) = true := by
    by_contra hno
    exact hgone ⟨e, hkept e he hno, by rw [hef]⟩
  obtain ⟨dep, hdep, hname, hlen, t, ht, htm⟩ := hS
  obtain ⟨r, hr, _, _⟩ := fullRecords_mem proj.readDependency depFiles hfull f hf
  obtain ⟨g, _, rg, hrg, hsvc, hfi⟩ := hok.1 dep hdep
  have hrg1 : rg = r := by
    rw [← hfi, ← hname, hef, hr] at hrg
    cases hrg
    rfl
  obtain ⟨d, hd, hdsvc, hdt⟩ := hcov s hs f r hreach hr
  have hdd : d = dep := by
    have hinj := List.inj_on_of_nodup_map hok.2.1
    exact hinj hd hdep (by rw [hdsvc, hsvc, hrg1])
  rw [hdd] at hdt
  have hst : s.spec = t := eq_of_mem_of_length_le_one dep.TopSvcRefs hlen s.spec t hdt ht
  rw [hst]
  exact (matches_iff_eq_of_full _ _ (hok.2.2 dep hdep t ht) hT).1 htm

theorem removeServiceDependency_dependencies (p : Project) (d : Option ServiceFile) :
    (RemoveServiceDependency p d).1.dependencies = p.dependencies := by
  unfold RemoveServiceDependency
  split
  · rfl
  · split <;> rfl

theorem removeConfiguredVariables_dependencies (p : Project) (d : Option ServiceFile) :
    (RemoveConfiguredVariables p d).1.dependencies = p.dependencies := by
  unfold RemoveConfiguredVariables
  split <;> rfl

/-- Witness of C28: removing `a` from the project that requires `a` and `b`,
which both require `c`. -/
theorem removal_spares_needed_records_witness :
    ∃ proj1 res entries1,
      removeDependencyAndChildren definitionFile RemoveServiceDependency
          RemoveConfiguredVariables 4 projShared "a" "o" "1.0" "amd64" = some (proj1, res) ∧
      proj1.dependencies = .ok entries1 ∧
      ∀ f ∈ filesShared, (¬ ∃ e ∈ entries1, e.info.Name = f.Name) →
        ∀ s ∈ defShared.RequiredServices,
          Reaches projShared.readDependency filesShared s.spec f →
            s.spec = NewServiceSpec "a" "o" "1.0" "amd64" :=
  removal_spares_needed_records definitionFile RemoveServiceDependency RemoveConfiguredVariables
    removeServiceDependency_dependencies removeConfiguredVariables_dependencies
    projShared defShared filesShared rfl (by rfl) (by decide) (by decide) (by decide)
    acyclic_projShared "a" "o" "1.0" "amd64" (by decide) 4 (by decide)

end Anax
